import Mathlib

/-!
# SoundTriggerUtils: the sound-model descriptor

A shallow embedding of `SoundModelInfo` from `utils/src/SoundTriggerUtils.cpp`
and theorems about its confidence-level bookkeeping.

Conventions of the embedding

* A C buffer is a `List Nat` of bytes; a nullable pointer to a buffer is an
  `Option`.  A `char **` array is a list of slots, each slot a byte buffer.
* Every function that can run into undefined behaviour in C (a null or
  out-of-bounds access, a string read that finds no terminator inside its
  buffer) returns `Option`; `none` is that fault.
* `calloc` can fail at any call.  The outcome of each call is scripted by a
  `List Bool` that the operations thread through: the head answers the next
  call, and an exhausted script means every further call succeeds.
* `uint32_t` arithmetic is `Nat` arithmetic reduced modulo `2 ^ 32`.
* `MAX_STRING_LEN`, `MAX_KW_USERS_NAME_LEN` and `MAX_CONF_LEVEL_VALUE` are
  defined in headers and are parameters here (`Config`).
* Where it matters which storage a pointer leads to, `operator =` and
  `UpdateConfLevelArray` are embedded a second time on a heap with addresses
  (`Memory`, `HeapInfo`): blocks are allocated and freed, a pointer is the
  address of a block, and a string array is a block of pointer cells.
-/

namespace SoundTriggerUtils

/-! ## Constants -/

/-- Linux `errno` value of `EINVAL`. -/
def EINVAL : Int := 22

/-- Linux `errno` value of `ENOMEM`. -/
def ENOMEM : Int := 12

/-- Modulus of `uint32_t` arithmetic. -/
def UINT32_MOD : Nat := 4294967296

/-- The three header constants the source file uses. -/
structure Config where
  MAX_STRING_LEN : Nat
  MAX_KW_USERS_NAME_LEN : Nat
  MAX_CONF_LEVEL_VALUE : Nat
  deriving DecidableEq, Repr

/-! ## Memory primitives -/

/-- One `calloc` call for `n` bytes: the script decides whether it returns a
zero-filled buffer or `NULL`. -/
def calloc (heap : List Bool) (n : Nat) : Option (List Nat) × List Bool :=
  (if heap.headD true then some (List.replicate n 0) else none, heap.tail)

/-- The bytes `buf[off .. off + n)`; a fault when the range leaves the buffer. -/
def readBytes (buf : List Nat) (off n : Nat) : Option (List Nat) :=
  if off + n ≤ buf.length then some ((buf.drop off).take n) else none

/-- The buffer after storing `bytes` at `buf[off ..]`; a fault when the range
leaves the buffer. -/
def writeBytes (buf : List Nat) (off : Nat) (bytes : List Nat) : Option (List Nat) :=
  if off + bytes.length ≤ buf.length then
    some (buf.take off ++ bytes ++ buf.drop (off + bytes.length))
  else none

/-- The source operand of `memcpy(_, src + off, n)`: copying zero bytes reads
nothing, otherwise the pointer must be non-null and the range inside its
buffer. -/
def memcpySrc (src : Option (List Nat)) (off n : Nat) : Option (List Nat) :=
  if n = 0 then some []
  else
    match src with
    | none => none
    | some buf => readBytes buf off n

/-- The effect of `memset(buf, v, n)`: the first `n` bytes become
`(unsigned char) v`. -/
def memset (buf : List Nat) (v n : Nat) : Option (List Nat) :=
  writeBytes buf 0 (List.replicate n (v % 256))

/-- The C string held in a buffer: the bytes before the first NUL.  A buffer
with no NUL makes the reader run off its end, which is a fault. -/
def cstr (buf : List Nat) : Option (List Nat) :=
  if buf.contains 0 then some (buf.takeWhile (fun b => b != 0)) else none

/-- The libc function `strlcpy(dst, src, dsize)`: copies at most `dsize - 1`
characters of the string in `src` and terminates the result; with
`dsize = 0` nothing is stored. -/
def strlcpy (dst src : List Nat) (dsize : Nat) : Option (List Nat) :=
  match cstr src with
  | none => none
  | some s =>
    if dsize = 0 then some dst
    else writeBytes dst 0 (s.take (dsize - 1) ++ [0])

/-- The libc function `strlcat(dst, src, dsize)`: looks for the end of the
string in the first `dsize` bytes of `dst`; when there is none the buffer is
left alone, otherwise as much of `src` as keeps the total below `dsize` is
appended and terminated. -/
def strlcat (dst src : List Nat) (dsize : Nat) : Option (List Nat) :=
  match cstr src with
  | none => none
  | some s =>
    let dlen := ((dst.take dsize).takeWhile (fun b => b != 0)).length
    if dlen = dsize then some dst
    else if dst.length ≤ dlen then none
    else writeBytes dst dlen (s.take (dsize - dlen - 1) ++ [0])

/-! ## The descriptor -/

/-- The fields of `class SoundModelInfo`.  `cf_levels_` is the whole block
returned by `calloc(1, 2 * cf_levels_size_)`; `det_cf_levels_` points into a
block of that kind and is kept as its byte offset from the start of the block
it was derived from. -/
structure SoundModelInfo where
  sm_data_ : Option (List Nat)
  sm_size_ : Nat
  num_keyphrases_ : Nat
  num_users_ : Nat
  keyphrases_ : Option (List (List Nat))
  users_ : Option (List (List Nat))
  cf_levels_kw_users_ : Option (List (List Nat))
  cf_levels_ : Option (List Nat)
  det_cf_levels_ : Option Nat
  cf_levels_size_ : Nat
  deriving DecidableEq, Repr

/-- The constructor `SoundModelInfo::SoundModelInfo()`. -/
def SoundModelInfo.ctor : SoundModelInfo where
  sm_data_ := none
  sm_size_ := 0
  num_keyphrases_ := 0
  num_users_ := 0
  keyphrases_ := none
  users_ := none
  cf_levels_kw_users_ := none
  cf_levels_ := none
  det_cf_levels_ := none
  cf_levels_size_ := 0

/-- The `cf_levels_size_` bytes `cf_levels_[0 .. cf_levels_size_)`. -/
def SoundModelInfo.cfLevels (d : SoundModelInfo) : Option (List Nat) :=
  match d.cf_levels_ with
  | none => none
  | some blk => readBytes blk 0 d.cf_levels_size_

/-- The `cf_levels_size_` bytes `det_cf_levels_[0 .. cf_levels_size_)`, read
from the block `cf_levels_` points to. -/
def SoundModelInfo.detCfLevels (d : SoundModelInfo) : Option (List Nat) :=
  match d.cf_levels_, d.det_cf_levels_ with
  | some blk, some off => readBytes blk off d.cf_levels_size_
  | _, _ => none

/-! ## String arrays -/

/-- `SoundModelInfo::FreeArrayPtrs(arr, arr_len)`: a null array is ignored;
otherwise the slots `arr[0 .. arr_len)` are read and freed, which is a fault
when the array has fewer slots.  The result tells only whether the call is
well defined. -/
def FreeArrayPtrs (arr : Option (List (List Nat))) (arr_len : Nat) : Option Unit :=
  match arr with
  | none => some ()
  | some slots => if arr_len ≤ slots.length then some () else none

/-- The slot loop of `AllocArrayPtrs`: one `calloc(elem_len, sizeof(char))`
per slot; the first failure frees what was allocated and gives up. -/
def allocSlots (elem_len : Nat) : Nat → List Bool → Option (List (List Nat)) × List Bool
  | 0, heap => (some [], heap)
  | n + 1, heap =>
    match calloc heap elem_len with
    | (none, heap1) => (none, heap1)
    | (some slot, heap1) =>
      match allocSlots elem_len n heap1 with
      | (none, heap2) => (none, heap2)
      | (some slots, heap2) => (some (slot :: slots), heap2)

/-- `SoundModelInfo::AllocArrayPtrs(&arr, arr_len, elem_len)`: the value left
in `arr` (null on any failed allocation) and the rest of the script.  The
first answer of the script is for `calloc(arr_len, sizeof(char *))`. -/
def AllocArrayPtrs (heap : List Bool) (arr_len elem_len : Nat) :
    Option (List (List Nat)) × List Bool :=
  if heap.headD true then allocSlots elem_len arr_len heap.tail
  else (none, heap.tail)

/-! ## SetConfLevels -/

/-- The variables the two nested loops of `SetConfLevels` update: the name
array `cf_levels_kw_users_`, the slot counter `ukw_idx` and the counter `k`. -/
structure LoopState where
  names : List (List Nat)
  ukw_idx : Nat
  k : Nat
  deriving DecidableEq, Repr

/-- The body of `if (user_kw_pair_flags[j][i])`: the slot
`ukw_names[ukw_idx]`, which is `cf_levels_kw_users_[num_keyphrases_ + ukw_idx]`,
receives `users_[j]` followed by `keyphrases_[i]`, and both counters advance. -/
def emitPair (c : Config) (d : SoundModelInfo) (i j : Nat) (st : LoopState) :
    Option LoopState :=
  match d.users_, d.keyphrases_ with
  | some users, some kws =>
    match users[j]?, kws[i]?, st.names[d.num_keyphrases_ + st.ukw_idx]? with
    | some user, some kw, some slot =>
      match strlcpy slot user c.MAX_KW_USERS_NAME_LEN with
      | none => none
      | some slot1 =>
        match strlcat slot1 kw c.MAX_KW_USERS_NAME_LEN with
        | none => none
        | some slot2 =>
          some { names := st.names.set (d.num_keyphrases_ + st.ukw_idx) slot2,
                 ukw_idx := st.ukw_idx + 1,
                 k := st.k + 1 }
    | _, _, _ => none
  | _, _ => none

/-- The loop `for (j = 0; j < num_users_; j++)` for keyphrase `i`, entered with
`rem` iterations left and the loop variable at `j`. -/
def userLoop (c : Config) (d : SoundModelInfo) (num_users_per_kw : List Nat)
    (user_kw_pair_flags : List (List Nat)) (i : Nat) :
    Nat → Nat → LoopState → Option LoopState
  | 0, _, st => some st
  | rem + 1, j, st =>
    match num_users_per_kw[i]? with
    | none => none
    | some bound =>
      if st.k ≥ bound then some st
      else
        match user_kw_pair_flags[j]? with
        | none => none
        | some row =>
          match row[i]? with
          | none => none
          | some flag =>
            if flag ≠ 0 then
              match emitPair c d i j st with
              | none => none
              | some st1 => userLoop c d num_users_per_kw user_kw_pair_flags i rem (j + 1) st1
            else userLoop c d num_users_per_kw user_kw_pair_flags i rem (j + 1) st

/-- The loop `for (i = 0; i < num_keyphrases_; i++)`, entered with `rem`
iterations left and the loop variable at `i`. -/
def kwLoop (c : Config) (d : SoundModelInfo) (num_users_per_kw : Option (List Nat))
    (user_kw_pair_flags : List (List Nat)) :
    Nat → Nat → LoopState → Option LoopState
  | 0, _, st => some st
  | rem + 1, i, st =>
    match d.keyphrases_ with
    | none => none
    | some kws =>
      match kws[i]?, st.names[i]? with
      | some kw, some slot =>
        match strlcpy slot kw c.MAX_KW_USERS_NAME_LEN with
        | none => none
        | some slot1 =>
          let st1 : LoopState := { st with names := st.names.set i slot1 }
          match num_users_per_kw with
          | none => kwLoop c d num_users_per_kw user_kw_pair_flags rem (i + 1) st1
          | some bounds =>
            match userLoop c d bounds user_kw_pair_flags i d.num_users_ 0 st1 with
            | none => none
            | some st2 => kwLoop c d num_users_per_kw user_kw_pair_flags rem (i + 1) st2
      | _, _ => none

/-- `SoundModelInfo::SetConfLevels(num_user_kw_pairs, num_users_per_kw,
user_kw_pair_flags)`: the returned status, the descriptor and the rest of the
allocation script.  `num_users_per_kw` may be null; `user_kw_pair_flags[j]` is
the row of user `j`. -/
def SetConfLevels (c : Config) (d : SoundModelInfo) (num_user_kw_pairs : Nat)
    (num_users_per_kw : Option (List Nat)) (user_kw_pair_flags : List (List Nat))
    (heap : List Bool) : Option (Int × SoundModelInfo × List Bool) :=
  let size := (d.num_keyphrases_ + num_user_kw_pairs) % UINT32_MOD
  let d1 : SoundModelInfo := { d with cf_levels_size_ := size }
  if size = 0 then some (0, d1, heap)
  else
    match AllocArrayPtrs heap size c.MAX_KW_USERS_NAME_LEN with
    | (none, heap1) => some (-ENOMEM, { d1 with cf_levels_kw_users_ := none }, heap1)
    | (some names, heap1) =>
      match calloc heap1 ((2 * size) % UINT32_MOD) with
      | (none, heap2) =>
        some (-ENOMEM, { d1 with cf_levels_kw_users_ := some names, cf_levels_ := none }, heap2)
      | (some blk, heap2) =>
        match memset blk c.MAX_CONF_LEVEL_VALUE size with
        | none => none
        | some blk1 =>
          match kwLoop c d num_users_per_kw user_kw_pair_flags d.num_keyphrases_ 0
              { names := names, ukw_idx := 0, k := 0 } with
          | none => none
          | some st =>
            some (0, { d1 with cf_levels_kw_users_ := some st.names,
                               cf_levels_ := some blk1,
                               det_cf_levels_ := some size }, heap2)

/-- Conditions on a call of `SetConfLevels` under which every access it makes
stays inside its array: the block size `2 * (K + U)` fits 32 bits; each of the
`K` keyphrase slots exists and holds a terminated string; and, when
`num_users_per_kw` is not null, it has an entry of at most `U` for every
keyphrase, each of the `num_users_` user slots exists and holds a terminated
string, and the flag matrix has a row for every user with an entry for every
keyphrase. -/
def SetConfLevelsSafe (d : SoundModelInfo) (U : Nat) (upk : Option (List Nat))
    (flags : List (List Nat)) : Prop :=
  2 * (d.num_keyphrases_ + U) < UINT32_MOD ∧
  (∀ i, i < d.num_keyphrases_ →
    ∃ kws kw, d.keyphrases_ = some kws ∧ kws[i]? = some kw ∧ 0 ∈ kw) ∧
  ∀ bounds, upk = some bounds →
    (∀ i, i < d.num_keyphrases_ → ∃ b, bounds[i]? = some b ∧ b ≤ U) ∧
    (∀ j, j < d.num_users_ →
      ∃ users u, d.users_ = some users ∧ users[j]? = some u ∧ 0 ∈ u) ∧
    (∀ j i, j < d.num_users_ → i < d.num_keyphrases_ →
      ∃ row f, flags[j]? = some row ∧ row[i]? = some f)

/-- What both loops of `SetConfLevels` keep true of their variables when the
name array has `size` slots of `len` bytes each: the array keeps that shape
and the two counters are equal. -/
def LoopInv (size len : Nat) (st : LoopState) : Prop :=
  st.names.length = size ∧ (∀ slot ∈ st.names, slot.length = len) ∧ st.k = st.ukw_idx

/-- A fully populated descriptor for the constants `c`: the model data has
`sm_size_` bytes, the block has `2 * cf_levels_size_` bytes (a size that fits
32 bits) with `det_cf_levels_` at offset `cf_levels_size_`, and the three
string arrays have exactly as many slots as their counts say, each slot of the
length `AllocArrayPtrs` was asked for. -/
def FullyPopulated (c : Config) (s : SoundModelInfo) : Prop :=
  (∃ data, s.sm_data_ = some data ∧ data.length = s.sm_size_) ∧
  (∃ blk, s.cf_levels_ = some blk ∧ blk.length = 2 * s.cf_levels_size_ ∧
    2 * s.cf_levels_size_ < UINT32_MOD ∧ s.det_cf_levels_ = some s.cf_levels_size_) ∧
  (∃ kws, s.keyphrases_ = some kws ∧ kws.length = s.num_keyphrases_ ∧
    ∀ kw ∈ kws, kw.length = c.MAX_STRING_LEN) ∧
  (∃ users, s.users_ = some users ∧ users.length = s.num_users_ ∧
    ∀ u ∈ users, u.length = c.MAX_STRING_LEN) ∧
  (∃ names, s.cf_levels_kw_users_ = some names ∧ names.length = s.cf_levels_size_ ∧
    ∀ slot ∈ names, slot.length = c.MAX_KW_USERS_NAME_LEN)

/-! ## UpdateConfLevelArray -/

/-- `SoundModelInfo::UpdateConfLevelArray(conf_levels, cfl_size)`: the
returned status and the descriptor. -/
def UpdateConfLevelArray (d : SoundModelInfo) (conf_levels : Option (List Nat))
    (cfl_size : Nat) : Option (Int × SoundModelInfo) :=
  if cfl_size > d.cf_levels_size_ ∨ conf_levels = none then some (-EINVAL, d)
  else
    match d.cf_levels_ with
    | none => some (0, d)
    | some blk =>
      match memcpySrc conf_levels 0 cfl_size with
      | none => none
      | some bytes =>
        match writeBytes blk 0 bytes with
        | none => none
        | some blk1 => some (0, { d with cf_levels_ := some blk1 })

/-! ## Assignment -/

/-- The loops `for (i = 0; i < n; i++) std::copy(&src[i][0], &src[i][0] + len,
&dst[i][0])` of `operator =`, entered with `rem` iterations left and the loop
variable at `i`. -/
def copySlots (src : Option (List (List Nat))) (len : Nat) :
    Nat → Nat → List (List Nat) → Option (List (List Nat))
  | 0, _, dst => some dst
  | rem + 1, i, dst =>
    match src with
    | none => none
    | some srcSlots =>
      match srcSlots[i]?, dst[i]? with
      | some srcSlot, some dstSlot =>
        match readBytes srcSlot 0 len with
        | none => none
        | some bytes =>
          match writeBytes dstSlot 0 bytes with
          | none => none
          | some dstSlot1 => copySlots src len rem (i + 1) (dst.set i dstSlot1)
      | _, _ => none

/-- One "free it if it exists, then create and copy it" step of `operator =`
for a string array: `old` is the array the target holds, `n` the count just
taken from the source (it is also the length handed to `FreeArrayPtrs`), `src`
the source array. -/
def cloneArray (old src : Option (List (List Nat))) (n len : Nat) (heap : List Bool) :
    Option (Option (List (List Nat)) × List Bool) :=
  match FreeArrayPtrs old n with
  | none => none
  | some _ =>
    match AllocArrayPtrs heap n len with
    | (none, heap1) => some (none, heap1)
    | (some fresh, heap1) =>
      match copySlots src len n 0 fresh with
      | none => none
      | some filled => some (some filled, heap1)

/-- The `sm_data_` step of `operator =`. -/
def cloneData (smi : SoundModelInfo) (heap : List Bool) :
    Option (Option (List Nat) × List Bool) :=
  match calloc heap smi.sm_size_ with
  | (none, heap1) => some (none, heap1)
  | (some buf, heap1) =>
    match memcpySrc smi.sm_data_ 0 smi.sm_size_ with
    | none => none
    | some bytes =>
      match writeBytes buf 0 bytes with
      | none => none
      | some buf1 => some (some buf1, heap1)

/-- The `cf_levels_` and `det_cf_levels_` step of `operator =`: the new block
and the new `det_cf_levels_`.  When `calloc` fails, `cf_levels_ +
cf_levels_size_` is null only for size zero; otherwise it is a bad non-null
pointer that the second `memcpy` writes through. -/
def cloneLevels (smi : SoundModelInfo) (heap : List Bool) :
    Option (Option (List Nat) × Option Nat × List Bool) :=
  let size := smi.cf_levels_size_
  match calloc heap ((2 * size) % UINT32_MOD) with
  | (none, heap1) => if size = 0 then some (none, none, heap1) else none
  | (some blk, heap1) =>
    match memcpySrc smi.cf_levels_ 0 size with
    | none => none
    | some bytes =>
      match writeBytes blk 0 bytes with
      | none => none
      | some blk1 =>
        match smi.det_cf_levels_ with
        | none => if size = 0 then some (some blk1, some size, heap1) else none
        | some off =>
          match memcpySrc smi.cf_levels_ off size with
          | none => none
          | some detBytes =>
            match writeBytes blk1 size detBytes with
            | none => none
            | some blk2 => some (some blk2, some size, heap1)

/-- `SoundModelInfo::operator =(smi)` on the target `self`: the target
afterwards and the rest of the allocation script.  `sameObject` is the outcome
of the test `this == &smi`.  The source is only read. -/
def operator_assign (c : Config) (sameObject : Bool) (self smi : SoundModelInfo)
    (heap : List Bool) : Option (SoundModelInfo × List Bool) :=
  if sameObject then some (self, heap)
  else
    match cloneData smi heap with
    | none => none
    | some (data, heap1) =>
      match cloneLevels smi heap1 with
      | none => none
      | some (blk, det, heap2) =>
        match cloneArray self.keyphrases_ smi.keyphrases_ smi.num_keyphrases_
            c.MAX_STRING_LEN heap2 with
        | none => none
        | some (kws, heap3) =>
          match cloneArray self.users_ smi.users_ smi.num_users_ c.MAX_STRING_LEN heap3 with
          | none => none
          | some (users, heap4) =>
            match cloneArray self.cf_levels_kw_users_ smi.cf_levels_kw_users_
                smi.cf_levels_size_ c.MAX_KW_USERS_NAME_LEN heap4 with
            | none => none
            | some (names, heap5) =>
              some ({ sm_data_ := data,
                      sm_size_ := smi.sm_size_,
                      num_keyphrases_ := smi.num_keyphrases_,
                      num_users_ := smi.num_users_,
                      keyphrases_ := kws,
                      users_ := users,
                      cf_levels_kw_users_ := names,
                      cf_levels_ := blk,
                      det_cf_levels_ := det,
                      cf_levels_size_ := smi.cf_levels_size_ }, heap5)

/-! ## SetKeyPhrases and SetUsers -/

/-- An entry point of the merging engine that lists names
(`getKeywordPhrases`, `getUserNames`): from the model, the capacity stored in
the 16-bit count variable and the pre-allocated slots it gives the returned
status, the count it stores back and the slots as it leaves them. -/
abbrev EngineCall := List Nat → Nat → List (List Nat) → Nat × Nat × List (List Nat)

/-- The two function pointers of `SoundModelLib` that the descriptor uses; a
pointer that `dlsym` did not bind is `none`. -/
structure SoundModelLib where
  GetKeywordPhrases_ : Option EngineCall
  GetUserNames_ : Option EngineCall

/-- `SoundModelLib::GetInstance()`: the shared pointer it returns, from the
static `sml_` and the object `made` that `make_shared` builds on first use. -/
def GetInstance (sml_ : Option SoundModelLib) (made : SoundModelLib) : Option SoundModelLib :=
  match sml_ with
  | none => some made
  | some lib => some lib

/-- Modulus of `uint16_t` arithmetic. -/
def UINT16_MOD : Nat := 65536

/-- `SoundModelInfo::SetKeyPhrases(model, num_phrases)`, with `sml` the pointer
`GetInstance` returned: the returned status, the descriptor and the rest of
the allocation script.  The count travels to and from the engine through the
`uint16_t` variable `sml_numphrases`. -/
def SetKeyPhrases (c : Config) (sml : Option SoundModelLib) (d : SoundModelInfo)
    (model : List Nat) (num_phrases : Nat) (heap : List Bool) :
    Option (Int × SoundModelInfo × List Bool) :=
  match sml with
  | none => some (-EINVAL, d, heap)
  | some lib =>
    let d1 : SoundModelInfo := { d with num_keyphrases_ := num_phrases }
    if num_phrases = 0 then some (0, d1, heap)
    else
      match AllocArrayPtrs heap num_phrases c.MAX_STRING_LEN with
      | (none, heap1) => some (-ENOMEM, { d1 with keyphrases_ := none }, heap1)
      | (some slots, heap1) =>
        match lib.GetKeywordPhrases_ with
        | none => none
        | some call =>
          let out := call model (num_phrases % UINT16_MOD) slots
          let d2 : SoundModelInfo := { d1 with keyphrases_ := some out.2.2 }
          if out.1 ≠ 0 then some (-EINVAL, d2, heap1)
          else if out.2.1 % UINT16_MOD ≠ num_phrases then some (-EINVAL, d2, heap1)
          else some (0, d2, heap1)

/-- `SoundModelInfo::SetUsers(model, num_users)`, with `sml` the pointer
`GetInstance` returned. -/
def SetUsers (c : Config) (sml : Option SoundModelLib) (d : SoundModelInfo)
    (model : List Nat) (num_users : Nat) (heap : List Bool) :
    Option (Int × SoundModelInfo × List Bool) :=
  match sml with
  | none => some (-EINVAL, d, heap)
  | some lib =>
    let d1 : SoundModelInfo := { d with num_users_ := num_users }
    if num_users = 0 then some (0, d1, heap)
    else
      match AllocArrayPtrs heap num_users c.MAX_STRING_LEN with
      | (none, heap1) => some (-ENOMEM, { d1 with users_ := none }, heap1)
      | (some slots, heap1) =>
        match lib.GetUserNames_ with
        | none => none
        | some call =>
          let out := call model (num_users % UINT16_MOD) slots
          let d2 : SoundModelInfo := { d1 with users_ := some out.2.2 }
          if out.1 ≠ 0 then some (-EINVAL, d2, heap1)
          else if out.2.1 % UINT16_MOD ≠ num_users then some (-EINVAL, d2, heap1)
          else some (0, d2, heap1)

/-- The descriptor with the roles of keyphrases and users exchanged. -/
def swapNames (d : SoundModelInfo) : SoundModelInfo :=
  { d with num_keyphrases_ := d.num_users_, num_users_ := d.num_keyphrases_,
           keyphrases_ := d.users_, users_ := d.keyphrases_ }

/-- The library with its two entry points exchanged. -/
def swapCalls (lib : SoundModelLib) : SoundModelLib where
  GetKeywordPhrases_ := lib.GetUserNames_
  GetUserNames_ := lib.GetKeywordPhrases_

/-- An engine that fills nothing in and reports `count` names with status
`ret`. -/
def sampleCall (ret count : Nat) : EngineCall := fun _ _ slots => (ret, count, slots)

/-- A library whose two entry points are bound to `sampleCall ret count`. -/
def sampleLib (ret count : Nat) : SoundModelLib where
  GetKeywordPhrases_ := some (sampleCall ret count)
  GetUserNames_ := some (sampleCall ret count)

/-- The pairs `(i, j)` at which the loop over the users for keyphrase `i`
reaches the body of `if (user_kw_pair_flags[j][i])`, in the order it reaches
them, when it is entered with `rem` iterations left, the loop variable at `j`
and the counter `k` at the given value. -/
def userPairs (num_users_per_kw : List Nat) (user_kw_pair_flags : List (List Nat)) (i : Nat) :
    Nat → Nat → Nat → List (Nat × Nat)
  | 0, _, _ => []
  | rem + 1, j, k =>
    match num_users_per_kw[i]? with
    | none => []
    | some bound =>
      if k ≥ bound then []
      else
        match user_kw_pair_flags[j]? with
        | none => []
        | some row =>
          match row[i]? with
          | none => []
          | some flag =>
            if flag ≠ 0 then
              (i, j) :: userPairs num_users_per_kw user_kw_pair_flags i rem (j + 1) (k + 1)
            else userPairs num_users_per_kw user_kw_pair_flags i rem (j + 1) k

/-- The pairs `(i, j)` for which the two loops of `SetConfLevels` reach the
body of `if (user_kw_pair_flags[j][i])`, in the order they reach them, when the
outer loop is entered with `rem` iterations left, the loop variable at `i` and
the counter `k` at the given value; `k` is carried from one keyphrase to the
next. -/
def kwPairs (num_users : Nat) (num_users_per_kw : Option (List Nat))
    (user_kw_pair_flags : List (List Nat)) : Nat → Nat → Nat → List (Nat × Nat)
  | 0, _, _ => []
  | rem + 1, i, k =>
    match num_users_per_kw with
    | none => kwPairs num_users num_users_per_kw user_kw_pair_flags rem (i + 1) k
    | some bounds =>
      userPairs bounds user_kw_pair_flags i num_users 0 k ++
        kwPairs num_users num_users_per_kw user_kw_pair_flags rem (i + 1)
          (k + (userPairs bounds user_kw_pair_flags i num_users 0 k).length)

/-- The pairs (keyphrase `i`, user `j`) one call of `SetConfLevels` emits a
slot for, in the order of emission. -/
def emittedPairs (d : SoundModelInfo) (num_users_per_kw : Option (List Nat))
    (user_kw_pair_flags : List (List Nat)) : List (Nat × Nat) :=
  kwPairs d.num_users_ num_users_per_kw user_kw_pair_flags d.num_keyphrases_ 0 0

/-- The flag `user_kw_pair_flags[j][i]` is there and set. -/
def Flagged (user_kw_pair_flags : List (List Nat)) (i j : Nat) : Prop :=
  ∃ row f, user_kw_pair_flags[j]? = some row ∧ row[i]? = some f ∧ f ≠ 0

/-- The slot holds the composite name of user `j` and keyphrase `i`: its
string is the first `MAX_KW_USERS_NAME_LEN - 1` characters of the string of
`users_[j]` followed by the string of `keyphrases_[i]`. -/
def HoldsPairName (c : Config) (d : SoundModelInfo) (i j : Nat) (slot : List Nat) : Prop :=
  ∃ (users kws : List (List Nat)) (user kw u p : List Nat),
    d.users_ = some users ∧ users[j]? = some user ∧
    d.keyphrases_ = some kws ∧ kws[i]? = some kw ∧
    cstr user = some u ∧ cstr kw = some p ∧
    cstr slot = some ((u ++ p).take (c.MAX_KW_USERS_NAME_LEN - 1))

/-- Conditions under which every read of a `SetConfLevels` call stays inside
its array, whatever the pair count is: each of the `K` keyphrase slots exists
and holds a terminated string; and, when `num_users_per_kw` is not null, it has
an entry for every keyphrase, each of the `num_users_` user slots exists and
holds a terminated string, and the flag matrix has a row for every user with
an entry for every keyphrase. -/
def SetConfLevelsReadable (d : SoundModelInfo) (upk : Option (List Nat))
    (flags : List (List Nat)) : Prop :=
  (∀ i, i < d.num_keyphrases_ →
    ∃ kws kw, d.keyphrases_ = some kws ∧ kws[i]? = some kw ∧ 0 ∈ kw) ∧
  ∀ bounds, upk = some bounds →
    (∀ i, i < d.num_keyphrases_ → ∃ b, bounds[i]? = some b) ∧
    (∀ j, j < d.num_users_ →
      ∃ users u, d.users_ = some users ∧ users[j]? = some u ∧ 0 ∈ u) ∧
    (∀ j i, j < d.num_users_ → i < d.num_keyphrases_ →
      ∃ row f, flags[j]? = some row ∧ row[i]? = some f)

/-! ## The two tables of a descriptor -/

/-- The tables `cf_levels_kw_users_` and `cf_levels_` of a descriptor go
together: both are null, or the name array has `cf_levels_size_` slots and the
block holds the `cf_levels_size_` bytes `cf_levels_[0 .. cf_levels_size_)`. -/
def TablesPaired (d : SoundModelInfo) : Prop :=
  (d.cf_levels_kw_users_ = none ∧ d.cf_levels_ = none) ∨
  ∃ names lo, d.cf_levels_kw_users_ = some names ∧ names.length = d.cf_levels_size_ ∧
    d.cfLevels = some lo ∧ lo.length = d.cf_levels_size_

/-- The descriptors a freshly constructed one can become by returning calls of
`SetKeyPhrases`, `SetUsers`, `SetConfLevels`, `UpdateConfLevelArray` and
`operator =` (as the target; the source is any reachable descriptor), whatever
the arguments, the returned status and the outcome of each allocation. -/
inductive Reachable (c : Config) : SoundModelInfo → Prop
  | fresh : Reachable c SoundModelInfo.ctor
  | setKeyPhrases (d d1 : SoundModelInfo) (sml : Option SoundModelLib) (model : List Nat)
      (n : Nat) (heap heap1 : List Bool) (status : Int) :
      Reachable c d → SetKeyPhrases c sml d model n heap = some (status, d1, heap1) →
      Reachable c d1
  | setUsers (d d1 : SoundModelInfo) (sml : Option SoundModelLib) (model : List Nat)
      (n : Nat) (heap heap1 : List Bool) (status : Int) :
      Reachable c d → SetUsers c sml d model n heap = some (status, d1, heap1) →
      Reachable c d1
  | setConfLevels (d d1 : SoundModelInfo) (U : Nat) (upk : Option (List Nat))
      (flags : List (List Nat)) (heap heap1 : List Bool) (status : Int) :
      Reachable c d → SetConfLevels c d U upk flags heap = some (status, d1, heap1) →
      Reachable c d1
  | update (d d1 : SoundModelInfo) (conf_levels : Option (List Nat)) (cfl_size : Nat)
      (status : Int) :
      Reachable c d → UpdateConfLevelArray d conf_levels cfl_size = some (status, d1) →
      Reachable c d1
  | assign (t s t1 : SoundModelInfo) (sameObject : Bool) (heap heap1 : List Bool) :
      Reachable c t → Reachable c s →
      operator_assign c sameObject t s heap = some (t1, heap1) → Reachable c t1

/-- The descriptors a freshly constructed one can become when `SetConfLevels`
and `operator =` are only run with every allocation succeeding, and
`SetConfLevels` computes the size zero only on a descriptor whose
`cf_levels_size_` is zero already.  `SetKeyPhrases`, `SetUsers` and
`UpdateConfLevelArray` are unrestricted, and the source of an assignment is
any descriptor at all. -/
inductive ReachableAllocated (c : Config) : SoundModelInfo → Prop
  | fresh : ReachableAllocated c SoundModelInfo.ctor
  | setKeyPhrases (d d1 : SoundModelInfo) (sml : Option SoundModelLib) (model : List Nat)
      (n : Nat) (heap heap1 : List Bool) (status : Int) :
      ReachableAllocated c d → SetKeyPhrases c sml d model n heap = some (status, d1, heap1) →
      ReachableAllocated c d1
  | setUsers (d d1 : SoundModelInfo) (sml : Option SoundModelLib) (model : List Nat)
      (n : Nat) (heap heap1 : List Bool) (status : Int) :
      ReachableAllocated c d → SetUsers c sml d model n heap = some (status, d1, heap1) →
      ReachableAllocated c d1
  | setConfLevels (d d1 : SoundModelInfo) (U : Nat) (upk : Option (List Nat))
      (flags : List (List Nat)) (heap heap1 : List Bool) (status : Int) :
      ReachableAllocated c d → (∀ b ∈ heap, b = true) →
      ((d.num_keyphrases_ + U) % UINT32_MOD = 0 → d.cf_levels_size_ = 0) →
      SetConfLevels c d U upk flags heap = some (status, d1, heap1) →
      ReachableAllocated c d1
  | update (d d1 : SoundModelInfo) (conf_levels : Option (List Nat)) (cfl_size : Nat)
      (status : Int) :
      ReachableAllocated c d → UpdateConfLevelArray d conf_levels cfl_size = some (status, d1) →
      ReachableAllocated c d1
  | assign (t s t1 : SoundModelInfo) (sameObject : Bool) (heap heap1 : List Bool) :
      ReachableAllocated c t → (∀ b ∈ heap, b = true) →
      operator_assign c sameObject t s heap = some (t1, heap1) → ReachableAllocated c t1

/-! ## The descriptor on a heap with addresses -/

/-- The heap as the list of blocks `calloc` has handed out so far: the address
of a block is its position in the list, and a block that was freed is `none`.
A freed address is not handed out again. -/
abbrev Memory := List (Option (List Nat))

/-- `calloc(1, n)` on the heap: when it succeeds (`ok`), a new zero-filled
block behind the existing ones and its address; otherwise `NULL`. -/
def heapCalloc (mem : Memory) (ok : Bool) (n : Nat) : Option Nat × Memory :=
  if ok then (some mem.length, mem ++ [some (List.replicate n 0)]) else (none, mem)

/-- `free(p)` for the address of a block: a fault unless the block is live. -/
def heapFree (mem : Memory) (a : Nat) : Option Memory :=
  match mem[a]? with
  | some (some _) => some (mem.set a none)
  | _ => none

/-- The source operand of `memcpy(_, p, n)` for a pointer `p` given as block
address and offset: copying zero bytes reads nothing, otherwise the pointer
must be non-null and the range inside a live block. -/
def heapRead (mem : Memory) (p : Option (Nat × Nat)) (n : Nat) : Option (List Nat) :=
  if n = 0 then some []
  else
    match p with
    | none => none
    | some (a, off) =>
      match mem[a]? with
      | some (some blk) => readBytes blk off n
      | _ => none

/-- The heap after storing `bytes` at offset `off` of the block at `a`. -/
def heapWrite (mem : Memory) (a off : Nat) (bytes : List Nat) : Option Memory :=
  match mem[a]? with
  | some (some blk) =>
    match writeBytes blk off bytes with
    | none => none
    | some blk1 => some (mem.set a (some blk1))
  | _ => none

/-- A pointer stored in a cell of a pointer array: the cell value 0 is `NULL`
and the value `a + 1` is the address `a`.  A block returned by
`calloc(n, sizeof(char *))` has `n` cells, all `NULL`. -/
def cellPtr (v : Nat) : Option Nat := if v = 0 then none else some (v - 1)

/-- The fields of `class SoundModelInfo` as they are stored: each pointer is
the address of a block or null, the three string arrays are addresses of
pointer arrays, and `det_cf_levels_` is a block address with an offset. -/
structure HeapInfo where
  sm_data_ : Option Nat
  sm_size_ : Nat
  num_keyphrases_ : Nat
  num_users_ : Nat
  keyphrases_ : Option Nat
  users_ : Option Nat
  cf_levels_kw_users_ : Option Nat
  cf_levels_ : Option Nat
  det_cf_levels_ : Option (Nat × Nat)
  cf_levels_size_ : Nat
  deriving DecidableEq, Repr

/-- The constructor `SoundModelInfo::SoundModelInfo()` on the heap. -/
def HeapInfo.ctor : HeapInfo where
  sm_data_ := none
  sm_size_ := 0
  num_keyphrases_ := 0
  num_users_ := 0
  keyphrases_ := none
  users_ := none
  cf_levels_kw_users_ := none
  cf_levels_ := none
  det_cf_levels_ := none
  cf_levels_size_ := 0

/-- The loop of `FreeArrayPtrs` on the array at address `arr`, entered with
`rem` iterations left and the loop variable at `i`: `arr[i]` is read, which is
a fault outside the array; a non-null `arr[i]` is freed and set to `NULL`. -/
def heapFreeSlots (arr : Nat) : Nat → Nat → Memory → Option Memory
  | 0, _, mem => some mem
  | rem + 1, i, mem =>
    match mem[arr]? with
    | some (some cells) =>
      match cells[i]? with
      | none => none
      | some v =>
        match cellPtr v with
        | none => heapFreeSlots arr rem (i + 1) mem
        | some p =>
          match heapFree mem p with
          | none => none
          | some mem1 =>
            match heapWrite mem1 arr i [0] with
            | none => none
            | some mem2 => heapFreeSlots arr rem (i + 1) mem2
    | _ => none

/-- `SoundModelInfo::FreeArrayPtrs(arr, arr_len)` on the heap: a null array is
ignored; otherwise the first `arr_len` slots are freed, then the array. -/
def heapFreeArrayPtrs (mem : Memory) (arr : Option Nat) (arr_len : Nat) : Option Memory :=
  match arr with
  | none => some mem
  | some a =>
    match heapFreeSlots a arr_len 0 mem with
    | none => none
    | some mem1 => heapFree mem1 a

/-- The slot loop of `AllocArrayPtrs` on the array at address `arr`, entered
with `rem` iterations left and the loop variable at `i`: one
`calloc(elem_len, sizeof(char))` per slot, stored in `str_arr[i]`; the first
failure calls `FreeArrayPtrs(str_arr, i)` and gives up.  The boolean tells
whether every slot was allocated. -/
def heapAllocSlots (arr elem_len : Nat) :
    Nat → Nat → Memory → List Bool → Option (Bool × Memory × List Bool)
  | 0, _, mem, script => some (true, mem, script)
  | rem + 1, i, mem, script =>
    match heapCalloc mem (script.headD true) elem_len with
    | (none, mem1) =>
      match heapFreeArrayPtrs mem1 (some arr) i with
      | none => none
      | some mem2 => some (false, mem2, script.tail)
    | (some p, mem1) =>
      match heapWrite mem1 arr i [p + 1] with
      | none => none
      | some mem2 => heapAllocSlots arr elem_len rem (i + 1) mem2 script.tail

/-- `SoundModelInfo::AllocArrayPtrs(&arr, arr_len, elem_len)` on the heap: the
value left in `arr` (null on any failed allocation), the heap and the rest of
the allocation script. -/
def heapAllocArrayPtrs (mem : Memory) (script : List Bool) (arr_len elem_len : Nat) :
    Option (Option Nat × Memory × List Bool) :=
  match heapCalloc mem (script.headD true) arr_len with
  | (none, mem1) => some (none, mem1, script.tail)
  | (some a, mem1) =>
    match heapAllocSlots a elem_len arr_len 0 mem1 script.tail with
    | none => none
    | some (true, mem2, script1) => some (some a, mem2, script1)
    | some (false, mem2, script1) => some (none, mem2, script1)

/-- The loops `for (i = 0; i < n; i++) std::copy(&src[i][0], &src[i][0] + len,
&dst[i][0])` of `operator =` on the heap, entered with `rem` iterations left
and the loop variable at `i`; `src` is the array of the source, which may be
null, and `dst` the address of the new array. -/
def heapCopySlots (src : Option Nat) (dst len : Nat) : Nat → Nat → Memory → Option Memory
  | 0, _, mem => some mem
  | rem + 1, i, mem =>
    match src with
    | none => none
    | some sa =>
      match mem[sa]?, mem[dst]? with
      | some (some scells), some (some dcells) =>
        match scells[i]?, dcells[i]? with
        | some sv, some dv =>
          match cellPtr sv, cellPtr dv with
          | some sp, some dp =>
            match mem[sp]? with
            | some (some sblk) =>
              match readBytes sblk 0 len with
              | none => none
              | some bytes =>
                match heapWrite mem dp 0 bytes with
                | none => none
                | some mem1 => heapCopySlots src dst len rem (i + 1) mem1
            | _ => none
          | _, _ => none
        | _, _ => none
      | _, _ => none

/-- One "free it if it exists, then create and copy it" step of `operator =`
for a string array on the heap: `old` is the array the target holds, `n` the
count just taken from the source (it is also the length handed to
`FreeArrayPtrs`), `src` the array of the source. -/
def heapCloneArray (mem : Memory) (old src : Option Nat) (n len : Nat) (script : List Bool) :
    Option (Option Nat × Memory × List Bool) :=
  match heapFreeArrayPtrs mem old n with
  | none => none
  | some mem1 =>
    match heapAllocArrayPtrs mem1 script n len with
    | none => none
    | some (none, mem2, script1) => some (none, mem2, script1)
    | some (some a, mem2, script1) =>
      match heapCopySlots src a len n 0 mem2 with
      | none => none
      | some mem3 => some (some a, mem3, script1)

/-- The `sm_data_` step of `operator =` on the heap; `old` is the block the
target holds. -/
def heapCloneData (mem : Memory) (old : Option Nat) (smi : HeapInfo) (script : List Bool) :
    Option (Option Nat × Memory × List Bool) :=
  match (match old with
    | none => some mem
    | some a => heapFree mem a) with
  | none => none
  | some mem1 =>
    match heapCalloc mem1 (script.headD true) smi.sm_size_ with
    | (none, mem2) => some (none, mem2, script.tail)
    | (some a, mem2) =>
      match heapRead mem2 (smi.sm_data_.map (fun b => (b, 0))) smi.sm_size_ with
      | none => none
      | some bytes =>
        match heapWrite mem2 a 0 bytes with
        | none => none
        | some mem3 => some (some a, mem3, script.tail)

/-- The `cf_levels_` and `det_cf_levels_` step of `operator =` on the heap:
the target's block `old` is freed if it has one, a block of
`2 * cf_levels_size_` bytes is requested, and both halves are copied from the
source.  When `calloc` fails, `cf_levels_ + cf_levels_size_` is null only for
size zero; otherwise it is a bad non-null pointer that the second `memcpy`
writes through. -/
def heapCloneLevels (mem : Memory) (old : Option Nat) (smi : HeapInfo) (script : List Bool) :
    Option (Option Nat × Option (Nat × Nat) × Memory × List Bool) :=
  let size := smi.cf_levels_size_
  match (match old with
    | none => some mem
    | some a => heapFree mem a) with
  | none => none
  | some mem1 =>
    match heapCalloc mem1 (script.headD true) ((2 * size) % UINT32_MOD) with
    | (none, mem2) => if size = 0 then some (none, none, mem2, script.tail) else none
    | (some a, mem2) =>
      match heapRead mem2 (smi.cf_levels_.map (fun b => (b, 0))) size with
      | none => none
      | some bytes =>
        match heapWrite mem2 a 0 bytes with
        | none => none
        | some mem3 =>
          match heapRead mem3 smi.det_cf_levels_ size with
          | none => none
          | some detBytes =>
            match heapWrite mem3 a size detBytes with
            | none => none
            | some mem4 => some (some a, some (a, size), mem4, script.tail)

/-- `SoundModelInfo::operator =(smi)` on the heap, for the target `self`: the
target afterwards, the heap and the rest of the allocation script.
`sameObject` is the outcome of the test `this == &smi`.  The fields of the
source are only read. -/
def operator_assign_heap (c : Config) (sameObject : Bool) (mem : Memory) (self smi : HeapInfo)
    (script : List Bool) : Option (HeapInfo × Memory × List Bool) :=
  if sameObject then some (self, mem, script)
  else
    match heapCloneData mem self.sm_data_ smi script with
    | none => none
    | some (data, mem1, script1) =>
      match heapCloneLevels mem1 self.cf_levels_ smi script1 with
      | none => none
      | some (blk, det, mem2, script2) =>
        match heapCloneArray mem2 self.keyphrases_ smi.keyphrases_ smi.num_keyphrases_
            c.MAX_STRING_LEN script2 with
        | none => none
        | some (kws, mem3, script3) =>
          match heapCloneArray mem3 self.users_ smi.users_ smi.num_users_ c.MAX_STRING_LEN
              script3 with
          | none => none
          | some (users, mem4, script4) =>
            match heapCloneArray mem4 self.cf_levels_kw_users_ smi.cf_levels_kw_users_
                smi.cf_levels_size_ c.MAX_KW_USERS_NAME_LEN script4 with
            | none => none
            | some (names, mem5, script5) =>
              some ({ sm_data_ := data,
                      sm_size_ := smi.sm_size_,
                      num_keyphrases_ := smi.num_keyphrases_,
                      num_users_ := smi.num_users_,
                      keyphrases_ := kws,
                      users_ := users,
                      cf_levels_kw_users_ := names,
                      cf_levels_ := blk,
                      det_cf_levels_ := det,
                      cf_levels_size_ := smi.cf_levels_size_ }, mem5, script5)

/-- `SoundModelInfo::UpdateConfLevelArray(conf_levels, cfl_size)` on the heap:
the returned status and the heap.  No field of the descriptor is assigned. -/
def heapUpdateConfLevelArray (mem : Memory) (self : HeapInfo) (conf_levels : Option (List Nat))
    (cfl_size : Nat) : Option (Int × Memory) :=
  if cfl_size > self.cf_levels_size_ ∨ conf_levels = none then some (-EINVAL, mem)
  else
    match self.cf_levels_ with
    | none => some (0, mem)
    | some a =>
      match memcpySrc conf_levels 0 cfl_size with
      | none => none
      | some bytes =>
        match heapWrite mem a 0 bytes with
        | none => none
        | some mem1 => some (0, mem1)

/-- The levels of a descriptor read from the heap: the `cf_levels_size_` bytes
at `cf_levels_` and the `cf_levels_size_` bytes at `det_cf_levels_`. -/
def levelsOf (mem : Memory) (d : HeapInfo) : Option (List Nat) × Option (List Nat) :=
  (heapRead mem (d.cf_levels_.map (fun b => (b, 0))) d.cf_levels_size_,
   heapRead mem d.det_cf_levels_ d.cf_levels_size_)

/-- A string array of a descriptor is populated on the heap: the pointer array
is live with `n` cells, and each of them leads to a live block of `len`
bytes. -/
def ArrayOn (mem : Memory) (arr : Option Nat) (n len : Nat) : Prop :=
  ∃ A cells, arr = some A ∧ mem[A]? = some (some cells) ∧ cells.length = n ∧
    ∀ i, i < n → ∃ v p blk, cells[i]? = some v ∧ cellPtr v = some p ∧
      mem[p]? = some (some blk) ∧ blk.length = len

/-- A fully populated descriptor on the heap for the constants `c`: the model
data is a live block of `sm_size_` bytes, the levels are a live block of
`2 * cf_levels_size_` bytes (a size that fits 32 bits) with `det_cf_levels_`
at its middle, and the three string arrays are populated with as many slots
as their counts say. -/
def HeapPopulated (c : Config) (mem : Memory) (s : HeapInfo) : Prop :=
  (∃ a data, s.sm_data_ = some a ∧ mem[a]? = some (some data) ∧ data.length = s.sm_size_) ∧
  (∃ a blk, s.cf_levels_ = some a ∧ mem[a]? = some (some blk) ∧
    blk.length = 2 * s.cf_levels_size_ ∧ 2 * s.cf_levels_size_ < UINT32_MOD ∧
    s.det_cf_levels_ = some (a, s.cf_levels_size_)) ∧
  ArrayOn mem s.keyphrases_ s.num_keyphrases_ c.MAX_STRING_LEN ∧
  ArrayOn mem s.users_ s.num_users_ c.MAX_STRING_LEN ∧
  ArrayOn mem s.cf_levels_kw_users_ s.cf_levels_size_ c.MAX_KW_USERS_NAME_LEN

/-- The descriptor `t` holds no pointer to the block at address `a`: neither
`sm_data_` nor `cf_levels_` is `a`, and each of its string arrays is a valid
address other than `a` whose cells, if the array is live, do not lead to
`a`. -/
def HoldsNoPointerTo (mem : Memory) (t : HeapInfo) (a : Nat) : Prop :=
  t.sm_data_ ≠ some a ∧ t.cf_levels_ ≠ some a ∧
  ∀ b, (t.keyphrases_ = some b ∨ t.users_ = some b ∨ t.cf_levels_kw_users_ = some b) →
    b < mem.length ∧ b ≠ a ∧ ∀ cells, mem[b]? = some (some cells) → a + 1 ∉ cells

/-- What the steps of an assignment keep true of the heap, for a block `blk`
at an address `a` the target holds no pointer to, `L` being the length of the
heap before the assignment and `own` the addresses of the target's string
arrays: the heap has not shrunk, the block at `a` is `blk`, and no cell of an
array of the target leads to `a`. -/
def FrameInv (a : Nat) (blk : List Nat) (L : Nat) (own : Nat → Prop) (mem : Memory) : Prop :=
  L ≤ mem.length ∧ mem[a]? = some (some blk) ∧
  ∀ b, own b → ∀ cells, mem[b]? = some (some cells) → a + 1 ∉ cells

/-! ## Sample data -/

/-- Small values for the header constants, used to run the model. -/
def sampleConfig : Config where
  MAX_STRING_LEN := 8
  MAX_KW_USERS_NAME_LEN := 16
  MAX_CONF_LEVEL_VALUE := 100

/-- A populated descriptor before `SetConfLevels`: keyphrases "hello" and
"world", one user "alice". -/
def sampleModel : SoundModelInfo where
  sm_data_ := some [1, 2, 3]
  sm_size_ := 3
  num_keyphrases_ := 2
  num_users_ := 1
  keyphrases_ := some [[104, 101, 108, 108, 111, 0, 0, 0], [119, 111, 114, 108, 100, 0, 0, 0]]
  users_ := some [[97, 108, 105, 99, 101, 0, 0, 0]]
  cf_levels_kw_users_ := none
  cf_levels_ := none
  det_cf_levels_ := none
  cf_levels_size_ := 0

/-- The descriptor `sampleModel` turns into when "alice" is enrolled on
"hello" only: names "hello", "world", "alicehello". -/
def sampleInfo : SoundModelInfo where
  sm_data_ := some [1, 2, 3]
  sm_size_ := 3
  num_keyphrases_ := 2
  num_users_ := 1
  keyphrases_ := some [[104, 101, 108, 108, 111, 0, 0, 0], [119, 111, 114, 108, 100, 0, 0, 0]]
  users_ := some [[97, 108, 105, 99, 101, 0, 0, 0]]
  cf_levels_kw_users_ := some
    [[104, 101, 108, 108, 111, 0, 0, 0, 0, 0, 0, 0, 0, 0, 0, 0],
     [119, 111, 114, 108, 100, 0, 0, 0, 0, 0, 0, 0, 0, 0, 0, 0],
     [97, 108, 105, 99, 101, 104, 101, 108, 108, 111, 0, 0, 0, 0, 0, 0]]
  cf_levels_ := some [100, 100, 100, 0, 0, 0]
  det_cf_levels_ := some 3
  cf_levels_size_ := 3

/-- A descriptor holding the single keyphrase "hello" and nothing else, as
`SetKeyPhrases` leaves it for a one-keyphrase model. -/
def singleModel : SoundModelInfo where
  sm_data_ := none
  sm_size_ := 0
  num_keyphrases_ := 1
  num_users_ := 0
  keyphrases_ := some [[104, 101, 108, 108, 111, 0, 0, 0]]
  users_ := none
  cf_levels_kw_users_ := none
  cf_levels_ := none
  det_cf_levels_ := none
  cf_levels_size_ := 0

/-- A populated descriptor with keyphrases "hello" and "world" and the two
users "alice" and "bob". -/
def pairModel : SoundModelInfo where
  sm_data_ := none
  sm_size_ := 0
  num_keyphrases_ := 2
  num_users_ := 2
  keyphrases_ := some [[104, 101, 108, 108, 111, 0, 0, 0], [119, 111, 114, 108, 100, 0, 0, 0]]
  users_ := some [[97, 108, 105, 99, 101, 0, 0, 0], [98, 111, 98, 0, 0, 0, 0, 0]]
  cf_levels_kw_users_ := none
  cf_levels_ := none
  det_cf_levels_ := none
  cf_levels_size_ := 0

/-- The descriptor `pairModel` turns into with three pair slots when "alice"
is flagged on both keyphrases, "bob" on "hello" only and the bounds are
`[2, 1]`: the names are "hello", "world", "alicehello", "bobhello" and an
empty last slot. -/
def pairInfo : SoundModelInfo where
  sm_data_ := none
  sm_size_ := 0
  num_keyphrases_ := 2
  num_users_ := 2
  keyphrases_ := some [[104, 101, 108, 108, 111, 0, 0, 0], [119, 111, 114, 108, 100, 0, 0, 0]]
  users_ := some [[97, 108, 105, 99, 101, 0, 0, 0], [98, 111, 98, 0, 0, 0, 0, 0]]
  cf_levels_kw_users_ := some
    [[104, 101, 108, 108, 111, 0, 0, 0, 0, 0, 0, 0, 0, 0, 0, 0],
     [119, 111, 114, 108, 100, 0, 0, 0, 0, 0, 0, 0, 0, 0, 0, 0],
     [97, 108, 105, 99, 101, 104, 101, 108, 108, 111, 0, 0, 0, 0, 0, 0],
     [98, 111, 98, 104, 101, 108, 108, 111, 0, 0, 0, 0, 0, 0, 0, 0],
     [0, 0, 0, 0, 0, 0, 0, 0, 0, 0, 0, 0, 0, 0, 0, 0]]
  cf_levels_ := some [100, 100, 100, 100, 100, 0, 0, 0, 0, 0]
  det_cf_levels_ := some 5
  cf_levels_size_ := 5

/-- A fresh descriptor after a call of `SetConfLevels` for one pair in which
the name array was allocated and the block was not. -/
def halfInfo : SoundModelInfo where
  sm_data_ := none
  sm_size_ := 0
  num_keyphrases_ := 0
  num_users_ := 0
  keyphrases_ := none
  users_ := none
  cf_levels_kw_users_ := some [List.replicate 16 0]
  cf_levels_ := none
  det_cf_levels_ := none
  cf_levels_size_ := 1

/-- A fresh descriptor after a call of `SetConfLevels` for one pair in which
both allocations succeeded. -/
def onePairInfo : SoundModelInfo where
  sm_data_ := none
  sm_size_ := 0
  num_keyphrases_ := 0
  num_users_ := 0
  keyphrases_ := none
  users_ := none
  cf_levels_kw_users_ := some [List.replicate 16 0]
  cf_levels_ := some [100, 0]
  det_cf_levels_ := some 1
  cf_levels_size_ := 1

/-- A heap holding a fully populated descriptor: the model data at address 0,
the four-byte level block at 1, the keyphrase array at 2 with its slot "hi" at
3, the user array at 4 with its slot "al" at 5, and the name array at 6 with
its slots "hi" at 7 and "alhi" at 8. -/
def sampleMemory : Memory :=
  [some [1, 2],
   some [100, 90, 7, 8],
   some [4],
   some [104, 105, 0, 0, 0, 0, 0, 0],
   some [6],
   some [97, 108, 0, 0, 0, 0, 0, 0],
   some [8, 9],
   some [104, 105, 0, 0, 0, 0, 0, 0, 0, 0, 0, 0, 0, 0, 0, 0],
   some [97, 108, 104, 105, 0, 0, 0, 0, 0, 0, 0, 0, 0, 0, 0, 0]]

/-- The descriptor stored on `sampleMemory`: one keyphrase, one user, two
levels 100, 90 and two detected levels 7, 8. -/
def sampleSource : HeapInfo where
  sm_data_ := some 0
  sm_size_ := 2
  num_keyphrases_ := 1
  num_users_ := 1
  keyphrases_ := some 2
  users_ := some 4
  cf_levels_kw_users_ := some 6
  cf_levels_ := some 1
  det_cf_levels_ := some (1, 2)
  cf_levels_size_ := 2

/-- The target after the sample descriptor was assigned to a freshly
constructed one on `sampleMemory`. -/
def sampleClone : HeapInfo where
  sm_data_ := some 9
  sm_size_ := 2
  num_keyphrases_ := 1
  num_users_ := 1
  keyphrases_ := some 11
  users_ := some 13
  cf_levels_kw_users_ := some 15
  cf_levels_ := some 10
  det_cf_levels_ := some (10, 2)
  cf_levels_size_ := 2

/-- The heap after that assignment: the blocks of `sampleMemory` followed by
those of the clone, in the order `operator =` allocates them. -/
def sampleCloneMemory : Memory :=
  sampleMemory ++
  [some [1, 2],
   some [100, 90, 7, 8],
   some [13],
   some [104, 105, 0, 0, 0, 0, 0, 0],
   some [15],
   some [97, 108, 0, 0, 0, 0, 0, 0],
   some [17, 18],
   some [104, 105, 0, 0, 0, 0, 0, 0, 0, 0, 0, 0, 0, 0, 0, 0],
   some [97, 108, 104, 105, 0, 0, 0, 0, 0, 0, 0, 0, 0, 0, 0, 0]]

/-- A descriptor holding `2 ^ 31` keyphrases, all "h". -/
def wideModel : SoundModelInfo where
  sm_data_ := none
  sm_size_ := 0
  num_keyphrases_ := 2147483648
  num_users_ := 0
  keyphrases_ := some (List.replicate 2147483648 [104, 0, 0, 0, 0, 0, 0, 0])
  users_ := none
  cf_levels_kw_users_ := none
  cf_levels_ := none
  det_cf_levels_ := none
  cf_levels_size_ := 0

/-- A descriptor holding `2 ^ 32 - 1` keyphrases, all "h". -/
def hugeModel : SoundModelInfo where
  sm_data_ := none
  sm_size_ := 0
  num_keyphrases_ := 4294967295
  num_users_ := 0
  keyphrases_ := some (List.replicate 4294967295 [104, 0, 0, 0, 0, 0, 0, 0])
  users_ := none
  cf_levels_kw_users_ := none
  cf_levels_ := none
  det_cf_levels_ := none
  cf_levels_size_ := 0

/-! ## Lemmas on the memory primitives -/

theorem memcpySrc_some_zero (buf : List Nat) (n : Nat) (h : n ≤ buf.length) :
    memcpySrc (some buf) 0 n = some (buf.take n) := by
  unfold memcpySrc
  by_cases hn : n = 0
  · simp [hn]
  · simp [hn, readBytes, h]

theorem writeBytes_zero (buf bytes : List Nat) (h : bytes.length ≤ buf.length) :
    writeBytes buf 0 bytes = some (bytes ++ buf.drop bytes.length) := by
  simp [writeBytes, h]

theorem writeBytes_length (buf bytes out : List Nat) (off : Nat)
    (h : writeBytes buf off bytes = some out) : out.length = buf.length := by
  unfold writeBytes at h
  split at h
  · cases h
    simp
    omega
  · cases h

theorem SoundModelInfo.with_cf_levels_self (d : SoundModelInfo) (blk : List Nat)
    (h : d.cf_levels_ = some blk) : { d with cf_levels_ := some blk } = d := by
  cases d
  simp_all

/-- A defined `memset` keeps the buffer length, fits the buffer and sets each
of the first `n` bytes. -/
theorem memset_getElem (buf out : List Nat) (v n : Nat) (h : memset buf v n = some out) :
    out.length = buf.length ∧ n ≤ buf.length ∧ ∀ i, i < n → out[i]? = some (v % 256) := by
  refine ⟨writeBytes_length _ _ _ _ h, ?_⟩
  unfold memset writeBytes at h
  split at h
  · rename_i hfit
    cases h
    refine ⟨by simpa using hfit, ?_⟩
    intro i hi
    rw [List.append_assoc, List.take_zero, List.nil_append,
      List.getElem?_append_left (by simpa using hi)]
    simp [List.getElem?_replicate, hi]
  · cases h

/-! ## Lemmas on strings -/

theorem takeWhile_nonzero_append (l r : List Nat) (h : ∀ x ∈ l, x ≠ 0) :
    (l ++ 0 :: r).takeWhile (fun b => b != 0) = l := by
  induction l with
  | nil => simp
  | cons a t ih =>
    have ha : a ≠ 0 := h a (by simp)
    have ht : ∀ x ∈ t, x ≠ 0 := fun x hx => h x (by simp [hx])
    simp [List.takeWhile_cons, ha, ih ht]

theorem cstr_nonzero (buf s : List Nat) (h : cstr buf = some s) : ∀ x ∈ s, x ≠ 0 := by
  unfold cstr at h
  split at h
  · cases h
    intro x hx
    have := List.mem_takeWhile_imp hx
    simpa using this
  · cases h

theorem cstr_append_zero (l r : List Nat) (h : ∀ x ∈ l, x ≠ 0) :
    cstr (l ++ 0 :: r) = some l := by
  simp [cstr, takeWhile_nonzero_append l r h]

theorem cstr_isSome (buf : List Nat) (h : 0 ∈ buf) : ∃ s, cstr buf = some s := by
  refine ⟨buf.takeWhile (fun b => b != 0), ?_⟩
  simp [cstr, h]

theorem strlcpy_length (dst src out : List Nat) (n : Nat) (h : strlcpy dst src n = some out) :
    out.length = dst.length := by
  unfold strlcpy at h
  split at h
  · cases h
  · split at h
    · cases h; rfl
    · exact writeBytes_length _ _ _ _ h

theorem strlcat_length (dst src out : List Nat) (n : Nat) (h : strlcat dst src n = some out) :
    out.length = dst.length := by
  unfold strlcat at h
  split at h
  · cases h
  · simp only at h
    split at h
    · cases h; rfl
    · split at h
      · cases h
      · exact writeBytes_length _ _ _ _ h

/-- After `strlcpy` with a positive size the destination holds the source
string cut to `n - 1` characters. -/
theorem strlcpy_cstr (dst src out : List Nat) (n : Nat) (hn : 0 < n)
    (h : strlcpy dst src n = some out) :
    ∃ s, cstr src = some s ∧ cstr out = some (s.take (n - 1)) := by
  unfold strlcpy at h
  split at h
  · cases h
  · rename_i s hs
    refine ⟨s, hs, ?_⟩
    have hn0 : n ≠ 0 := by omega
    simp only [hn0, if_false] at h
    unfold writeBytes at h
    split at h
    · cases h
      have hnz : ∀ x ∈ s.take (n - 1), x ≠ 0 :=
        fun x hx => cstr_nonzero src s hs x (List.mem_of_mem_take hx)
      have := cstr_append_zero (s.take (n - 1)) (dst.drop (0 + (s.take (n - 1) ++ [0]).length)) hnz
      simpa using this
    · cases h

/-- With room for `n` bytes and a terminated source, `strlcpy` is defined. -/
theorem strlcpy_total (dst src : List Nat) (n : Nat) (hdst : n ≤ dst.length) (hsrc : 0 ∈ src) :
    ∃ out, strlcpy dst src n = some out := by
  obtain ⟨s, hs⟩ := cstr_isSome src hsrc
  unfold strlcpy
  rw [hs]
  by_cases hn : n = 0
  · simp [hn]
  · have hlen : 0 + (s.take (n - 1) ++ [0]).length ≤ dst.length := by
      simp
      omega
    simp only [hn, if_false, writeBytes, hlen, if_true]
    exact ⟨_, rfl⟩

/-- With room for `n` bytes and a terminated source, `strlcat` is defined. -/
theorem strlcat_total (dst src : List Nat) (n : Nat) (hdst : n ≤ dst.length) (hsrc : 0 ∈ src) :
    ∃ out, strlcat dst src n = some out := by
  obtain ⟨s, hs⟩ := cstr_isSome src hsrc
  unfold strlcat
  rw [hs]
  simp only
  have hdlen : ((dst.take n).takeWhile (fun b => b != 0)).length ≤ n := by
    have h1 := (List.takeWhile_sublist (l := dst.take n) (fun b => b != 0)).length_le
    have h2 : (dst.take n).length ≤ n := by simp
    omega
  by_cases hfull : ((dst.take n).takeWhile (fun b => b != 0)).length = n
  · simp [hfull]
  · have hlt : ((dst.take n).takeWhile (fun b => b != 0)).length < n := by omega
    have hnot : ¬ dst.length ≤ ((dst.take n).takeWhile (fun b => b != 0)).length := by omega
    simp only [hfull, if_false, hnot]
    unfold writeBytes
    have hlen : ((dst.take n).takeWhile (fun b => b != 0)).length +
        (s.take (n - ((dst.take n).takeWhile (fun b => b != 0)).length - 1) ++ [0]).length
          ≤ dst.length := by
      simp
      omega
    simp only [hlen, if_true]
    exact ⟨_, rfl⟩

/-- After `strlcpy` with a positive size the destination starts with the cut
source string followed by a NUL. -/
theorem strlcpy_shape (dst src out : List Nat) (n : Nat) (hn : 0 < n)
    (h : strlcpy dst src n = some out) :
    ∃ s rest, cstr src = some s ∧ out = s.take (n - 1) ++ 0 :: rest := by
  unfold strlcpy at h
  split at h
  · cases h
  · rename_i s hs
    have hn0 : n ≠ 0 := by omega
    simp only [hn0, if_false] at h
    unfold writeBytes at h
    split at h
    · cases h
      refine ⟨s, dst.drop (0 + (s.take (n - 1) ++ [0]).length), hs, ?_⟩
      simp
    · cases h

/-- Appending with `strlcat` to a buffer whose string `pre` ends inside the
first `n` bytes gives `pre` followed by the source cut to the room left. -/
theorem strlcat_shape (pre rest src out : List Nat) (n : Nat)
    (hpre : ∀ x ∈ pre, x ≠ 0) (hlen : pre.length < n)
    (h : strlcat (pre ++ 0 :: rest) src n = some out) :
    ∃ p rest1, cstr src = some p ∧
      out = (pre ++ p.take (n - pre.length - 1)) ++ 0 :: rest1 := by
  have htake : (pre ++ 0 :: rest).take n = pre ++ 0 :: rest.take (n - pre.length - 1) := by
    obtain ⟨m, hm⟩ : ∃ m, n - pre.length = m + 1 := ⟨n - pre.length - 1, by omega⟩
    have hm1 : n - pre.length - 1 = m := by omega
    rw [List.take_append_eq_append_take, List.take_of_length_le (by omega), hm1, hm,
      List.take_succ_cons]
  have hdlen : (((pre ++ 0 :: rest).take n).takeWhile (fun b => b != 0)).length = pre.length := by
    rw [htake, takeWhile_nonzero_append pre _ hpre]
  unfold strlcat at h
  split at h
  · cases h
  · rename_i p hp
    simp only [hdlen] at h
    rw [if_neg (by omega), if_neg (by simp)] at h
    unfold writeBytes at h
    split at h
    · cases h
      refine ⟨p, List.drop (pre.length + (p.take (n - pre.length - 1) ++ [0]).length)
        (pre ++ 0 :: rest), hp, ?_⟩
      rw [List.take_append_of_le_length (le_refl _), List.take_of_length_le (le_refl _)]
      simp
    · cases h

/-- The string left by `strlcpy` of `user` followed by `strlcat` of `kw`
is the concatenation of the two strings cut to `n - 1` characters. -/
theorem strlcpy_strlcat_cstr (dst user kw slot1 slot2 : List Nat) (n : Nat) (hn : 0 < n)
    (h1 : strlcpy dst user n = some slot1) (h2 : strlcat slot1 kw n = some slot2) :
    ∃ u p, cstr user = some u ∧ cstr kw = some p ∧
      cstr slot2 = some ((u ++ p).take (n - 1)) := by
  obtain ⟨u, rest, hu, hshape⟩ := strlcpy_shape dst user slot1 n hn h1
  have hnz : ∀ x ∈ u.take (n - 1), x ≠ 0 :=
    fun x hx => cstr_nonzero user u hu x (List.mem_of_mem_take hx)
  have hlen : (u.take (n - 1)).length < n := by
    rw [List.length_take]
    omega
  rw [hshape] at h2
  obtain ⟨p, rest1, hp, hout⟩ := strlcat_shape (u.take (n - 1)) rest kw slot2 n hnz hlen h2
  refine ⟨u, p, hu, hp, ?_⟩
  have hpz : ∀ x ∈ p.take (n - (u.take (n - 1)).length - 1), x ≠ 0 :=
    fun x hx => cstr_nonzero kw p hp x (List.mem_of_mem_take hx)
  rw [hout, cstr_append_zero _ _ (by
    intro x hx
    rcases List.mem_append.1 hx with h | h
    · exact hnz x h
    · exact hpz x h)]
  congr 1
  rw [List.take_append_eq_append_take]
  congr 2
  rw [List.length_take]
  omega

/-! ## Lemmas on allocation -/

theorem calloc_some (heap heap1 : List Bool) (n : Nat) (buf : List Nat)
    (h : calloc heap n = (some buf, heap1)) : buf = List.replicate n 0 ∧ heap1 = heap.tail := by
  unfold calloc at h
  split at h
  · simp at h
    exact ⟨h.1.symm, h.2.symm⟩
  · simp at h

theorem calloc_allTrue (heap : List Bool) (n : Nat) (h : ∀ b ∈ heap, b = true) :
    calloc heap n = (some (List.replicate n 0), heap.tail) := by
  cases heap with
  | nil => simp [calloc]
  | cons b rest => simp [calloc, h b (by simp)]

theorem allTrue_tail (heap : List Bool) (h : ∀ b ∈ heap, b = true) :
    ∀ b ∈ heap.tail, b = true := fun b hb => h b (List.mem_of_mem_tail hb)

/-- A successful slot loop returns `n` zero-filled slots of `len` bytes. -/
theorem allocSlots_some (len : Nat) :
    ∀ (n : Nat) (heap heap1 : List Bool) (slots : List (List Nat)),
      allocSlots len n heap = (some slots, heap1) →
      slots = List.replicate n (List.replicate len 0) := by
  intro n
  induction n with
  | zero =>
    intro heap heap1 slots h
    simp [allocSlots] at h
    simp [h.1.symm]
  | succ n ih =>
    intro heap heap1 slots h
    rw [allocSlots] at h
    rcases hc : calloc heap len with ⟨_ | slot, heap2⟩
    · simp [hc] at h
    · rcases hr : allocSlots len n heap2 with ⟨_ | rest, heap3⟩
      · simp [hc, hr] at h
      · simp [hc, hr] at h
        have hslot := (calloc_some heap heap2 len slot hc).1
        have hrest := ih heap2 heap3 rest hr
        rw [← h.1, hslot, hrest, List.replicate_succ]

theorem allocSlots_allTrue (len : Nat) :
    ∀ (n : Nat) (heap : List Bool), (∀ b ∈ heap, b = true) →
      allocSlots len n heap = (some (List.replicate n (List.replicate len 0)), heap.drop n) := by
  intro n
  induction n with
  | zero => intro heap _; simp [allocSlots]
  | succ n ih =>
    intro heap h
    rw [allocSlots, calloc_allTrue heap len h]
    simp only [ih heap.tail (allTrue_tail heap h)]
    simp [List.replicate_succ]

theorem AllocArrayPtrs_some (heap heap1 : List Bool) (n len : Nat) (slots : List (List Nat))
    (h : AllocArrayPtrs heap n len = (some slots, heap1)) :
    slots = List.replicate n (List.replicate len 0) := by
  unfold AllocArrayPtrs at h
  split at h
  · exact allocSlots_some len n _ _ slots h
  · simp at h

/-- When every allocation succeeds `AllocArrayPtrs` returns `n` zero-filled
slots and consumes `n + 1` answers of the script. -/
theorem AllocArrayPtrs_allTrue (heap : List Bool) (n len : Nat) (h : ∀ b ∈ heap, b = true) :
    AllocArrayPtrs heap n len =
      (some (List.replicate n (List.replicate len 0)), heap.tail.drop n) := by
  have hhead : heap.headD true = true := by
    cases heap with
    | nil => rfl
    | cons b rest => simpa using h b (by simp)
  unfold AllocArrayPtrs
  rw [if_pos hhead, allocSlots_allTrue len n heap.tail (allTrue_tail heap h)]

/-! ## Lemmas on the loops of SetConfLevels -/

/-- One emitted pair writes exactly the slot `num_keyphrases_ + ukw_idx`, which
must exist, and advances both counters. -/
theorem emitPair_spec (c : Config) (d : SoundModelInfo) (i j : Nat) (st st1 : LoopState)
    (h : emitPair c d i j st = some st1) :
    st1.names.length = st.names.length ∧ st1.ukw_idx = st.ukw_idx + 1 ∧ st1.k = st.k + 1 ∧
    d.num_keyphrases_ + st.ukw_idx < st.names.length ∧
    ∀ m, m ≠ d.num_keyphrases_ + st.ukw_idx → st1.names[m]? = st.names[m]? := by
  unfold emitPair at h
  split at h
  · split at h
    · rename_i hslot
      split at h
      · cases h
      · split at h
        · cases h
        · cases h
          refine ⟨by simp, rfl, rfl, ?_, ?_⟩
          · by_contra hlt
            rw [List.getElem?_eq_none (by omega)] at hslot
            cases hslot
          · intro m hm
            simp [List.getElem?_set_ne (Ne.symm hm)]
    · cases h
  · cases h

/-- The user loop keeps the number of slots and never touches a slot below
`num_keyphrases_`. -/
theorem userLoop_spec (c : Config) (d : SoundModelInfo) (bounds : List Nat)
    (flags : List (List Nat)) (i : Nat) :
    ∀ (rem j : Nat) (st st1 : LoopState),
      userLoop c d bounds flags i rem j st = some st1 →
      st1.names.length = st.names.length ∧
      ∀ m, m < d.num_keyphrases_ → st1.names[m]? = st.names[m]? := by
  intro rem
  induction rem with
  | zero =>
    intro j st st1 h
    simp [userLoop] at h
    subst h
    simp
  | succ rem ih =>
    intro j st st1 h
    rw [userLoop] at h
    split at h
    · cases h
    · split at h
      · cases h
        simp
      · split at h
        · cases h
        · split at h
          · cases h
          · split at h
            · split at h
              · cases h
              · rename_i st2 hemit
                obtain ⟨hl, _, _, _, hun⟩ := emitPair_spec c d i j st st2 hemit
                obtain ⟨hl2, hun2⟩ := ih (j + 1) st2 st1 h
                refine ⟨by omega, ?_⟩
                intro m hm
                rw [hun2 m hm, hun m (by omega)]
            · exact ih (j + 1) st st1 h

/-- The keyphrase loop keeps the number of slots, leaves the slots before its
start index alone and puts the cut keyphrase name in each slot it visits. -/
theorem kwLoop_spec (c : Config) (d : SoundModelInfo) (upk : Option (List Nat))
    (flags : List (List Nat)) :
    ∀ (rem i : Nat) (st st1 : LoopState),
      kwLoop c d upk flags rem i st = some st1 →
      i + rem ≤ d.num_keyphrases_ →
      st1.names.length = st.names.length ∧
      (∀ m, m < i → st1.names[m]? = st.names[m]?) ∧
      (0 < c.MAX_KW_USERS_NAME_LEN → ∀ m, i ≤ m → m < i + rem →
        ∃ kws kw slot s, d.keyphrases_ = some kws ∧ kws[m]? = some kw ∧
          st1.names[m]? = some slot ∧ cstr kw = some s ∧
          cstr slot = some (s.take (c.MAX_KW_USERS_NAME_LEN - 1))) := by
  intro rem
  induction rem with
  | zero =>
    intro i st st1 h _
    simp [kwLoop] at h
    subst h
    refine ⟨rfl, fun _ _ => rfl, ?_⟩
    intro _ m h1 h2
    omega
  | succ rem ih =>
    intro i st st1 h hK
    rw [kwLoop] at h
    split at h
    · cases h
    · rename_i kws hkws
      split at h
      · rename_i kw slot hkw hslot
        split at h
        · cases h
        · rename_i slot1 hcpy
          have hi : i < st.names.length := by
            by_contra hlt
            rw [List.getElem?_eq_none (by omega)] at hslot
            cases hslot
          have hinner : ∃ st2, kwLoop c d upk flags rem (i + 1) st2 = some st1 ∧
              st2.names.length = st.names.length ∧
              (∀ m, m < d.num_keyphrases_ → st2.names[m]? = (st.names.set i slot1)[m]?) := by
            cases upk with
            | none =>
              exact ⟨_, h, by simp, fun _ _ => rfl⟩
            | some bounds =>
              simp only at h
              split at h
              · cases h
              · rename_i st2 hloop
                obtain ⟨hl, hun⟩ := userLoop_spec c d bounds flags i _ _ _ _ hloop
                exact ⟨st2, h, by simpa using hl, fun m hm => by simpa using hun m hm⟩
          obtain ⟨st2, hrest, hl2, hun2⟩ := hinner
          obtain ⟨hl3, hpre, hpost⟩ := ih (i + 1) st2 st1 hrest (by omega)
          refine ⟨by omega, ?_, ?_⟩
          · intro m hm
            rw [hpre m (by omega), hun2 m (by omega), List.getElem?_set_ne (by omega)]
          · intro hM m h1 h2
            by_cases hmi : m = i
            · subst hmi
              obtain ⟨s, hs, hcs⟩ := strlcpy_cstr slot kw slot1 _ hM hcpy
              refine ⟨kws, kw, slot1, s, hkws, hkw, ?_, hs, hcs⟩
              rw [hpre m (by omega), hun2 m (by omega)]
              simp [hi]
            · exact hpost hM m (by omega) (by omega)
      · cases h

/-- Under the loop invariant an emitted pair whose slot index is below `size`
is defined and keeps the invariant. -/
theorem emitPair_total (c : Config) (d : SoundModelInfo) (i j size : Nat) (st : LoopState)
    (hinv : LoopInv size c.MAX_KW_USERS_NAME_LEN st)
    (hidx : d.num_keyphrases_ + st.ukw_idx < size)
    (hu : ∃ users u, d.users_ = some users ∧ users[j]? = some u ∧ 0 ∈ u)
    (hkw : ∃ kws kw, d.keyphrases_ = some kws ∧ kws[i]? = some kw ∧ 0 ∈ kw) :
    ∃ st1, emitPair c d i j st = some st1 ∧ LoopInv size c.MAX_KW_USERS_NAME_LEN st1 := by
  obtain ⟨hlen, hslots, hk⟩ := hinv
  obtain ⟨users, u, hus, huj, hu0⟩ := hu
  obtain ⟨kws, kw, hkws, hkwi, hkw0⟩ := hkw
  have hlt : d.num_keyphrases_ + st.ukw_idx < st.names.length := by omega
  have hslot : st.names[d.num_keyphrases_ + st.ukw_idx]? =
      some (st.names[d.num_keyphrases_ + st.ukw_idx]) := List.getElem?_eq_getElem hlt
  have hslotlen : (st.names[d.num_keyphrases_ + st.ukw_idx]).length =
      c.MAX_KW_USERS_NAME_LEN := hslots _ (List.getElem_mem hlt)
  obtain ⟨slot1, h1⟩ := strlcpy_total (st.names[d.num_keyphrases_ + st.ukw_idx]) u
    c.MAX_KW_USERS_NAME_LEN (by omega) hu0
  have hl1 := strlcpy_length _ _ _ _ h1
  obtain ⟨slot2, h2⟩ := strlcat_total slot1 kw c.MAX_KW_USERS_NAME_LEN (by omega) hkw0
  have hl2 := strlcat_length _ _ _ _ h2
  refine ⟨{ names := st.names.set (d.num_keyphrases_ + st.ukw_idx) slot2,
            ukw_idx := st.ukw_idx + 1, k := st.k + 1 }, ?_, ?_, ?_, ?_⟩
  · unfold emitPair
    simp only [hus, hkws, huj, hkwi, hslot, h1, h2]
  · simpa using hlen
  · intro slot hmem
    rcases List.mem_or_eq_of_mem_set hmem with hin | heq
    · exact hslots slot hin
    · rw [heq]
      omega
  · simp [hk]

/-- Under the loop invariant the user loop of keyphrase `i` is defined when its
bound is at most `U` and the arrays it reads are long enough. -/
theorem userLoop_total (c : Config) (d : SoundModelInfo) (bounds : List Nat)
    (flags : List (List Nat)) (i size U b : Nat)
    (hb : bounds[i]? = some b) (hbU : b ≤ U) (hsize : d.num_keyphrases_ + U ≤ size)
    (hkw : ∃ kws kw, d.keyphrases_ = some kws ∧ kws[i]? = some kw ∧ 0 ∈ kw)
    (hu : ∀ j, j < d.num_users_ →
      ∃ users u, d.users_ = some users ∧ users[j]? = some u ∧ 0 ∈ u)
    (hf : ∀ j, j < d.num_users_ → ∃ row f, flags[j]? = some row ∧ row[i]? = some f) :
    ∀ (rem j : Nat) (st : LoopState), j + rem ≤ d.num_users_ →
      LoopInv size c.MAX_KW_USERS_NAME_LEN st →
      ∃ st1, userLoop c d bounds flags i rem j st = some st1 ∧
        LoopInv size c.MAX_KW_USERS_NAME_LEN st1 := by
  intro rem
  induction rem with
  | zero =>
    intro j st _ hinv
    exact ⟨st, by simp [userLoop], hinv⟩
  | succ rem ih =>
    intro j st hj hinv
    rw [userLoop]
    simp only [hb]
    by_cases hbreak : st.k ≥ b
    · exact ⟨st, by simp [hbreak], hinv⟩
    · obtain ⟨row, f, hrow, hflag⟩ := hf j (by omega)
      simp only [hbreak, if_false, hrow, hflag]
      by_cases hset : f ≠ 0
      · have hidx : d.num_keyphrases_ + st.ukw_idx < size := by
          have := hinv.2.2
          omega
        obtain ⟨st1, hemit, hinv1⟩ := emitPair_total c d i j size st hinv hidx (hu j (by omega)) hkw
        simp only [hset, if_true, hemit, ne_eq, not_false_eq_true]
        exact ih (j + 1) st1 (by omega) hinv1
      · simp only [hset, if_false]
        exact ih (j + 1) st (by omega) hinv

/-- Under the loop invariant the keyphrase loop is defined when the arrays it
reads are long enough and every bound is at most `U`. -/
theorem kwLoop_total (c : Config) (d : SoundModelInfo) (upk : Option (List Nat))
    (flags : List (List Nat)) (size U : Nat) (hsize : d.num_keyphrases_ + U ≤ size)
    (hkw : ∀ i, i < d.num_keyphrases_ →
      ∃ kws kw, d.keyphrases_ = some kws ∧ kws[i]? = some kw ∧ 0 ∈ kw)
    (hupk : ∀ bounds, upk = some bounds →
      (∀ i, i < d.num_keyphrases_ → ∃ b, bounds[i]? = some b ∧ b ≤ U) ∧
      (∀ j, j < d.num_users_ →
        ∃ users u, d.users_ = some users ∧ users[j]? = some u ∧ 0 ∈ u) ∧
      (∀ j i, j < d.num_users_ → i < d.num_keyphrases_ →
        ∃ row f, flags[j]? = some row ∧ row[i]? = some f)) :
    ∀ (rem i : Nat) (st : LoopState), i + rem ≤ d.num_keyphrases_ →
      LoopInv size c.MAX_KW_USERS_NAME_LEN st →
      ∃ st1, kwLoop c d upk flags rem i st = some st1 ∧
        LoopInv size c.MAX_KW_USERS_NAME_LEN st1 := by
  intro rem
  induction rem with
  | zero =>
    intro i st _ hinv
    exact ⟨st, by simp [kwLoop], hinv⟩
  | succ rem ih =>
    intro i st hi hinv
    obtain ⟨kws, kw, hkws, hkwi, hkw0⟩ := hkw i (by omega)
    have hlt : i < st.names.length := by
      have := hinv.1
      omega
    have hslot : st.names[i]? = some (st.names[i]) := List.getElem?_eq_getElem hlt
    have hslotlen : (st.names[i]).length = c.MAX_KW_USERS_NAME_LEN :=
      hinv.2.1 _ (List.getElem_mem hlt)
    obtain ⟨slot1, h1⟩ := strlcpy_total (st.names[i]) kw c.MAX_KW_USERS_NAME_LEN (by omega) hkw0
    have hl1 := strlcpy_length _ _ _ _ h1
    have hinv1 : LoopInv size c.MAX_KW_USERS_NAME_LEN
        { st with names := st.names.set i slot1 } := by
      refine ⟨by simpa using hinv.1, ?_, hinv.2.2⟩
      intro slot hmem
      rcases List.mem_or_eq_of_mem_set hmem with hin | heq
      · exact hinv.2.1 slot hin
      · rw [heq]
        omega
    rw [kwLoop]
    simp only [hkws, hkwi, hslot, h1]
    cases upk with
    | none =>
      simp only
      exact ih (i + 1) _ (by omega) hinv1
    | some bounds =>
      simp only
      obtain ⟨hbs, hus, hfs⟩ := hupk bounds rfl
      obtain ⟨b, hb, hbU⟩ := hbs i (by omega)
      obtain ⟨st2, hloop, hinv2⟩ := userLoop_total c d bounds flags i size U b hb hbU hsize
        ⟨kws, kw, hkws, hkwi, hkw0⟩ hus (fun j hj => hfs j i hj (by omega))
        d.num_users_ 0 _ (by omega) hinv1
      simp only [hloop]
      exact ih (i + 1) st2 (by omega) hinv2

/-- Induction over the user loop: a property of the loop variables that every
executed pair emission preserves holds after the loop if it held before. -/
theorem userLoop_induct (c : Config) (d : SoundModelInfo) (bounds : List Nat)
    (flags : List (List Nat)) (i : Nat) (P : LoopState → Prop)
    (hemit : ∀ (j b f : Nat) (row : List Nat) (st st1 : LoopState),
      bounds[i]? = some b → st.k < b → flags[j]? = some row → row[i]? = some f → f ≠ 0 →
      P st → emitPair c d i j st = some st1 → P st1) :
    ∀ (rem j : Nat) (st st1 : LoopState),
      userLoop c d bounds flags i rem j st = some st1 → P st → P st1 := by
  intro rem
  induction rem with
  | zero =>
    intro j st st1 h hP
    simp [userLoop] at h
    subst h
    exact hP
  | succ rem ih =>
    intro j st st1 h hP
    rw [userLoop] at h
    split at h
    · cases h
    · rename_i b hb
      split at h
      · cases h
        exact hP
      · rename_i hlt
        split at h
        · cases h
        · rename_i row hrow
          split at h
          · cases h
          · rename_i f hf
            split at h
            · rename_i hne
              split at h
              · cases h
              · rename_i st2 hemit2
                exact ih (j + 1) st2 st1 h
                  (hemit j b f row st st2 hb (by omega) hrow hf hne hP hemit2)
            · exact ih (j + 1) st st1 h hP

/-- Induction over the keyphrase loop: a property that every executed
keyphrase-name copy and every executed pair emission preserves holds after the
loop if it held before. -/
theorem kwLoop_induct (c : Config) (d : SoundModelInfo) (upk : Option (List Nat))
    (flags : List (List Nat)) (P : LoopState → Prop)
    (hkw : ∀ (i : Nat) (kws : List (List Nat)) (kw slot slot1 : List Nat) (st : LoopState),
      i < d.num_keyphrases_ → d.keyphrases_ = some kws → kws[i]? = some kw →
      st.names[i]? = some slot → strlcpy slot kw c.MAX_KW_USERS_NAME_LEN = some slot1 →
      P st → P { st with names := st.names.set i slot1 })
    (hemit : ∀ (i j b f : Nat) (bounds row : List Nat) (st st1 : LoopState),
      i < d.num_keyphrases_ → upk = some bounds →
      bounds[i]? = some b → st.k < b → flags[j]? = some row → row[i]? = some f → f ≠ 0 →
      P st → emitPair c d i j st = some st1 → P st1) :
    ∀ (rem i : Nat) (st st1 : LoopState),
      kwLoop c d upk flags rem i st = some st1 → i + rem ≤ d.num_keyphrases_ →
      P st → P st1 := by
  intro rem
  induction rem with
  | zero =>
    intro i st st1 h _ hP
    simp [kwLoop] at h
    subst h
    exact hP
  | succ rem ih =>
    intro i st st1 h hi hP
    rw [kwLoop] at h
    split at h
    · cases h
    · rename_i kws hkws
      split at h
      · rename_i kw slot hkwi hslot
        split at h
        · cases h
        · rename_i slot1 hcpy
          have hP1 := hkw i kws kw slot slot1 st (by omega) hkws hkwi hslot hcpy hP
          cases upk with
          | none => exact ih (i + 1) _ st1 h (by omega) hP1
          | some bounds =>
            simp only at h
            split at h
            · cases h
            · rename_i st2 hloop
              have hP2 := userLoop_induct c d bounds flags i P
                (fun j b f row st3 st4 hb hlt hrow hf hne hP3 he =>
                  hemit i j b f bounds row st3 st4 (by omega) rfl hb hlt hrow hf hne hP3 he)
                _ _ _ st2 hloop hP1
              exact ih (i + 1) st2 st1 h (by omega) hP2
      · cases h

/-- What a defined pair emission read and wrote. -/
theorem emitPair_inv (c : Config) (d : SoundModelInfo) (i j : Nat) (st st1 : LoopState)
    (h : emitPair c d i j st = some st1) :
    ∃ users kws user kw slot slot1 slot2,
      d.users_ = some users ∧ users[j]? = some user ∧
      d.keyphrases_ = some kws ∧ kws[i]? = some kw ∧
      st.names[d.num_keyphrases_ + st.ukw_idx]? = some slot ∧
      strlcpy slot user c.MAX_KW_USERS_NAME_LEN = some slot1 ∧
      strlcat slot1 kw c.MAX_KW_USERS_NAME_LEN = some slot2 ∧
      st1 = { names := st.names.set (d.num_keyphrases_ + st.ukw_idx) slot2,
              ukw_idx := st.ukw_idx + 1, k := st.k + 1 } := by
  unfold emitPair at h
  split at h
  · rename_i users kws hus hkws
    split at h
    · rename_i user kw slot huj hkwi hslot
      split at h
      · cases h
      · rename_i slot1 h1
        split at h
        · cases h
        · rename_i slot2 h2
          cases h
          exact ⟨users, kws, user, kw, slot, slot1, slot2, hus, huj, hkws, hkwi, hslot, h1, h2,
            rfl⟩
    · cases h
  · cases h

/-- The loops keep the number of slots and the length of every slot. -/
theorem kwLoop_shape (c : Config) (d : SoundModelInfo) (upk : Option (List Nat))
    (flags : List (List Nat)) (names0 : List (List Nat)) (st : LoopState)
    (h : kwLoop c d upk flags d.num_keyphrases_ 0 { names := names0, ukw_idx := 0, k := 0 } =
      some st)
    (hlen : ∀ slot ∈ names0, slot.length = c.MAX_KW_USERS_NAME_LEN) :
    st.names.length = names0.length ∧
    ∀ slot ∈ st.names, slot.length = c.MAX_KW_USERS_NAME_LEN := by
  refine kwLoop_induct c d upk flags
    (fun s => s.names.length = names0.length ∧
      ∀ slot ∈ s.names, slot.length = c.MAX_KW_USERS_NAME_LEN) ?_ ?_ _ 0 _ st h (by omega)
    ⟨rfl, hlen⟩
  · intro i kws kw slot slot1 s _ _ _ hslot hcpy hP
    refine ⟨by simpa using hP.1, ?_⟩
    intro x hx
    rcases List.mem_or_eq_of_mem_set hx with hin | heq
    · exact hP.2 x hin
    · rw [heq, strlcpy_length _ _ _ _ hcpy]
      exact hP.2 slot (List.getElem?_mem hslot)
  · intro i j b f bounds row s s1 _ _ _ _ _ _ _ hP he
    obtain ⟨users, kws, user, kw, slot, slot1, slot2, _, _, _, _, hslot, h1, h2, hs1⟩ :=
      emitPair_inv c d i j s s1 he
    rw [hs1]
    refine ⟨by simpa using hP.1, ?_⟩
    intro x hx
    rcases List.mem_or_eq_of_mem_set hx with hin | heq
    · exact hP.2 x hin
    · rw [heq, strlcat_length _ _ _ _ h2, strlcpy_length _ _ _ _ h1]
      exact hP.2 slot (List.getElem?_mem hslot)

/-- The counters of the loops: `k` and `ukw_idx` stay equal, they never exceed
a number `B` that bounds the entries of `num_users_per_kw` read by the loop,
and no slot from index `num_keyphrases_ + ukw_idx` on has been written. -/
theorem kwLoop_counters (c : Config) (d : SoundModelInfo) (upk : Option (List Nat))
    (flags : List (List Nat)) (names0 : List (List Nat)) (B : Nat) (st : LoopState)
    (hB : ∀ bounds, upk = some bounds →
      ∀ i b, i < d.num_keyphrases_ → bounds[i]? = some b → b ≤ B)
    (h : kwLoop c d upk flags d.num_keyphrases_ 0 { names := names0, ukw_idx := 0, k := 0 } =
      some st) :
    st.k = st.ukw_idx ∧ st.ukw_idx ≤ B ∧
    ∀ m, d.num_keyphrases_ + st.ukw_idx ≤ m → st.names[m]? = names0[m]? := by
  refine kwLoop_induct c d upk flags
    (fun s => s.k = s.ukw_idx ∧ s.ukw_idx ≤ B ∧
      ∀ m, d.num_keyphrases_ + s.ukw_idx ≤ m → s.names[m]? = names0[m]?) ?_ ?_ _ 0 _ st h
    (by omega) ⟨rfl, Nat.zero_le _, fun _ _ => rfl⟩
  · intro i kws kw slot slot1 s hi _ _ _ _ hP
    refine ⟨hP.1, hP.2.1, ?_⟩
    intro m hm
    simp only
    rw [List.getElem?_set_ne (by omega)]
    exact hP.2.2 m hm
  · intro i j b f bounds row s s1 hi hupk hb hlt _ _ _ hP he
    obtain ⟨_, _, _, _, _, _, _, _, _, _, _, _, _, _, hs1⟩ := emitPair_inv c d i j s s1 he
    have hbB := hB bounds hupk i b hi hb
    rw [hs1]
    refine ⟨by simp [hP.1], by simp only; omega, ?_⟩
    intro m hm
    simp only at hm ⊢
    rw [List.getElem?_set_ne (by omega)]
    exact hP.2.2 m (by omega)

/-- What the loop over the users for keyphrase `i` does, told by the pairs it
emits: both counters advance by their number, the `n`-th pair fills the slot
`num_keyphrases_ + ukw_idx + n` with its composite name, and every other slot
is left alone. -/
theorem userLoop_pairs (c : Config) (d : SoundModelInfo) (bounds : List Nat)
    (flags : List (List Nat)) (i : Nat) (hM : 0 < c.MAX_KW_USERS_NAME_LEN) :
    ∀ (rem j : Nat) (st st1 : LoopState),
      userLoop c d bounds flags i rem j st = some st1 →
      st1.ukw_idx = st.ukw_idx + (userPairs bounds flags i rem j st.k).length ∧
      st1.k = st.k + (userPairs bounds flags i rem j st.k).length ∧
      (∀ m, m < d.num_keyphrases_ + st.ukw_idx ∨ d.num_keyphrases_ + st1.ukw_idx ≤ m →
        st1.names[m]? = st.names[m]?) ∧
      ∀ n q, (userPairs bounds flags i rem j st.k)[n]? = some q →
        q.1 = i ∧ Flagged flags q.1 q.2 ∧
        ∃ slot, st1.names[d.num_keyphrases_ + st.ukw_idx + n]? = some slot ∧
          HoldsPairName c d q.1 q.2 slot := by
  intro rem
  induction rem with
  | zero =>
    intro j st st1 h
    simp only [userLoop, Option.some.injEq] at h
    subst h
    simp [userPairs]
  | succ rem ih =>
    intro j st st1 h
    rw [userLoop] at h
    rw [userPairs]
    cases hb : bounds[i]? with
    | none => simp [hb] at h
    | some bound =>
      simp only [hb] at h ⊢
      by_cases hk : st.k ≥ bound
      · simp only [if_pos hk, Option.some.injEq] at h
        subst h
        simp [if_pos hk]
      · simp only [if_neg hk] at h ⊢
        cases hr : flags[j]? with
        | none => simp [hr] at h
        | some row =>
          simp only [hr] at h ⊢
          cases hf : row[i]? with
          | none => simp [hf] at h
          | some flag =>
            simp only [hf] at h ⊢
            by_cases hfl : flag ≠ 0
            · simp only [if_pos hfl] at h ⊢
              cases he : emitPair c d i j st with
              | none => simp [he] at h
              | some st2 =>
                simp only [he] at h
                obtain ⟨hu, hkk, hkeep, hpairs⟩ := ih (j + 1) st2 st1 h
                obtain ⟨_, hukw2, hk2, hidx, hother⟩ := emitPair_spec c d i j st st2 he
                obtain ⟨users, kws, user, kw, slot, slot1, slot2, hus, huj, hks, hki, hslot,
                  h1, h2, hst2⟩ := emitPair_inv c d i j st st2 he
                rw [hk2] at hu hkk hpairs
                rw [hukw2] at hu hkeep hpairs
                refine ⟨?_, ?_, ?_, ?_⟩
                · rw [hu, List.length_cons]
                  omega
                · rw [hkk, List.length_cons]
                  omega
                · intro m hm
                  rw [hkeep m (by omega), hother m (by omega)]
                · intro n q hq
                  cases n with
                  | zero =>
                    simp only [List.getElem?_cons_zero, Option.some.injEq] at hq
                    subst hq
                    refine ⟨rfl, ⟨row, flag, hr, hf, hfl⟩, slot2, ?_, ?_⟩
                    · rw [Nat.add_zero, hkeep _ (Or.inl (by omega)), hst2]
                      simp only
                      rw [List.getElem?_set_self (by omega)]
                    · obtain ⟨u, p, hcu, hcp, hcs⟩ :=
                        strlcpy_strlcat_cstr slot user kw slot1 slot2 _ hM h1 h2
                      exact ⟨users, kws, user, kw, u, p, hus, huj, hks, hki, hcu, hcp, hcs⟩
                  | succ n =>
                    simp only [List.getElem?_cons_succ] at hq
                    obtain ⟨hq1, hq2, slot3, hs3, hh3⟩ := hpairs n q hq
                    refine ⟨hq1, hq2, slot3, ?_, hh3⟩
                    rw [← hs3]
                    congr 1
                    omega
            · simp only [if_neg hfl] at h ⊢
              exact ih (j + 1) st st1 h

/-- What the two loops of `SetConfLevels` do to the slots from index
`num_keyphrases_` on, told by the pairs they emit. -/
theorem kwLoop_pairs (c : Config) (d : SoundModelInfo) (upk : Option (List Nat))
    (flags : List (List Nat)) (hM : 0 < c.MAX_KW_USERS_NAME_LEN) :
    ∀ (rem i : Nat) (st st1 : LoopState),
      kwLoop c d upk flags rem i st = some st1 → i + rem ≤ d.num_keyphrases_ →
      st1.ukw_idx = st.ukw_idx + (kwPairs d.num_users_ upk flags rem i st.k).length ∧
      st1.k = st.k + (kwPairs d.num_users_ upk flags rem i st.k).length ∧
      (∀ m, d.num_keyphrases_ ≤ m →
        m < d.num_keyphrases_ + st.ukw_idx ∨ d.num_keyphrases_ + st1.ukw_idx ≤ m →
        st1.names[m]? = st.names[m]?) ∧
      ∀ n q, (kwPairs d.num_users_ upk flags rem i st.k)[n]? = some q →
        i ≤ q.1 ∧ q.1 < i + rem ∧ Flagged flags q.1 q.2 ∧
        ∃ slot, st1.names[d.num_keyphrases_ + st.ukw_idx + n]? = some slot ∧
          HoldsPairName c d q.1 q.2 slot := by
  intro rem
  induction rem with
  | zero =>
    intro i st st1 h _
    simp only [kwLoop, Option.some.injEq] at h
    subst h
    simp [kwPairs]
  | succ rem ih =>
    intro i st st1 h hK
    rw [kwLoop] at h
    cases hks : d.keyphrases_ with
    | none => simp [hks] at h
    | some kws =>
      simp only [hks] at h
      cases hki : kws[i]? with
      | none => simp [hki] at h
      | some kw =>
        cases hsl : st.names[i]? with
        | none => simp [hki, hsl] at h
        | some slot =>
          simp only [hki, hsl] at h
          cases hcp : strlcpy slot kw c.MAX_KW_USERS_NAME_LEN with
          | none => simp [hcp] at h
          | some slot1 =>
            simp only [hcp] at h
            have hset : ∀ m, d.num_keyphrases_ ≤ m →
                (st.names.set i slot1)[m]? = st.names[m]? := by
              intro m hm
              rw [List.getElem?_set_ne (by omega)]
            cases upk with
            | none =>
              simp only [kwPairs] at h ⊢
              obtain ⟨hu, hkk, hkeep, hpairs⟩ := ih (i + 1) _ st1 h (by omega)
              simp only at hu hkk hkeep hpairs
              refine ⟨hu, hkk, ?_, ?_⟩
              · intro m hm hr
                rw [hkeep m hm hr, hset m hm]
              · intro n q hq
                obtain ⟨h1, h2, h3, h4⟩ := hpairs n q hq
                exact ⟨by omega, by omega, h3, h4⟩
            | some bounds =>
              simp only [kwPairs] at h ⊢
              cases hul : userLoop c d bounds flags i d.num_users_ 0
                  { st with names := st.names.set i slot1 } with
              | none => simp [hul] at h
              | some st2 =>
                simp only [hul] at h
                obtain ⟨hu2, hk2, hkeep2, hpairs2⟩ :=
                  userLoop_pairs c d bounds flags i hM d.num_users_ 0 _ st2 hul
                simp only at hu2 hk2 hkeep2 hpairs2
                obtain ⟨hu, hkk, hkeep, hpairs⟩ := ih (i + 1) st2 st1 h (by omega)
                rw [hk2] at hu hkk hpairs
                rw [hu2] at hu hkeep hpairs
                refine ⟨?_, ?_, ?_, ?_⟩
                · rw [hu, List.length_append]
                  omega
                · rw [hkk, List.length_append]
                  omega
                · intro m hm hr
                  rw [hkeep m hm (by omega), hkeep2 m (by omega), hset m hm]
                · intro n q hq
                  by_cases hn : n < (userPairs bounds flags i d.num_users_ 0 st.k).length
                  · rw [List.getElem?_append_left hn] at hq
                    obtain ⟨hq1, hq2, slot3, hs3, hh3⟩ := hpairs2 n q hq
                    refine ⟨by omega, by omega, hq2, slot3, ?_, hh3⟩
                    rw [hkeep _ (by omega) (Or.inl (by omega)), hs3]
                  · rw [List.getElem?_append_right (by omega)] at hq
                    obtain ⟨hq1, hq2, hq3, slot3, hs3, hh3⟩ := hpairs _ q hq
                    refine ⟨by omega, by omega, hq3, slot3, ?_, hh3⟩
                    rw [← hs3]
                    congr 1
                    omega

/-- A keyphrase loop that runs to its end found a slot for every keyphrase it
visited. -/
theorem kwLoop_visits (c : Config) (d : SoundModelInfo) (upk : Option (List Nat))
    (flags : List (List Nat)) :
    ∀ (rem i : Nat) (st st1 : LoopState),
      kwLoop c d upk flags rem i st = some st1 → i + rem ≤ d.num_keyphrases_ →
      rem = 0 ∨ i + rem ≤ st.names.length := by
  intro rem
  induction rem with
  | zero =>
    intro i st st1 _ _
    exact Or.inl rfl
  | succ rem ih =>
    intro i st st1 h hK
    right
    rw [kwLoop] at h
    split at h
    · cases h
    · split at h
      · rename_i kw slot hkw hslot
        split at h
        · cases h
        · rename_i slot1 hcpy
          have hi : i < st.names.length := by
            by_contra hlt
            rw [List.getElem?_eq_none (by omega)] at hslot
            cases hslot
          have hinner : ∃ st2, kwLoop c d upk flags rem (i + 1) st2 = some st1 ∧
              st2.names.length = st.names.length := by
            cases upk with
            | none => exact ⟨_, h, by simp⟩
            | some bounds =>
              simp only at h
              split at h
              · cases h
              · rename_i st2 hloop
                obtain ⟨hl, _⟩ := userLoop_spec c d bounds flags i _ _ _ _ hloop
                exact ⟨st2, h, by simpa using hl⟩
          obtain ⟨st2, hrest, hl2⟩ := hinner
          rcases ih (i + 1) st2 st1 hrest (by omega) with h0 | hle
          · omega
          · omega
      · cases h

theorem getElem?_le_sum (l : List Nat) (i b : Nat) (h : l[i]? = some b) : b ≤ l.sum := by
  induction l generalizing i with
  | nil => simp at h
  | cons a t ih =>
    cases i with
    | zero =>
      simp at h
      simp [h]
    | succ i =>
      simp at h
      have := ih i h
      simp
      omega

theorem getElem?_le_foldr_max (l : List Nat) (i b : Nat) (h : l[i]? = some b) :
    b ≤ l.foldr max 0 := by
  induction l generalizing i with
  | nil => simp at h
  | cons a t ih =>
    cases i with
    | zero =>
      simp at h
      simp [h]
    | succ i =>
      simp at h
      have := ih i h
      simp
      omega

/-- The three ways a call of `SetConfLevels` can return: at once for size
zero, with `-ENOMEM` after a failed allocation, or with 0 after both loops. -/
theorem setConfLevels_inv (c : Config) (d d1 : SoundModelInfo) (U : Nat)
    (upk : Option (List Nat)) (flags : List (List Nat)) (heap heap1 : List Bool)
    (status : Int)
    (h : SetConfLevels c d U upk flags heap = some (status, d1, heap1)) :
    ((d.num_keyphrases_ + U) % UINT32_MOD = 0 ∧ status = 0 ∧
      d1 = { d with cf_levels_size_ := 0 } ∧ heap1 = heap) ∨
    ((d.num_keyphrases_ + U) % UINT32_MOD ≠ 0 ∧ status = -ENOMEM ∧
      ((AllocArrayPtrs heap ((d.num_keyphrases_ + U) % UINT32_MOD)
          c.MAX_KW_USERS_NAME_LEN).1 = none ∨
        ∃ names heap0, AllocArrayPtrs heap ((d.num_keyphrases_ + U) % UINT32_MOD)
          c.MAX_KW_USERS_NAME_LEN = (some names, heap0) ∧
          (calloc heap0 ((2 * ((d.num_keyphrases_ + U) % UINT32_MOD)) % UINT32_MOD)).1 = none)) ∨
    ((d.num_keyphrases_ + U) % UINT32_MOD ≠ 0 ∧ status = 0 ∧
      ∃ names heap0 blk blk1 st,
        AllocArrayPtrs heap ((d.num_keyphrases_ + U) % UINT32_MOD) c.MAX_KW_USERS_NAME_LEN =
          (some names, heap0) ∧
        calloc heap0 ((2 * ((d.num_keyphrases_ + U) % UINT32_MOD)) % UINT32_MOD) =
          (some blk, heap1) ∧
        memset blk c.MAX_CONF_LEVEL_VALUE ((d.num_keyphrases_ + U) % UINT32_MOD) = some blk1 ∧
        kwLoop c d upk flags d.num_keyphrases_ 0 { names := names, ukw_idx := 0, k := 0 } =
          some st ∧
        d1 = { d with cf_levels_size_ := (d.num_keyphrases_ + U) % UINT32_MOD,
                      cf_levels_kw_users_ := some st.names,
                      cf_levels_ := some blk1,
                      det_cf_levels_ := some ((d.num_keyphrases_ + U) % UINT32_MOD) }) := by
  unfold SetConfLevels at h
  simp only at h
  by_cases hz : (d.num_keyphrases_ + U) % UINT32_MOD = 0
  · left
    simp only [hz, if_true] at h
    simp at h
    exact ⟨hz, h.1.symm, h.2.1.symm, h.2.2.symm⟩
  · right
    simp only [hz, if_false] at h
    rcases ha : AllocArrayPtrs heap ((d.num_keyphrases_ + U) % UINT32_MOD)
        c.MAX_KW_USERS_NAME_LEN with ⟨_ | names, heap0⟩
    · left
      rw [ha] at h
      simp at h
      exact ⟨hz, h.1.symm, Or.inl rfl⟩
    · rw [ha] at h
      simp only at h
      rcases hc : calloc heap0 ((2 * ((d.num_keyphrases_ + U) % UINT32_MOD)) % UINT32_MOD)
          with ⟨_ | blk, heap2⟩
      · left
        rw [hc] at h
        simp at h
        exact ⟨hz, h.1.symm, Or.inr ⟨names, heap0, rfl, by rw [hc]⟩⟩
      · right
        rw [hc] at h
        simp only at h
        split at h
        · cases h
        · rename_i blk1 hset
          split at h
          · cases h
          · rename_i st hloop
            simp at h
            refine ⟨hz, h.1.symm, names, heap0, blk, blk1, st, rfl, ?_, hset, hloop, h.2.1.symm⟩
            rw [hc, h.2.2]

theorem allTrue_drop (heap : List Bool) (n : Nat) (h : ∀ b ∈ heap, b = true) :
    ∀ b ∈ heap.drop n, b = true := fun b hb => h b (List.mem_of_mem_drop hb)

/-- When every allocation succeeds and the accesses stay in bounds,
`SetConfLevels` runs to its end and returns 0. -/
theorem setConfLevels_total (c : Config) (d : SoundModelInfo) (U : Nat)
    (upk : Option (List Nat)) (flags : List (List Nat)) (heap : List Bool)
    (halloc : ∀ b ∈ heap, b = true) (hsafe : SetConfLevelsSafe d U upk flags) :
    ∃ d1 heap1, SetConfLevels c d U upk flags heap = some (0, d1, heap1) := by
  obtain ⟨hfit, hkw, hupk⟩ := hsafe
  have hmod : (d.num_keyphrases_ + U) % UINT32_MOD = d.num_keyphrases_ + U :=
    Nat.mod_eq_of_lt (by omega)
  have hmod2 : (2 * (d.num_keyphrases_ + U)) % UINT32_MOD = 2 * (d.num_keyphrases_ + U) :=
    Nat.mod_eq_of_lt hfit
  unfold SetConfLevels
  simp only [hmod, hmod2]
  by_cases hz : d.num_keyphrases_ + U = 0
  · simp only [hz, if_true]
    exact ⟨_, _, rfl⟩
  · simp only [hz, if_false]
    rw [AllocArrayPtrs_allTrue heap _ _ halloc]
    simp only
    rw [calloc_allTrue _ _ (allTrue_drop _ _ (allTrue_tail heap halloc))]
    simp only
    have hfill : ∃ blk1, memset (List.replicate (2 * (d.num_keyphrases_ + U)) 0)
        c.MAX_CONF_LEVEL_VALUE (d.num_keyphrases_ + U) = some blk1 := by
      unfold memset writeBytes
      have : 0 + (List.replicate (d.num_keyphrases_ + U) (c.MAX_CONF_LEVEL_VALUE % 256)).length ≤
          (List.replicate (2 * (d.num_keyphrases_ + U)) 0).length := by
        simp
        omega
      simp only [this, if_true]
      exact ⟨_, rfl⟩
    obtain ⟨blk1, hset⟩ := hfill
    have hinv : LoopInv (d.num_keyphrases_ + U) c.MAX_KW_USERS_NAME_LEN
        { names := List.replicate (d.num_keyphrases_ + U)
            (List.replicate c.MAX_KW_USERS_NAME_LEN 0), ukw_idx := 0, k := 0 } := by
      refine ⟨by simp, ?_, rfl⟩
      intro slot hmem
      rw [List.eq_of_mem_replicate hmem]
      simp
    obtain ⟨st, hloop, _⟩ := kwLoop_total c d upk flags (d.num_keyphrases_ + U) U (le_refl _)
      hkw hupk d.num_keyphrases_ 0 _ (by omega) hinv
    simp only [hset, hloop]
    exact ⟨_, _, rfl⟩

/-! ## Lemmas on assignment -/

theorem readBytes_all (buf : List Nat) (n : Nat) (h : buf.length = n) :
    readBytes buf 0 n = some buf := by
  unfold readBytes
  rw [if_pos (by omega)]
  congr 1
  rw [List.drop_zero]
  exact List.take_of_length_le (by omega)

theorem writeBytes_all (buf bytes : List Nat) (h : bytes.length = buf.length) :
    writeBytes buf 0 bytes = some bytes := by
  rw [writeBytes_zero _ _ (by omega), List.drop_of_length_le (by omega)]
  simp

/-- Copying every slot of `src` over fresh slots of the same length gives
`src`. -/
theorem copySlots_all (src : List (List Nat)) (len : Nat)
    (hsrc : ∀ slot ∈ src, slot.length = len) :
    ∀ (rem i : Nat) (dst : List (List Nat)), i + rem = src.length →
      dst.length = src.length →
      (∀ m, m < i → dst[m]? = src[m]?) →
      (∀ slot ∈ dst, slot.length = len) →
      copySlots (some src) len rem i dst = some src := by
  intro rem
  induction rem with
  | zero =>
    intro i dst hi hlen hpre _
    simp only [copySlots]
    congr 1
    apply List.ext_getElem?
    intro m
    by_cases hm : m < i
    · exact hpre m hm
    · rw [List.getElem?_eq_none (by omega), List.getElem?_eq_none (by omega)]
  | succ rem ih =>
    intro i dst hi hlen hpre hdst
    have hlt : i < src.length := by omega
    have hlt2 : i < dst.length := by omega
    have hs : src[i]? = some (src[i]) := List.getElem?_eq_getElem hlt
    have hd : dst[i]? = some (dst[i]) := List.getElem?_eq_getElem hlt2
    have hsl : (src[i]).length = len := hsrc _ (List.getElem_mem hlt)
    have hdl : (dst[i]).length = len := hdst _ (List.getElem_mem hlt2)
    have hread : readBytes (src[i]) 0 len = some (src[i]) := readBytes_all _ _ hsl
    have hwrite : writeBytes (dst[i]) 0 (src[i]) = some (src[i]) :=
      writeBytes_all _ _ (by omega)
    rw [copySlots]
    simp only [hs, hd, hread, hwrite]
    apply ih (i + 1) (dst.set i (src[i])) (by omega) (by simpa using hlen)
    · intro m hm
      by_cases hmi : m = i
      · subst hmi
        simp [hlt2, hs]
      · rw [List.getElem?_set_ne (by omega)]
        exact hpre m (by omega)
    · intro slot hmem
      rcases List.mem_or_eq_of_mem_set hmem with hin | heq
      · exact hdst slot hin
      · rw [heq]
        exact hsl

theorem cloneArray_copies (old : Option (List (List Nat))) (src : List (List Nat))
    (n len : Nat) (heap : List Bool) (halloc : ∀ b ∈ heap, b = true)
    (hn : src.length = n) (hfree : FreeArrayPtrs old n = some ())
    (hsrc : ∀ slot ∈ src, slot.length = len) :
    cloneArray old (some src) n len heap = some (some src, heap.tail.drop n) := by
  subst hn
  have hfresh : ∀ slot ∈ List.replicate src.length (List.replicate len 0),
      slot.length = len := by
    intro slot hmem
    rw [List.eq_of_mem_replicate hmem]
    simp
  unfold cloneArray
  simp only [hfree, AllocArrayPtrs_allTrue heap _ _ halloc]
  rw [copySlots_all src len hsrc src.length 0 _ (by omega) (by simp) (by intro m hm; omega)
    hfresh]

theorem cloneData_copies (s : SoundModelInfo) (data : List Nat) (heap : List Bool)
    (halloc : ∀ b ∈ heap, b = true) (hdata : s.sm_data_ = some data)
    (hlen : data.length = s.sm_size_) :
    cloneData s heap = some (some data, heap.tail) := by
  have hsrc : memcpySrc (some data) 0 s.sm_size_ = some data := by
    rw [memcpySrc_some_zero data s.sm_size_ (by omega)]
    congr 1
    exact List.take_of_length_le (by omega)
  have hw : writeBytes (List.replicate s.sm_size_ 0) 0 data = some data :=
    writeBytes_all _ _ (by simp [hlen])
  unfold cloneData
  simp only [calloc_allTrue heap _ halloc, hdata, hsrc, hw]

/-- The block step of `operator =` reproduces a `2 * cf_levels_size_`-byte
block and places `det_cf_levels_` at offset `cf_levels_size_`. -/
theorem cloneLevels_copies (s : SoundModelInfo) (blk : List Nat) (heap : List Bool)
    (halloc : ∀ b ∈ heap, b = true) (hblk : s.cf_levels_ = some blk)
    (hlen : blk.length = 2 * s.cf_levels_size_)
    (hfit : 2 * s.cf_levels_size_ < UINT32_MOD)
    (hdet : s.det_cf_levels_ = some s.cf_levels_size_) :
    cloneLevels s heap = some (some blk, some s.cf_levels_size_, heap.tail) := by
  have hmod : (2 * s.cf_levels_size_) % UINT32_MOD = 2 * s.cf_levels_size_ :=
    Nat.mod_eq_of_lt hfit
  have hlo : memcpySrc (some blk) 0 s.cf_levels_size_ = some (blk.take s.cf_levels_size_) :=
    memcpySrc_some_zero blk _ (by omega)
  have hlolen : (blk.take s.cf_levels_size_).length = s.cf_levels_size_ := by
    rw [List.length_take]
    omega
  have hhilen : (blk.drop s.cf_levels_size_).length = s.cf_levels_size_ := by
    rw [List.length_drop]
    omega
  have hw1 : writeBytes (List.replicate (2 * s.cf_levels_size_) 0) 0
      (blk.take s.cf_levels_size_) =
      some (blk.take s.cf_levels_size_ ++ List.replicate s.cf_levels_size_ 0) := by
    rw [writeBytes_zero _ _ (by rw [hlolen, List.length_replicate]; omega), hlolen,
      List.drop_replicate]
    congr 3
    omega
  have hhi : memcpySrc (some blk) s.cf_levels_size_ s.cf_levels_size_ =
      some (blk.drop s.cf_levels_size_) := by
    unfold memcpySrc
    by_cases hz : s.cf_levels_size_ = 0
    · have hnil : blk = [] := List.eq_nil_of_length_eq_zero (by omega)
      simp [hz, hnil]
    · simp only [hz, if_false, readBytes]
      rw [if_pos (by omega)]
      congr 1
      exact List.take_of_length_le (by omega)
  have hw2 : writeBytes (blk.take s.cf_levels_size_ ++ List.replicate s.cf_levels_size_ 0)
      s.cf_levels_size_ (blk.drop s.cf_levels_size_) = some blk := by
    have e1 : List.take s.cf_levels_size_
        (blk.take s.cf_levels_size_ ++ List.replicate s.cf_levels_size_ 0) =
        blk.take s.cf_levels_size_ := by
      rw [List.take_append_of_le_length (by omega)]
      exact List.take_of_length_le (by omega)
    have e2 : List.drop (s.cf_levels_size_ + (blk.drop s.cf_levels_size_).length)
        (blk.take s.cf_levels_size_ ++ List.replicate s.cf_levels_size_ 0) = [] := by
      apply List.drop_of_length_le
      rw [hhilen, List.length_append, hlolen, List.length_replicate]
    unfold writeBytes
    rw [if_pos (by rw [hhilen, List.length_append, hlolen, List.length_replicate]), e1, e2,
      List.append_nil, List.take_append_drop]
  unfold cloneLevels
  simp only [hmod, calloc_allTrue heap _ halloc, hblk, hlo, hw1, hdet, hhi, hw2]

/-- Every assignment from a fully populated source in which all allocations
succeed and the three `FreeArrayPtrs` calls on the target's old arrays stay
inside them leaves the target equal to the source. -/
theorem operator_assign_copies (c : Config) (t s : SoundModelInfo) (heap : List Bool)
    (halloc : ∀ b ∈ heap, b = true) (hfull : FullyPopulated c s)
    (hkw : FreeArrayPtrs t.keyphrases_ s.num_keyphrases_ = some ())
    (hus : FreeArrayPtrs t.users_ s.num_users_ = some ())
    (hnm : FreeArrayPtrs t.cf_levels_kw_users_ s.cf_levels_size_ = some ()) :
    ∃ heap1, operator_assign c false t s heap = some (s, heap1) := by
  obtain ⟨⟨data, hdata, hdlen⟩, ⟨blk, hblk, hblen, hfit, hdet⟩, ⟨kws, hkws, hklen, hkslot⟩,
    ⟨users, husers, hulen, huslot⟩, ⟨names, hnames, hnlen, hnslot⟩⟩ := hfull
  have h1 := cloneData_copies s data heap halloc hdata hdlen
  have ht1 := allTrue_tail heap halloc
  have h2 := cloneLevels_copies s blk heap.tail ht1 hblk hblen hfit hdet
  have ht2 := allTrue_tail _ ht1
  have h3 := cloneArray_copies t.keyphrases_ kws s.num_keyphrases_ c.MAX_STRING_LEN
    heap.tail.tail ht2 hklen hkw hkslot
  have ht3 := allTrue_drop _ s.num_keyphrases_ (allTrue_tail _ ht2)
  have h4 := cloneArray_copies t.users_ users s.num_users_ c.MAX_STRING_LEN _ ht3 hulen hus
    huslot
  have ht4 := allTrue_drop _ s.num_users_ (allTrue_tail _ ht3)
  have h5 := cloneArray_copies t.cf_levels_kw_users_ names s.cf_levels_size_
    c.MAX_KW_USERS_NAME_LEN _ ht4 hnlen hnm hnslot
  refine ⟨List.drop s.cf_levels_size_
    (List.drop s.num_users_ (List.drop s.num_keyphrases_ heap.tail.tail.tail).tail).tail, ?_⟩
  unfold operator_assign
  simp only [Bool.false_eq_true, if_false, h1, h2, hkws, husers, hnames, h3, h4, h5]
  congr 2
  cases s
  simp_all

/-- An assignment whose target holds a keyphrase array with fewer slots than
the source has keyphrases is never defined. -/
theorem operator_assign_short_target (c : Config) (t s : SoundModelInfo) (heap : List Bool)
    (old : List (List Nat)) (hold : t.keyphrases_ = some old)
    (hshort : old.length < s.num_keyphrases_) :
    operator_assign c false t s heap = none := by
  have hfree : FreeArrayPtrs t.keyphrases_ s.num_keyphrases_ = none := by
    simp [FreeArrayPtrs, hold]
    omega
  unfold operator_assign
  simp only [Bool.false_eq_true, if_false]
  rcases cloneData s heap with _ | ⟨data, heap1⟩
  · rfl
  · simp only
    rcases cloneLevels s heap1 with _ | ⟨blk, det, heap2⟩
    · rfl
    · simp only [cloneArray, hfree]

/-! ## UpdateConfLevelArray: theorems -/

/-- C5: when `cfl_size` exceeds `cf_levels_size_`, `UpdateConfLevelArray`
returns `-EINVAL` and the descriptor is the one it was before the call,
whatever the report pointer is. -/
theorem updateConfLevelArray_oversize (d : SoundModelInfo)
    (conf_levels : Option (List Nat)) (cfl_size : Nat)
    (hsize : cfl_size > d.cf_levels_size_) :
    UpdateConfLevelArray d conf_levels cfl_size = some (-EINVAL, d) := by
  simp [UpdateConfLevelArray, hsize]

/-- Witness of C5: a four-byte report against the three-slot sample table. -/
theorem updateConfLevelArray_oversize_witness :
    4 > sampleInfo.cf_levels_size_ ∧
    UpdateConfLevelArray sampleInfo (some [1, 2, 3, 4]) 4 = some (-EINVAL, sampleInfo) :=
  ⟨by decide, updateConfLevelArray_oversize sampleInfo (some [1, 2, 3, 4]) 4 (by decide)⟩

/-- C6: on a descriptor whose storage `blk` really holds `cf_levels_size_`
bytes, a non-null report of at least `n` bytes with `n ≤ cf_levels_size_`
makes `UpdateConfLevelArray` return 0; only `cf_levels_` changes, its first
`n` bytes are the report and every later byte keeps its value. -/
theorem updateConfLevelArray_copies (d : SoundModelInfo) (blk report : List Nat) (n : Nat)
    (hblk : d.cf_levels_ = some blk) (hstore : d.cf_levels_size_ ≤ blk.length)
    (hrep : n ≤ report.length) (hn : n ≤ d.cf_levels_size_) :
    ∃ blk1, UpdateConfLevelArray d (some report) n = some (0, { d with cf_levels_ := some blk1 }) ∧
      blk1.length = blk.length ∧
      (∀ i, i < n → blk1[i]? = report[i]?) ∧
      (∀ i, n ≤ i → blk1[i]? = blk[i]?) := by
  have hlen : (report.take n).length = n := by simp [hrep]
  have hle : (report.take n).length ≤ blk.length := by omega
  refine ⟨report.take n ++ blk.drop n, ?_, ?_, ?_, ?_⟩
  · have hnot : ¬ n > d.cf_levels_size_ := by omega
    simp only [UpdateConfLevelArray, hnot, hblk, memcpySrc_some_zero report n hrep,
      writeBytes_zero blk _ hle, hlen]
    simp
  · simp
    omega
  · intro i hi
    rw [List.getElem?_append_left (by omega)]
    simp [List.getElem?_take, hi]
  · intro i hi
    rw [List.getElem?_append_right (by omega)]
    simp [hlen]
    congr 1
    omega

/-- Witness of C6: two bytes written over the three-slot sample table. -/
theorem updateConfLevelArray_copies_witness :
    ∃ blk1, UpdateConfLevelArray sampleInfo (some [7, 9]) 2 =
        some (0, { sampleInfo with cf_levels_ := some blk1 }) ∧
      blk1[0]? = some 7 ∧ blk1[1]? = some 9 ∧ blk1[2]? = some 100 := by
  obtain ⟨blk1, hrun, _, hpre, hpost⟩ :=
    updateConfLevelArray_copies sampleInfo [100, 100, 100, 0, 0, 0] [7, 9] 2 rfl
      (by decide) (by decide) (by decide)
  exact ⟨blk1, hrun, hpre 0 (by decide), hpre 1 (by decide), hpost 2 (by decide)⟩

/-- Counterexample to C7: the freshly constructed descriptor has no storage,
yet a non-null report of size 0 is accepted with status 0. -/
theorem updateConfLevelArray_no_storage_counterexample :
    SoundModelInfo.ctor.cf_levels_ = none ∧
    UpdateConfLevelArray SoundModelInfo.ctor (some []) 0 = some (0, SoundModelInfo.ctor) := by
  decide

/-- C7 as amended: on a descriptor without storage `UpdateConfLevelArray`
returns `-EINVAL` exactly when `cfl_size > cf_levels_size_` or the report is
null; otherwise it returns 0 and copies nothing.  The descriptor is unchanged
either way. -/
theorem updateConfLevelArray_no_storage (d : SoundModelInfo)
    (conf_levels : Option (List Nat)) (cfl_size : Nat) (hnone : d.cf_levels_ = none) :
    UpdateConfLevelArray d conf_levels cfl_size =
      some (if cfl_size > d.cf_levels_size_ ∨ conf_levels = none then -EINVAL else 0, d) := by
  unfold UpdateConfLevelArray
  split
  · rfl
  · simp [hnone]

/-- Witness of C7 as amended: a descriptor whose `SetConfLevels` block
allocation failed (size 3, no storage) accepts a report of size 2. -/
theorem updateConfLevelArray_no_storage_witness :
    ({ sampleModel with cf_levels_size_ := 3 } : SoundModelInfo).cf_levels_ = none ∧
    UpdateConfLevelArray { sampleModel with cf_levels_size_ := 3 } (some [7, 9]) 2 =
      some (0, { sampleModel with cf_levels_size_ := 3 }) :=
  ⟨rfl, by
    have h := updateConfLevelArray_no_storage { sampleModel with cf_levels_size_ := 3 }
      (some [7, 9]) 2 rfl
    simpa using h⟩

/-- C8: with a report of exactly `cf_levels_size_` bytes the call returns 0
and `cf_levels_` reads back as the report; the same report applied again
changes nothing, and a report equal to the current `cf_levels_` leaves the
descriptor as it was. -/
theorem updateConfLevelArray_full (d : SoundModelInfo) (blk report : List Nat)
    (hblk : d.cf_levels_ = some blk) (hstore : d.cf_levels_size_ ≤ blk.length)
    (hlen : report.length = d.cf_levels_size_) :
    ∃ d1, UpdateConfLevelArray d (some report) report.length = some (0, d1) ∧
      d1.cfLevels = some report ∧
      UpdateConfLevelArray d1 (some report) report.length = some (0, d1) ∧
      (d.cfLevels = some report → d1 = d) := by
  have hle : report.length ≤ blk.length := by omega
  have hnot : ¬ report.length > d.cf_levels_size_ := by omega
  have hrun : ∀ (e : SoundModelInfo) (b : List Nat), e.cf_levels_ = some b →
      e.cf_levels_size_ = d.cf_levels_size_ → report.length ≤ b.length →
      UpdateConfLevelArray e (some report) report.length =
        some (0, { e with cf_levels_ := some (report ++ b.drop report.length) }) := by
    intro e b he hs hb
    have hnot1 : ¬ report.length > e.cf_levels_size_ := by omega
    simp [UpdateConfLevelArray, hnot1, he, memcpySrc_some_zero report report.length (le_refl _),
      writeBytes_zero b report hb]
  refine ⟨{ d with cf_levels_ := some (report ++ blk.drop report.length) },
    hrun d blk hblk rfl hle, ?_, ?_, ?_⟩
  · simp [SoundModelInfo.cfLevels, readBytes, ← hlen]
  · rw [hrun { d with cf_levels_ := some (report ++ blk.drop report.length) }
      (report ++ blk.drop report.length) rfl rfl (by simp)]
    simp
  · intro hsame
    have htake : blk.take report.length = report := by
      simp only [SoundModelInfo.cfLevels, hblk, readBytes] at hsame
      split at hsame
      · simpa [hlen] using hsame
      · cases hsame
    have hback : report ++ blk.drop report.length = blk := by
      have happ := List.take_append_drop report.length blk
      rw [htake] at happ
      exact happ
    rw [hback]
    exact SoundModelInfo.with_cf_levels_self d blk hblk

/-- Witness of C8: the all-maximum table right after `SetConfLevels` is
written back over itself. -/
theorem updateConfLevelArray_full_witness :
    ∃ d1, UpdateConfLevelArray sampleInfo (some [100, 100, 100]) 3 = some (0, d1) ∧
      d1.cfLevels = some [100, 100, 100] ∧ d1 = sampleInfo := by
  obtain ⟨d1, hrun, hread, _, hsame⟩ :=
    updateConfLevelArray_full sampleInfo [100, 100, 100, 0, 0, 0] [100, 100, 100] rfl
      (by decide) rfl
  exact ⟨d1, hrun, hread, hsame (by decide)⟩

/-! ## SetConfLevels: theorems -/

theorem sample_safe : SetConfLevelsSafe sampleModel 1 (some [1, 0]) [[1, 0]] := by
  refine ⟨by decide, ?_, ?_⟩
  · intro i hi
    have hi2 : i < 2 := hi
    interval_cases i
    · exact ⟨_, _, rfl, rfl, by decide⟩
    · exact ⟨_, _, rfl, rfl, by decide⟩
  · intro bounds hb
    cases hb
    refine ⟨?_, ?_, ?_⟩
    · intro i hi
      have hi2 : i < 2 := hi
      interval_cases i
      · exact ⟨_, rfl, by decide⟩
      · exact ⟨_, rfl, by decide⟩
    · intro j hj
      have hj1 : j < 1 := hj
      interval_cases j
      exact ⟨_, _, rfl, rfl, by decide⟩
    · intro j i hj hi
      have hj1 : j < 1 := hj
      have hi2 : i < 2 := hi
      interval_cases j
      interval_cases i
      · exact ⟨_, _, rfl, rfl⟩
      · exact ⟨_, _, rfl, rfl⟩

/-- What a returning call of `SetConfLevels` leaves when `K + U` fits 32 bits
and every allocation succeeds: status 0, `cf_levels_size_ = K + U`, and for
`K + U > 0` a name array of `K + U` slots and a block of `2 * (K + U)` bytes
made of the `cf_levels_` view and the `det_cf_levels_` view. -/
theorem setConfLevels_run_sizes (c : Config) (d : SoundModelInfo) (U : Nat)
    (upk : Option (List Nat)) (flags : List (List Nat)) (heap : List Bool)
    (hsum : d.num_keyphrases_ + U < UINT32_MOD) (halloc : ∀ b ∈ heap, b = true) :
    ∀ status d1 heap1, SetConfLevels c d U upk flags heap = some (status, d1, heap1) →
      status = 0 ∧ d1.cf_levels_size_ = d.num_keyphrases_ + U ∧
      (d.num_keyphrases_ + U = 0 →
        heap1 = heap ∧ d1.cf_levels_kw_users_ = d.cf_levels_kw_users_ ∧
        d1.cf_levels_ = d.cf_levels_ ∧ d1.det_cf_levels_ = d.det_cf_levels_) ∧
      (0 < d.num_keyphrases_ + U →
        ∃ names blk lo hi,
          d1.cf_levels_kw_users_ = some names ∧ names.length = d.num_keyphrases_ + U ∧
          d1.cf_levels_ = some blk ∧ blk.length = 2 * (d.num_keyphrases_ + U) ∧
          d1.det_cf_levels_ = some (d.num_keyphrases_ + U) ∧
          d1.cfLevels = some lo ∧ lo.length = d.num_keyphrases_ + U ∧
          d1.detCfLevels = some hi ∧ hi.length = d.num_keyphrases_ + U ∧
          blk = lo ++ hi) := by
  have hmod : (d.num_keyphrases_ + U) % UINT32_MOD = d.num_keyphrases_ + U :=
    Nat.mod_eq_of_lt hsum
  intro status d1 heap1 hrun
  rcases setConfLevels_inv c d d1 U upk flags heap heap1 status hrun with h | h | h
  · obtain ⟨hz, hst, hd1, hheap⟩ := h
    rw [hmod] at hz
    refine ⟨hst, by rw [hd1, hz], ?_, ?_⟩
    · intro _
      rw [hd1]
      exact ⟨hheap, rfl, rfl, rfl⟩
    · intro hpos
      omega
  · exfalso
    obtain ⟨_, _, hfail⟩ := h
    rw [AllocArrayPtrs_allTrue heap _ _ halloc] at hfail
    rcases hfail with hfail | ⟨names, heap0, ha, hc⟩
    · simp at hfail
    · simp only [Prod.mk.injEq] at ha
      rw [← ha.2, calloc_allTrue _ _ (allTrue_drop _ _ (allTrue_tail heap halloc))] at hc
      simp at hc
  · obtain ⟨hz, hst, names, heap0, blk, blk1, st, ha, hc, hset, hloop, hd1⟩ := h
    rw [hmod] at hz ha hc hset hd1
    have hnames := AllocArrayPtrs_some _ _ _ _ _ ha
    have hblk := (calloc_some _ _ _ _ hc).1
    obtain ⟨hlen1, hfit, _⟩ := memset_getElem blk blk1 _ _ hset
    obtain ⟨hlenst, _, _⟩ := kwLoop_spec c d upk flags _ 0 _ st hloop (by omega)
    have hblklen : blk.length = (2 * (d.num_keyphrases_ + U)) % UINT32_MOD := by
      rw [hblk]
      simp
    have hdouble : (2 * (d.num_keyphrases_ + U)) % UINT32_MOD = 2 * (d.num_keyphrases_ + U) := by
      by_cases hlt : 2 * (d.num_keyphrases_ + U) < UINT32_MOD
      · exact Nat.mod_eq_of_lt hlt
      · exfalso
        have hsub : (2 * (d.num_keyphrases_ + U)) % UINT32_MOD =
            2 * (d.num_keyphrases_ + U) - UINT32_MOD := by
          rw [Nat.mod_eq_sub_mod (by omega)]
          exact Nat.mod_eq_of_lt (by omega)
        omega
    have hlen2 : blk1.length = 2 * (d.num_keyphrases_ + U) := by omega
    refine ⟨hst, by rw [hd1], ?_, ?_⟩
    · intro h0
      omega
    · intro _
      refine ⟨st.names, blk1, blk1.take (d.num_keyphrases_ + U),
        blk1.drop (d.num_keyphrases_ + U), by rw [hd1], ?_, by rw [hd1], hlen2, by rw [hd1],
        ?_, ?_, ?_, ?_, ?_⟩
      · rw [hlenst, hnames]
        simp
      · rw [hd1]
        simp [SoundModelInfo.cfLevels, readBytes]
        omega
      · simp
        omega
      · rw [hd1]
        simp only [SoundModelInfo.detCfLevels, readBytes]
        rw [if_pos (by omega)]
        congr 1
        apply List.take_of_length_le
        simp
        omega
      · simp
        omega
      · simp

/-- Counterexample to C1: with `2 ^ 31` keyphrases and no pair, `K + U` fits
32 bits and every allocation succeeds, but the block size `2 * (K + U)` wraps
to 0: `calloc(1, 0)` gives a block of no bytes, `memset` then stores `2 ^ 31`
bytes through it, and the call has no defined result instead of returning 0
with a block of `2 * (K + U)` bytes.  Nor has it one, with small numbers and
every allocation succeeding, when `num_users_per_kw` admits a pair that `U`
has no slot for: with two keyphrases, `U = 0` and a flagged user the name of
the pair is written at index 2 of a two-slot array. -/
theorem setConfLevels_sizes_counterexample :
    wideModel.num_keyphrases_ + 0 < UINT32_MOD ∧
    (2 * (wideModel.num_keyphrases_ + 0)) % UINT32_MOD = 0 ∧
    SetConfLevels sampleConfig sampleModel 0 (some [1, 1]) [[1, 1]] [] = none ∧
    SetConfLevels sampleConfig wideModel 0 none [] [] = none := by
  refine ⟨by decide, by decide, by decide, ?_⟩
  rcases hrun : SetConfLevels sampleConfig wideModel 0 none [] [] with _ | ⟨status, d1, heap1⟩
  · rfl
  · exfalso
    have hsize : (wideModel.num_keyphrases_ + 0) % UINT32_MOD = 2147483648 := by decide
    rcases setConfLevels_inv sampleConfig wideModel d1 0 none [] [] heap1 status hrun
      with h | h | h
    · rw [hsize] at h
      exact absurd h.1 (by decide)
    · obtain ⟨_, _, hfail⟩ := h
      rw [AllocArrayPtrs_allTrue [] _ _ (by simp)] at hfail
      rcases hfail with hfail | ⟨names, heap0, ha, hc⟩
      · simp at hfail
      · simp only [Prod.mk.injEq] at ha
        rw [← ha.2, calloc_allTrue _ _ (by simp)] at hc
        simp at hc
    · obtain ⟨_, _, names, heap0, blk, blk1, st, _, hc, hset, _, _⟩ := h
      rw [hsize] at hc hset
      have hblk := (calloc_some _ _ _ _ hc).1
      have hfit := (memset_getElem blk blk1 _ _ hset).2.1
      rw [hblk] at hfit
      have hzero : (2 * 2147483648) % UINT32_MOD = 0 := by decide
      rw [hzero] at hfit
      simp at hfit

/-- C1 as amended: let the descriptor hold `K` keyphrases, let the block size
`2 * (K + U)` fit 32 bits, let every allocation succeed and let the arguments
be readable in bounds (`SetConfLevelsSafe`: the `K` keyphrase names are
terminated strings and, when `num_users_per_kw` is given, it has an entry of
at most `U` for every keyphrase, the user names are terminated strings and the
flag matrix has an entry for every user and keyphrase).  Then `SetConfLevels`
returns 0 and leaves `cf_levels_size_ = K + U`; for `K + U > 0`
`cf_levels_kw_users_` has exactly `K + U` slots, `cf_levels_` points to a block
of `2 * (K + U)` bytes whose first `K + U` bytes are the `cf_levels_` view and
whose last `K + U` bytes, from offset `K + U` on, are the `det_cf_levels_`
view; for `K + U = 0` nothing is allocated and the three pointers keep their
values. -/
theorem setConfLevels_sizes (c : Config) (d : SoundModelInfo) (U : Nat)
    (upk : Option (List Nat)) (flags : List (List Nat)) (heap : List Bool)
    (halloc : ∀ b ∈ heap, b = true) (hsafe : SetConfLevelsSafe d U upk flags) :
    ∃ d1 heap1, SetConfLevels c d U upk flags heap = some (0, d1, heap1) ∧
      d1.cf_levels_size_ = d.num_keyphrases_ + U ∧
      (d.num_keyphrases_ + U = 0 →
        heap1 = heap ∧ d1.cf_levels_kw_users_ = d.cf_levels_kw_users_ ∧
        d1.cf_levels_ = d.cf_levels_ ∧ d1.det_cf_levels_ = d.det_cf_levels_) ∧
      (0 < d.num_keyphrases_ + U →
        ∃ names blk lo hi,
          d1.cf_levels_kw_users_ = some names ∧ names.length = d.num_keyphrases_ + U ∧
          d1.cf_levels_ = some blk ∧ blk.length = 2 * (d.num_keyphrases_ + U) ∧
          d1.det_cf_levels_ = some (d.num_keyphrases_ + U) ∧
          d1.cfLevels = some lo ∧ lo.length = d.num_keyphrases_ + U ∧
          d1.detCfLevels = some hi ∧ hi.length = d.num_keyphrases_ + U ∧
          blk = lo ++ hi) := by
  have hfit : 2 * (d.num_keyphrases_ + U) < UINT32_MOD := hsafe.1
  obtain ⟨d1, heap1, hrun⟩ := setConfLevels_total c d U upk flags heap halloc hsafe
  exact ⟨d1, heap1, hrun,
    (setConfLevels_run_sizes c d U upk flags heap (by omega) halloc 0 d1 heap1 hrun).2⟩

/-- Witness of C1: the sample model with one pair; the call returns 0 and the
table has three slots. -/
theorem setConfLevels_sizes_witness :
    SetConfLevelsSafe sampleModel 1 (some [1, 0]) [[1, 0]] ∧
    SetConfLevels sampleConfig sampleModel 1 (some [1, 0]) [[1, 0]] [] =
      some (0, sampleInfo, []) ∧
    sampleInfo.cf_levels_size_ = sampleModel.num_keyphrases_ + 1 ∧
    sampleInfo.cf_levels_kw_users_.map List.length = some 3 ∧
    sampleInfo.cfLevels = some [100, 100, 100] ∧
    sampleInfo.detCfLevels = some [0, 0, 0] := by
  have hrun : SetConfLevels sampleConfig sampleModel 1 (some [1, 0]) [[1, 0]] [] =
      some (0, sampleInfo, []) := by decide
  obtain ⟨d1, heap1, hrun1, hsize, _⟩ :=
    setConfLevels_sizes sampleConfig sampleModel 1 (some [1, 0]) [[1, 0]] [] (by simp)
      sample_safe
  rw [hrun] at hrun1
  simp only [Option.some.injEq, Prod.mk.injEq, true_and] at hrun1
  rw [← hrun1.1] at hsize
  exact ⟨sample_safe, hrun, hsize, by decide, by decide, by decide⟩

/-- C9: on a descriptor with no keyphrases, `SetConfLevels` with zero pairs
returns 0, sets `cf_levels_size_` to 0 and allocates nothing: the allocation
script is untouched and `cf_levels_kw_users_`, `cf_levels_` and
`det_cf_levels_` keep their values, so that pointers that were null (as the
constructor leaves them) stay null. -/
theorem setConfLevels_empty (c : Config) (d : SoundModelInfo)
    (num_users_per_kw : Option (List Nat)) (user_kw_pair_flags : List (List Nat))
    (heap : List Bool) (hK : d.num_keyphrases_ = 0) :
    ∃ d1, SetConfLevels c d 0 num_users_per_kw user_kw_pair_flags heap = some (0, d1, heap) ∧
      d1.cf_levels_size_ = 0 ∧
      d1.cf_levels_kw_users_ = d.cf_levels_kw_users_ ∧
      d1.cf_levels_ = d.cf_levels_ ∧
      d1.det_cf_levels_ = d.det_cf_levels_ ∧
      (d.cf_levels_kw_users_ = none → d.cf_levels_ = none → d.det_cf_levels_ = none →
        d1.cf_levels_kw_users_ = none ∧ d1.cf_levels_ = none ∧ d1.det_cf_levels_ = none) := by
  refine ⟨{ d with cf_levels_size_ := 0 }, ?_, rfl, rfl, rfl, rfl, ?_⟩
  · simp [SetConfLevels, hK]
  · intro h1 h2 h3
    exact ⟨h1, h2, h3⟩

/-- Witness of C9: the freshly constructed descriptor, with one failing
allocation scripted that is never consumed. -/
theorem setConfLevels_empty_witness :
    SoundModelInfo.ctor.num_keyphrases_ = 0 ∧
    SetConfLevels sampleConfig SoundModelInfo.ctor 0 none [] [false] =
      some (0, SoundModelInfo.ctor, [false]) ∧
    SoundModelInfo.ctor.cf_levels_kw_users_ = none ∧
    SoundModelInfo.ctor.cf_levels_ = none ∧
    SoundModelInfo.ctor.det_cf_levels_ = none := by
  obtain ⟨d1, hrun, _, _, _, _, _⟩ :=
    setConfLevels_empty sampleConfig SoundModelInfo.ctor none [] [false] rfl
  have hd1 : d1 = SoundModelInfo.ctor := by
    have hval : SetConfLevels sampleConfig SoundModelInfo.ctor 0 none [] [false] =
        some (0, SoundModelInfo.ctor, [false]) := by decide
    rw [hval] at hrun
    simp at hrun
    exact hrun.symm
  subst hd1
  exact ⟨rfl, hrun, rfl, rfl, rfl⟩

/-- Counterexample to C4: with `2 ^ 32 - 1` keyphrases and one pair the 32-bit
sum is 0, so the call returns 0 at once and there is no `cf_levels_` at all,
although `K + U > 0`. -/
theorem setConfLevels_levels_max_counterexample :
    0 < hugeModel.num_keyphrases_ + 1 ∧
    ∃ d1, SetConfLevels sampleConfig hugeModel 1 none [] [] = some (0, d1, []) ∧
      d1.cf_levels_ = none :=
  ⟨by decide, { hugeModel with cf_levels_size_ := 0 }, rfl, rfl⟩

/-- C4 as amended: when `K + U` fits 32 bits and `MAX_CONF_LEVEL_VALUE` is a
byte value, after a call that returned 0 every byte `cf_levels_[i]` with
`i < K + U` is `MAX_CONF_LEVEL_VALUE`, whatever `num_users_per_kw` and the
flags are. -/
theorem setConfLevels_levels_max (c : Config) (d d1 : SoundModelInfo) (U : Nat)
    (upk : Option (List Nat)) (flags : List (List Nat)) (heap heap1 : List Bool)
    (hsum : d.num_keyphrases_ + U < UINT32_MOD) (hbyte : c.MAX_CONF_LEVEL_VALUE < 256)
    (hok : SetConfLevels c d U upk flags heap = some (0, d1, heap1)) :
    ∀ i, i < d.num_keyphrases_ + U →
      ∃ blk, d1.cf_levels_ = some blk ∧ blk[i]? = some c.MAX_CONF_LEVEL_VALUE := by
  intro i hi
  have hmod : (d.num_keyphrases_ + U) % UINT32_MOD = d.num_keyphrases_ + U :=
    Nat.mod_eq_of_lt hsum
  rcases setConfLevels_inv c d d1 U upk flags heap heap1 0 hok with h | h | h
  · omega
  · have := h.2.1
    simp [ENOMEM] at this
  · obtain ⟨_, _, names, heap0, blk, blk1, st, _, _, hset, _, hd1⟩ := h
    refine ⟨blk1, by rw [hd1], ?_⟩
    have := (memset_getElem blk blk1 _ _ hset).2.2 i (by omega)
    rw [this, Nat.mod_eq_of_lt hbyte]

/-- Witness of C4 as amended: the sample table has three bytes of value 100. -/
theorem setConfLevels_levels_max_witness :
    ∃ blk, sampleInfo.cf_levels_ = some blk ∧
      blk[0]? = some 100 ∧ blk[1]? = some 100 ∧ blk[2]? = some 100 := by
  have hrun : SetConfLevels sampleConfig sampleModel 1 (some [1, 0]) [[1, 0]] [] =
      some (0, sampleInfo, []) := by decide
  have h := setConfLevels_levels_max sampleConfig sampleModel sampleInfo 1 (some [1, 0])
    [[1, 0]] [] [] (by decide) (by decide) hrun
  obtain ⟨blk, hblk, h0⟩ := h 0 (by decide)
  obtain ⟨blk1, hblk1, h1⟩ := h 1 (by decide)
  obtain ⟨blk2, hblk2, h2⟩ := h 2 (by decide)
  rw [hblk] at hblk1 hblk2
  cases hblk1
  cases hblk2
  exact ⟨blk, hblk, h0, h1, h2⟩

/-- Counterexample to C3: with `2 ^ 32 - 1` keyphrases and one pair the call
returns 0 without allocating or filling `cf_levels_kw_users_`, so no slot holds
a keyphrase name. -/
theorem setConfLevels_keyphrase_names_counterexample :
    1 ≤ hugeModel.num_keyphrases_ ∧
    ∃ d1, SetConfLevels sampleConfig hugeModel 1 none [] [] = some (0, d1, []) ∧
      d1.cf_levels_kw_users_ = none :=
  ⟨by decide, { hugeModel with cf_levels_size_ := 0 }, rfl, rfl⟩

/-- C3 as amended: when `K + U` fits 32 bits, after a call that returned 0 the
slot `cf_levels_kw_users_[i]` of every `i < K` holds the string of
`keyphrases_[i]` cut to `MAX_KW_USERS_NAME_LEN - 1` characters, whether
`num_users_per_kw` is null or not. -/
theorem setConfLevels_keyphrase_names (c : Config) (d d1 : SoundModelInfo) (U : Nat)
    (upk : Option (List Nat)) (flags : List (List Nat)) (heap heap1 : List Bool)
    (hsum : d.num_keyphrases_ + U < UINT32_MOD) (hM : 0 < c.MAX_KW_USERS_NAME_LEN)
    (hok : SetConfLevels c d U upk flags heap = some (0, d1, heap1)) :
    ∀ i, i < d.num_keyphrases_ →
      ∃ kws names kw slot s, d.keyphrases_ = some kws ∧ d1.cf_levels_kw_users_ = some names ∧
        kws[i]? = some kw ∧ names[i]? = some slot ∧ cstr kw = some s ∧
        cstr slot = some (s.take (c.MAX_KW_USERS_NAME_LEN - 1)) := by
  intro i hi
  have hmod : (d.num_keyphrases_ + U) % UINT32_MOD = d.num_keyphrases_ + U :=
    Nat.mod_eq_of_lt hsum
  rcases setConfLevels_inv c d d1 U upk flags heap heap1 0 hok with h | h | h
  · omega
  · have := h.2.1
    simp [ENOMEM] at this
  · obtain ⟨_, _, names, heap0, blk, blk1, st, _, _, _, hloop, hd1⟩ := h
    obtain ⟨_, _, hpost⟩ := kwLoop_spec c d upk flags _ 0 _ st hloop (by omega)
    obtain ⟨kws, kw, slot, s, hkws, hkw, hslot, hs, hcs⟩ := hpost hM i (by omega) (by omega)
    exact ⟨kws, st.names, kw, slot, s, hkws, by rw [hd1], hkw, hslot, hs, hcs⟩

/-- Witness of C3 as amended: slot 1 of the sample table holds "world". -/
theorem setConfLevels_keyphrase_names_witness :
    ∃ names slot, sampleInfo.cf_levels_kw_users_ = some names ∧ names[1]? = some slot ∧
      cstr slot = some [119, 111, 114, 108, 100] := by
  have hrun : SetConfLevels sampleConfig sampleModel 1 (some [1, 0]) [[1, 0]] [] =
      some (0, sampleInfo, []) := by decide
  obtain ⟨kws, names, kw, slot, s, hkws, hnames, hkw, hslot, hs, hcs⟩ :=
    setConfLevels_keyphrase_names sampleConfig sampleModel sampleInfo 1 (some [1, 0])
      [[1, 0]] [] [] (by decide) (by decide) hrun 1 (by decide)
  refine ⟨names, slot, hnames, hslot, ?_⟩
  have hk : kws = [[104, 101, 108, 108, 111, 0, 0, 0], [119, 111, 114, 108, 100, 0, 0, 0]] := by
    have : sampleModel.keyphrases_ =
        some [[104, 101, 108, 108, 111, 0, 0, 0], [119, 111, 114, 108, 100, 0, 0, 0]] := rfl
    rw [hkws] at this
    exact Option.some.inj this
  subst hk
  have hkw1 : kw = [119, 111, 114, 108, 100, 0, 0, 0] := by
    simp at hkw
    exact hkw.symm
  subst hkw1
  have hs1 : s = [119, 111, 114, 108, 100] := by
    have : cstr [119, 111, 114, 108, 100, 0, 0, 0] = some [119, 111, 114, 108, 100] := by decide
    rw [hs] at this
    exact Option.some.inj this
  subst hs1
  rw [hcs]
  decide

/-- C2, the code at a failing input: "alice" is enrolled on both "hello" and
"world", `num_users_per_kw = [1, 1]` and `num_user_kw_pairs = 2`.  The call
returns 0; slot 2 holds "alicehello", but slot 3 is left as `calloc` made it
(the empty string) instead of holding "aliceworld": `k` is 1 when keyphrase 1
is scanned and is compared with `num_users_per_kw[1] = 1`. -/
theorem setConfLevels_pairs_failing :
    ∃ d1 names, SetConfLevels sampleConfig sampleModel 2 (some [1, 1]) [[1, 1]] [] =
        some (0, d1, []) ∧
      d1.cf_levels_kw_users_ = some names ∧
      names[2]? = some [97, 108, 105, 99, 101, 104, 101, 108, 108, 111, 0, 0, 0, 0, 0, 0] ∧
      names[3]? = some [0, 0, 0, 0, 0, 0, 0, 0, 0, 0, 0, 0, 0, 0, 0, 0] := by
  refine ⟨{ sampleInfo with
      cf_levels_kw_users_ := some
        [[104, 101, 108, 108, 111, 0, 0, 0, 0, 0, 0, 0, 0, 0, 0, 0],
         [119, 111, 114, 108, 100, 0, 0, 0, 0, 0, 0, 0, 0, 0, 0, 0],
         [97, 108, 105, 99, 101, 104, 101, 108, 108, 111, 0, 0, 0, 0, 0, 0],
         [0, 0, 0, 0, 0, 0, 0, 0, 0, 0, 0, 0, 0, 0, 0, 0]],
      cf_levels_ := some [100, 100, 100, 100, 0, 0, 0, 0],
      det_cf_levels_ := some 4,
      cf_levels_size_ := 4 }, _, ?_, rfl, rfl, rfl⟩
  decide

/-! ## Assignment: theorems -/

/-- C10, the code at a failing input: the target holds one keyphrase and the
fully populated source holds two.  `operator =` stores the source count in
`num_keyphrases_` before it frees the old array, so `FreeArrayPtrs` reads
`keyphrases_[1]` of a one-slot array and the assignment has no defined
result.  The same source assigned to a freshly constructed target gives a
descriptor equal to the source. -/
theorem operator_assign_failing :
    FreeArrayPtrs singleModel.keyphrases_ sampleInfo.num_keyphrases_ = none ∧
    operator_assign sampleConfig false singleModel sampleInfo [] = none ∧
    operator_assign sampleConfig false SoundModelInfo.ctor sampleInfo [] =
      some (sampleInfo, []) := by
  decide

/-! ## SetKeyPhrases and SetUsers: theorems -/

theorem getInstance_some (sml_ : Option SoundModelLib) (made : SoundModelLib) :
    ∃ lib, GetInstance sml_ made = some lib := by
  cases sml_ with
  | none => exact ⟨made, rfl⟩
  | some lib => exact ⟨lib, rfl⟩

/-- The four ways `SetKeyPhrases` returns for a positive count once the
library pointer and its entry point are there. -/
theorem setKeyPhrases_cases (c : Config) (lib : SoundModelLib) (call : EngineCall)
    (d : SoundModelInfo) (model : List Nat) (n : Nat) (heap : List Bool)
    (hcall : lib.GetKeywordPhrases_ = some call) (hn : 0 < n) :
    ((AllocArrayPtrs heap n c.MAX_STRING_LEN).1 = none ∧
      SetKeyPhrases c (some lib) d model n heap =
        some (-ENOMEM, { d with num_keyphrases_ := n, keyphrases_ := none },
          (AllocArrayPtrs heap n c.MAX_STRING_LEN).2)) ∨
    (∃ slots, (AllocArrayPtrs heap n c.MAX_STRING_LEN).1 = some slots ∧
      SetKeyPhrases c (some lib) d model n heap =
        some (if (call model (n % UINT16_MOD) slots).1 = 0 ∧
                (call model (n % UINT16_MOD) slots).2.1 % UINT16_MOD = n then 0 else -EINVAL,
          { d with num_keyphrases_ := n,
                   keyphrases_ := some (call model (n % UINT16_MOD) slots).2.2 },
          (AllocArrayPtrs heap n c.MAX_STRING_LEN).2)) := by
  have hn0 : n ≠ 0 := by omega
  rcases ha : AllocArrayPtrs heap n c.MAX_STRING_LEN with ⟨_ | slots, heap1⟩
  · left
    simp [SetKeyPhrases, hn0, ha]
  · right
    refine ⟨slots, rfl, ?_⟩
    simp only [SetKeyPhrases, hn0, if_false, ha, hcall]
    by_cases h1 : (call model (n % UINT16_MOD) slots).1 = 0
    · by_cases h2 : (call model (n % UINT16_MOD) slots).2.1 % UINT16_MOD = n
      · simp [h1, h2]
      · simp [h1, h2]
    · simp [h1]

/-- C11: with the library pointer and its `GetKeywordPhrases_` entry point
there, `SetKeyPhrases(model, n)` for `n > 0` returns `-ENOMEM` when
`AllocArrayPtrs` leaves `keyphrases_` null, `-EINVAL` when the engine returns a
non-zero status, `-EINVAL` when the engine returns 0 but the count it stored
differs from `n`, and 0 exactly when the allocation succeeds, the engine
returns 0 and the stored count is `n`.  For `n = 0` it returns 0 and only sets
`num_keyphrases_`, whatever the library is, even with the entry point unbound:
the engine is not called. -/
theorem setKeyPhrases_status (c : Config) (lib : SoundModelLib) (call : EngineCall)
    (d : SoundModelInfo) (model : List Nat) (n : Nat) (heap : List Bool)
    (hcall : lib.GetKeywordPhrases_ = some call) :
    (∀ lib0 : SoundModelLib, SetKeyPhrases c (some lib0) d model 0 heap =
      some (0, { d with num_keyphrases_ := 0 }, heap)) ∧
    (0 < n →
      ∃ status d1 heap1, SetKeyPhrases c (some lib) d model n heap = some (status, d1, heap1) ∧
        ((AllocArrayPtrs heap n c.MAX_STRING_LEN).1 = none → status = -ENOMEM) ∧
        (∀ slots, (AllocArrayPtrs heap n c.MAX_STRING_LEN).1 = some slots →
          ((call model (n % UINT16_MOD) slots).1 ≠ 0 → status = -EINVAL) ∧
          ((call model (n % UINT16_MOD) slots).1 = 0 →
            (call model (n % UINT16_MOD) slots).2.1 % UINT16_MOD ≠ n → status = -EINVAL) ∧
          ((call model (n % UINT16_MOD) slots).1 = 0 →
            (call model (n % UINT16_MOD) slots).2.1 % UINT16_MOD = n → status = 0)) ∧
        (status = 0 ↔
          ∃ slots, (AllocArrayPtrs heap n c.MAX_STRING_LEN).1 = some slots ∧
            (call model (n % UINT16_MOD) slots).1 = 0 ∧
            (call model (n % UINT16_MOD) slots).2.1 % UINT16_MOD = n)) := by
  refine ⟨fun lib0 => by simp [SetKeyPhrases], ?_⟩
  intro hn
  rcases setKeyPhrases_cases c lib call d model n heap hcall hn with ⟨hnone, hrun⟩ | ⟨slots, hsome, hrun⟩
  · refine ⟨_, _, _, hrun, fun _ => rfl, ?_, ?_⟩
    · intro slots hs
      rw [hnone] at hs
      cases hs
    · constructor
      · intro h
        simp [ENOMEM] at h
      · rintro ⟨slots, hs, _⟩
        rw [hnone] at hs
        cases hs
  · refine ⟨_, _, _, hrun, ?_, ?_, ?_⟩
    · intro h
      rw [hsome] at h
      cases h
    · intro slots1 hs
      rw [hsome] at hs
      cases hs
      refine ⟨?_, ?_, ?_⟩
      · intro h1
        simp [h1]
      · intro _ h2
        simp [h2]
      · intro h1 h2
        simp [h1, h2]
    · constructor
      · intro h
        by_cases hok : (call model (n % UINT16_MOD) slots).1 = 0 ∧
            (call model (n % UINT16_MOD) slots).2.1 % UINT16_MOD = n
        · exact ⟨slots, hsome, hok.1, hok.2⟩
        · rw [if_neg hok] at h
          simp [EINVAL] at h
      · rintro ⟨slots1, hs, h1, h2⟩
        rw [hsome] at hs
        cases hs
        simp [h1, h2]

/-- Witness of C11: three keyphrases requested, the engine reports two. -/
theorem setKeyPhrases_status_witness :
    (sampleLib 0 2).GetKeywordPhrases_ = some (sampleCall 0 2) ∧
    ∃ d1 heap1, SetKeyPhrases sampleConfig (some (sampleLib 0 2)) SoundModelInfo.ctor [] 3 [] =
      some (-EINVAL, d1, heap1) := by
  refine ⟨rfl, ?_⟩
  obtain ⟨status, d1, heap1, hrun, _, hsl, _⟩ :=
    (setKeyPhrases_status sampleConfig (sampleLib 0 2) (sampleCall 0 2) SoundModelInfo.ctor
      [] 3 [] rfl).2 (by decide)
  have hst := (hsl (List.replicate 3 (List.replicate 8 0)) (by decide)).2.1 (by decide)
    (by decide)
  rw [hst] at hrun
  exact ⟨d1, heap1, hrun⟩

/-- C20: when `n ≥ 65536`, the allocation succeeds and the entry point is
bound, `SetKeyPhrases(model, n)` calls the engine with capacity `n mod 65536`
and returns `-EINVAL` whatever the engine answers, leaving `num_keyphrases_`
set to `n` and `keyphrases_` as the engine left the slots. -/
theorem setKeyPhrases_wide_count (c : Config) (lib : SoundModelLib) (call : EngineCall)
    (d : SoundModelInfo) (model : List Nat) (n : Nat) (heap heap1 : List Bool)
    (slots : List (List Nat))
    (hcall : lib.GetKeywordPhrases_ = some call) (hn : UINT16_MOD ≤ n)
    (halloc : AllocArrayPtrs heap n c.MAX_STRING_LEN = (some slots, heap1)) :
    SetKeyPhrases c (some lib) d model n heap =
      some (-EINVAL,
        { d with num_keyphrases_ := n,
                 keyphrases_ := some (call model (n % UINT16_MOD) slots).2.2 }, heap1) := by
  have hpos : 0 < n := by
    have : 0 < UINT16_MOD := by decide
    omega
  have hne : (call model (n % UINT16_MOD) slots).2.1 % UINT16_MOD ≠ n := by
    have : (call model (n % UINT16_MOD) slots).2.1 % UINT16_MOD < UINT16_MOD :=
      Nat.mod_lt _ (by decide)
    omega
  rcases setKeyPhrases_cases c lib call d model n heap hcall hpos with ⟨hnone, _⟩ | ⟨slots1, hsome, hrun⟩
  · rw [halloc] at hnone
    cases hnone
  · rw [halloc] at hsome hrun
    cases hsome
    rw [hrun, if_neg (fun h => hne h.2)]

/-- Witness of C20: 65536 keyphrases requested from an engine that returns 0
and reports the capacity it was offered, which is 0. -/
theorem setKeyPhrases_wide_count_witness :
    UINT16_MOD ≤ 65536 ∧
    ∃ d1, SetKeyPhrases sampleConfig
        (some { GetKeywordPhrases_ := some (fun _ cap slots => (0, cap, slots)),
                GetUserNames_ := none })
        SoundModelInfo.ctor [] 65536 [] = some (-EINVAL, d1, []) ∧
      d1.num_keyphrases_ = 65536 := by
  have halloc := AllocArrayPtrs_allTrue [] 65536 sampleConfig.MAX_STRING_LEN (by simp)
  have h := setKeyPhrases_wide_count sampleConfig
    { GetKeywordPhrases_ := some (fun _ cap slots => (0, cap, slots)), GetUserNames_ := none }
    (fun _ cap slots => (0, cap, slots)) SoundModelInfo.ctor [] 65536 [] _ _ rfl (by decide)
    halloc
  exact ⟨by decide,
    { SoundModelInfo.ctor with
        num_keyphrases_ := 65536,
        keyphrases_ := some (List.replicate 65536 (List.replicate sampleConfig.MAX_STRING_LEN 0)) },
    h, rfl⟩

/-- `SetKeyPhrases` changes no field other than `num_keyphrases_` and
`keyphrases_`. -/
theorem setKeyPhrases_frame (c : Config) (sml : Option SoundModelLib) (d d1 : SoundModelInfo)
    (model : List Nat) (n : Nat) (heap heap1 : List Bool) (status : Int)
    (h : SetKeyPhrases c sml d model n heap = some (status, d1, heap1)) :
    d1 = { d with num_keyphrases_ := d1.num_keyphrases_, keyphrases_ := d1.keyphrases_ } := by
  unfold SetKeyPhrases at h
  cases sml with
  | none =>
    simp at h
    rw [← h.2.1]
  | some lib =>
    simp only at h
    split at h
    · simp at h
      rw [← h.2.1]
    · split at h
      · simp at h
        rw [← h.2.1]
      · split at h
        · cases h
        · split at h
          · simp at h
            rw [← h.2.1]
          · split at h <;>
            · simp at h
              rw [← h.2.1]

/-- `SetUsers` changes no field other than `num_users_` and `users_`. -/
theorem setUsers_frame (c : Config) (sml : Option SoundModelLib) (d d1 : SoundModelInfo)
    (model : List Nat) (n : Nat) (heap heap1 : List Bool) (status : Int)
    (h : SetUsers c sml d model n heap = some (status, d1, heap1)) :
    d1 = { d with num_users_ := d1.num_users_, users_ := d1.users_ } := by
  unfold SetUsers at h
  cases sml with
  | none =>
    simp at h
    rw [← h.2.1]
  | some lib =>
    simp only at h
    split at h
    · simp at h
      rw [← h.2.1]
    · split at h
      · simp at h
        rw [← h.2.1]
      · split at h
        · cases h
        · split at h
          · simp at h
            rw [← h.2.1]
          · split at h <;>
            · simp at h
              rw [← h.2.1]

/-- C12: `SetUsers` is `SetKeyPhrases` with the roles exchanged: run on the
same arguments it gives what `SetKeyPhrases` gives on the descriptor with
`(num_users_, users_)` in the place of `(num_keyphrases_, keyphrases_)` and
the library with `GetUserNames_` in the place of `GetKeywordPhrases_`, the
same status and allocation script and the descriptor exchanged back.
`SetKeyPhrases` changes no field other than `num_keyphrases_` and
`keyphrases_`, and `SetUsers` none other than `num_users_` and `users_`. -/
theorem setUsers_mirror (c : Config) (sml : Option SoundModelLib) (d : SoundModelInfo)
    (model : List Nat) (n : Nat) (heap : List Bool) :
    SetUsers c sml d model n heap =
      (SetKeyPhrases c (sml.map swapCalls) (swapNames d) model n heap).map
        (fun r => (r.1, swapNames r.2.1, r.2.2)) ∧
    (∀ status d1 heap1, SetKeyPhrases c sml d model n heap = some (status, d1, heap1) →
      d1 = { d with num_keyphrases_ := d1.num_keyphrases_, keyphrases_ := d1.keyphrases_ }) ∧
    (∀ status d1 heap1, SetUsers c sml d model n heap = some (status, d1, heap1) →
      d1 = { d with num_users_ := d1.num_users_, users_ := d1.users_ }) := by
  refine ⟨?_, fun status d1 heap1 h => setKeyPhrases_frame c sml d d1 model n heap heap1 status h,
    fun status d1 heap1 h => setUsers_frame c sml d d1 model n heap heap1 status h⟩
  cases sml with
  | none =>
    cases d
    simp [SetUsers, SetKeyPhrases, swapNames]
  | some lib =>
    cases d
    simp only [SetUsers, SetKeyPhrases, swapNames, swapCalls, Option.map_some']
    by_cases hn : n = 0
    · simp [hn]
    · simp only [hn, if_false]
      rcases AllocArrayPtrs heap n c.MAX_STRING_LEN with ⟨_ | slots, heap1⟩
      · simp
      · simp only
        cases lib.GetUserNames_ with
        | none => simp
        | some call =>
          simp only
          split <;> [skip; split] <;> simp

/-! ## SetConfLevels: the pair slots -/

/-- C13: after a call of `SetConfLevels` that returned 0, either the size was
0 and `cf_levels_kw_users_` was not touched, or the name array has
`cf_levels_size_` slots of `MAX_KW_USERS_NAME_LEN` bytes each (nothing was
written past a slot) and its tail is told by the pairs the loops emitted: for
the `n`-th emitted pair, of keyphrase `i` and user `j`, the flag of the pair is
set and the slot `num_keyphrases_ + n` holds a string of at most
`MAX_KW_USERS_NAME_LEN - 1` characters that is the first
`MAX_KW_USERS_NAME_LEN - 1` characters of `u ++ p`, for the strings `u` of
`users_[j]` and `p` of `keyphrases_[i]`, hence `u ++ p` itself whenever that
fits; every slot behind the emitted pairs is still the zero-filled buffer
`calloc` returned.  Names of any length are cut, not refused: the call returns
0 whenever the allocations succeed and its arguments are readable in bounds
(`SetConfLevelsSafe`). -/
theorem setConfLevels_pair_names (c : Config) (d : SoundModelInfo) (U : Nat)
    (upk : Option (List Nat)) (flags : List (List Nat)) (heap : List Bool)
    (hM : 0 < c.MAX_KW_USERS_NAME_LEN) :
    (∀ d1 heap1, SetConfLevels c d U upk flags heap = some (0, d1, heap1) →
      ((d.num_keyphrases_ + U) % UINT32_MOD = 0 ∧
        d1.cf_levels_kw_users_ = d.cf_levels_kw_users_) ∨
      ∃ names, d1.cf_levels_kw_users_ = some names ∧
        names.length = (d.num_keyphrases_ + U) % UINT32_MOD ∧
        (∀ slot ∈ names, slot.length = c.MAX_KW_USERS_NAME_LEN) ∧
        (∀ n i j, (emittedPairs d upk flags)[n]? = some (i, j) →
          i < d.num_keyphrases_ ∧ Flagged flags i j ∧
          ∃ (users kws : List (List Nat)) (user kw u p slot : List Nat),
            d.users_ = some users ∧ users[j]? = some user ∧ cstr user = some u ∧
            d.keyphrases_ = some kws ∧ kws[i]? = some kw ∧ cstr kw = some p ∧
            names[d.num_keyphrases_ + n]? = some slot ∧
            slot.length = c.MAX_KW_USERS_NAME_LEN ∧
            cstr slot = some ((u ++ p).take (c.MAX_KW_USERS_NAME_LEN - 1)) ∧
            ((u ++ p).take (c.MAX_KW_USERS_NAME_LEN - 1)).length ≤
              c.MAX_KW_USERS_NAME_LEN - 1 ∧
            ((u ++ p).length ≤ c.MAX_KW_USERS_NAME_LEN - 1 → cstr slot = some (u ++ p))) ∧
        ∀ m, d.num_keyphrases_ + (emittedPairs d upk flags).length ≤ m → m < names.length →
          names[m]? = some (List.replicate c.MAX_KW_USERS_NAME_LEN 0)) ∧
    ((∀ b ∈ heap, b = true) → SetConfLevelsSafe d U upk flags →
      ∃ d1 heap1, SetConfLevels c d U upk flags heap = some (0, d1, heap1)) := by
  refine ⟨?_, fun halloc hsafe => setConfLevels_total c d U upk flags heap halloc hsafe⟩
  intro d1 heap1 hok
  rcases setConfLevels_inv c d d1 U upk flags heap heap1 0 hok with h | h | h
  · left
    obtain ⟨hz, _, hd1, _⟩ := h
    exact ⟨hz, by rw [hd1]⟩
  · have := h.2.1
    simp [ENOMEM] at this
  · right
    obtain ⟨_, _, names, heap0, blk, blk1, st, ha, _, _, hloop, hd1⟩ := h
    have hnames := AllocArrayPtrs_some _ _ _ _ _ ha
    have hlen0 : ∀ slot ∈ names, slot.length = c.MAX_KW_USERS_NAME_LEN := by
      intro slot hmem
      rw [hnames] at hmem
      rw [List.eq_of_mem_replicate hmem]
      simp
    obtain ⟨hlenst, hlen⟩ := kwLoop_shape c d upk flags names st hloop hlen0
    obtain ⟨hu, _, hkeep, hpairs⟩ :=
      kwLoop_pairs c d upk flags hM d.num_keyphrases_ 0 _ st hloop (by omega)
    simp only [Nat.zero_add, Nat.add_zero] at hu hkeep hpairs
    have hsize : st.names.length = (d.num_keyphrases_ + U) % UINT32_MOD := by
      rw [hlenst, hnames]
      simp
    refine ⟨st.names, by rw [hd1], hsize, hlen, ?_, ?_⟩
    · intro n i j hq
      obtain ⟨_, hi, hflag, slot, hslot, users, kws, user, kw, u, p, hus, huj, hks, hki, hcu,
        hcp, hcs⟩ := hpairs n (i, j) hq
      refine ⟨by simpa using hi, hflag, users, kws, user, kw, u, p, slot, hus, huj, hcu, hks,
        hki, hcp, hslot, hlen slot (List.getElem?_mem hslot), hcs, ?_, ?_⟩
      · rw [List.length_take]
        omega
      · intro hfits
        rw [hcs, List.take_of_length_le hfits]
    · intro m hm hlt
      have hge : d.num_keyphrases_ ≤ m := by omega
      rw [hkeep m hge (Or.inr (by rw [hu]; exact hm)), hnames]
      rw [hsize] at hlt
      simp [List.getElem?_replicate, hlt]

/-- Witness of C13: with users "alice" and "bob", both flagged on "hello", the
emitted pairs are (hello, alice) and (hello, bob), and the slots 2 and 3 hold
"alicehello" and "bobhello"; with slots of 8 bytes they hold "alicehe" and
"bobhell". -/
theorem setConfLevels_pair_names_witness :
    emittedPairs pairModel (some [2, 1]) [[1, 1], [1, 0]] = [(0, 0), (0, 1)] ∧
    (SetConfLevels { sampleConfig with MAX_KW_USERS_NAME_LEN := 8 } pairModel 3 (some [2, 1])
        [[1, 1], [1, 0]] []).map
      (fun r => r.2.1.cf_levels_kw_users_.map (fun names => names.drop 2)) = some (some
      [[97, 108, 105, 99, 101, 104, 101, 0],
       [98, 111, 98, 104, 101, 108, 108, 0],
       [0, 0, 0, 0, 0, 0, 0, 0]]) ∧
    pairInfo.cf_levels_kw_users_.map (fun names => names.drop 2) = some
      [[97, 108, 105, 99, 101, 104, 101, 108, 108, 111, 0, 0, 0, 0, 0, 0],
       [98, 111, 98, 104, 101, 108, 108, 111, 0, 0, 0, 0, 0, 0, 0, 0],
       [0, 0, 0, 0, 0, 0, 0, 0, 0, 0, 0, 0, 0, 0, 0, 0]] ∧
    ∃ names, pairInfo.cf_levels_kw_users_ = some names ∧
      ∀ n i j, (emittedPairs pairModel (some [2, 1]) [[1, 1], [1, 0]])[n]? = some (i, j) →
        ∃ (users kws : List (List Nat)) (user kw u p slot : List Nat),
          pairModel.users_ = some users ∧ users[j]? = some user ∧ cstr user = some u ∧
          pairModel.keyphrases_ = some kws ∧ kws[i]? = some kw ∧ cstr kw = some p ∧
          names[pairModel.num_keyphrases_ + n]? = some slot ∧
          cstr slot = some (u ++ p) := by
  have hrun : SetConfLevels sampleConfig pairModel 3 (some [2, 1]) [[1, 1], [1, 0]] [] =
      some (0, pairInfo, []) := by decide
  refine ⟨by decide, by decide, by decide, ?_⟩
  rcases (setConfLevels_pair_names sampleConfig pairModel 3 (some [2, 1])
    [[1, 1], [1, 0]] [] (by decide)).1 pairInfo [] hrun with h | ⟨names, hnames, _, _, hpair, _⟩
  · exact absurd h.1 (by decide)
  · refine ⟨names, hnames, ?_⟩
    intro n i j hq
    obtain ⟨_, _, users, kws, user, kw, u, p, slot, hus, huj, hcu, hks, hki, hcp, hslot, _, hcs,
      _, hfits⟩ := hpair n i j hq
    refine ⟨users, kws, user, kw, u, p, slot, hus, huj, hcu, hks, hki, hcp, hslot, hfits ?_⟩
    have hulen : u.length ≤ 8 := by
      have hmem := List.getElem?_mem huj
      have husers : users = [[97, 108, 105, 99, 101, 0, 0, 0], [98, 111, 98, 0, 0, 0, 0, 0]] :=
        (Option.some.inj hus).symm
      rw [husers] at hmem
      simp at hmem
      rcases hmem with e | e <;> rw [e] at hcu <;> cases hcu <;> decide
    have hplen : p.length ≤ 5 := by
      have hmem := List.getElem?_mem hki
      have hkws : kws = [[104, 101, 108, 108, 111, 0, 0, 0], [119, 111, 114, 108, 100, 0, 0, 0]] :=
        (Option.some.inj hks).symm
      rw [hkws] at hmem
      simp at hmem
      rcases hmem with e | e <;> rw [e] at hcp <;> cases hcp <;> decide
    have : sampleConfig.MAX_KW_USERS_NAME_LEN - 1 = 15 := rfl
    rw [List.length_append, this]
    omega

/-- Counterexample to C17: with `2 ^ 32 - 1` keyphrases, two pairs and a null
`num_users_per_kw` (so that `U` is at least the sum of the bounds) the 32-bit
size is 1; the name of keyphrase 1 is written at index 1, outside the one-slot
array, and the call has no defined result. -/
theorem setConfLevels_indices_counterexample :
    (hugeModel.num_keyphrases_ + 2) % UINT32_MOD = 1 ∧
    1 < hugeModel.num_keyphrases_ ∧
    SetConfLevels sampleConfig hugeModel 2 none [] [] = none := by
  refine ⟨by decide, by decide, ?_⟩
  rcases hrun : SetConfLevels sampleConfig hugeModel 2 none [] [] with _ | ⟨status, d1, heap1⟩
  · rfl
  · exfalso
    have hsize : (hugeModel.num_keyphrases_ + 2) % UINT32_MOD = 1 := by decide
    rcases setConfLevels_inv sampleConfig hugeModel d1 2 none [] [] heap1 status hrun
      with h | h | h
    · rw [hsize] at h
      exact absurd h.1 (by decide)
    · obtain ⟨_, _, hfail⟩ := h
      rw [AllocArrayPtrs_allTrue [] _ _ (by simp)] at hfail
      rcases hfail with hfail | ⟨names, heap0, ha, hc⟩
      · simp at hfail
      · simp only [Prod.mk.injEq] at ha
        rw [← ha.2, calloc_allTrue _ _ (by simp)] at hc
        simp at hc
    · obtain ⟨_, _, names, heap0, blk, blk1, st, ha, _, _, hloop, _⟩ := h
      rw [hsize] at ha
      have hnames := AllocArrayPtrs_some _ _ _ _ _ ha
      rcases kwLoop_visits sampleConfig hugeModel none [] _ 0 _ st hloop (by omega)
        with h0 | hle
      · exact absurd h0 (by decide)
      · rw [hnames] at hle
        simp at hle
        exact absurd hle (by decide)

/-- The conditions of `SetConfLevelsSafe` follow from readable arguments when
the block size fits 32 bits and `U` is at least the sum of the bounds of the
`K` keyphrases. -/
theorem safe_of_readable (d : SoundModelInfo) (U : Nat) (upk : Option (List Nat))
    (flags : List (List Nat)) (hfit : 2 * (d.num_keyphrases_ + U) < UINT32_MOD)
    (hpre : ∀ bounds, upk = some bounds → (bounds.take d.num_keyphrases_).sum ≤ U)
    (hread : SetConfLevelsReadable d upk flags) : SetConfLevelsSafe d U upk flags := by
  refine ⟨hfit, hread.1, ?_⟩
  intro bounds hb
  obtain ⟨hbs, hus, hfs⟩ := hread.2 bounds hb
  refine ⟨?_, hus, hfs⟩
  intro i hi
  obtain ⟨b, hbi⟩ := hbs i hi
  refine ⟨b, hbi, ?_⟩
  have htake : (bounds.take d.num_keyphrases_)[i]? = some b := by
    rw [List.getElem?_take_of_lt hi]
    exact hbi
  exact le_trans (getElem?_le_sum _ i b htake) (hpre bounds hb)

/-- C17 as amended: let `K + U` fit 32 bits and let `U` be at least the sum of
`num_users_per_kw[i]` over the `K` keyphrases.  After every call that returned
0 with `K + U > 0`, the name array has `cf_levels_size_ = K + U` slots, the
pair counter `ukw_idx` ended at most at `U`, and no slot from index
`K + ukw_idx` on was written: the keyphrase names went to the indices below
`K` and the pair names to the indices `K + n` with `n < ukw_idx ≤ U`.  And no
write left the array: when all allocations succeed, the block size fits
32 bits and the arguments are readable, the call runs to its end, for every
flag matrix. -/
theorem setConfLevels_indices (c : Config) (d : SoundModelInfo) (U : Nat)
    (upk : Option (List Nat)) (flags : List (List Nat)) (heap : List Bool)
    (hsum : d.num_keyphrases_ + U < UINT32_MOD)
    (hpre : ∀ bounds, upk = some bounds → (bounds.take d.num_keyphrases_).sum ≤ U) :
    (∀ d1 heap1, SetConfLevels c d U upk flags heap = some (0, d1, heap1) →
      0 < d.num_keyphrases_ + U →
      ∃ st, kwLoop c d upk flags d.num_keyphrases_ 0
          { names := List.replicate (d.num_keyphrases_ + U)
              (List.replicate c.MAX_KW_USERS_NAME_LEN 0), ukw_idx := 0, k := 0 } = some st ∧
        d1.cf_levels_kw_users_ = some st.names ∧
        d1.cf_levels_size_ = d.num_keyphrases_ + U ∧
        st.names.length = d.num_keyphrases_ + U ∧
        st.ukw_idx ≤ U ∧
        ∀ m, d.num_keyphrases_ + st.ukw_idx ≤ m → m < d.num_keyphrases_ + U →
          st.names[m]? = some (List.replicate c.MAX_KW_USERS_NAME_LEN 0)) ∧
    ((∀ b ∈ heap, b = true) → 2 * (d.num_keyphrases_ + U) < UINT32_MOD →
      SetConfLevelsReadable d upk flags →
      ∃ d1 heap1, SetConfLevels c d U upk flags heap = some (0, d1, heap1)) := by
  have hmod : (d.num_keyphrases_ + U) % UINT32_MOD = d.num_keyphrases_ + U :=
    Nat.mod_eq_of_lt hsum
  constructor
  · intro d1 heap1 hok hpos
    rcases setConfLevels_inv c d d1 U upk flags heap heap1 0 hok with h | h | h
    · omega
    · have := h.2.1
      simp [ENOMEM] at this
    · obtain ⟨_, _, names, heap0, blk, blk1, st, ha, _, _, hloop, hd1⟩ := h
      rw [hmod] at ha hd1
      have hnames := AllocArrayPtrs_some _ _ _ _ _ ha
      subst hnames
      have hB : ∀ bounds, upk = some bounds →
          ∀ i b, i < d.num_keyphrases_ → bounds[i]? = some b → b ≤ U := by
        intro bounds hb i b hi hbi
        have htake : (bounds.take d.num_keyphrases_)[i]? = some b := by
          rw [List.getElem?_take_of_lt hi]
          exact hbi
        exact le_trans (getElem?_le_sum _ i b htake) (hpre bounds hb)
      obtain ⟨_, hle, hun⟩ := kwLoop_counters c d upk flags _ U st hB hloop
      obtain ⟨hlen, _⟩ := kwLoop_shape c d upk flags _ st hloop (by
        intro slot hmem
        rw [List.eq_of_mem_replicate hmem]
        simp)
      refine ⟨st, hloop, by rw [hd1], by rw [hd1], by simpa using hlen, hle, ?_⟩
      intro m hm hlt
      rw [hun m hm]
      simp [List.getElem?_replicate, hlt]
  · intro halloc hfit hread
    exact setConfLevels_total c d U upk flags heap halloc
      (safe_of_readable d U upk flags hfit hpre hread)

theorem readable_of_safe (d : SoundModelInfo) (U : Nat) (upk : Option (List Nat))
    (flags : List (List Nat)) (h : SetConfLevelsSafe d U upk flags) :
    SetConfLevelsReadable d upk flags := by
  refine ⟨h.2.1, ?_⟩
  intro bounds hb
  obtain ⟨hbs, hus, hfs⟩ := h.2.2 bounds hb
  refine ⟨?_, hus, hfs⟩
  intro i hi
  obtain ⟨b, hbi, _⟩ := hbs i hi
  exact ⟨b, hbi⟩

/-- Witness of C17 as amended: the sample model with one pair and bounds
`[1, 0]`. -/
theorem setConfLevels_indices_witness :
    sampleModel.num_keyphrases_ + 1 < UINT32_MOD ∧
    (([1, 0] : List Nat).take sampleModel.num_keyphrases_).sum ≤ 1 ∧
    (∃ d1 heap1, SetConfLevels sampleConfig sampleModel 1 (some [1, 0]) [[1, 0]] [] =
      some (0, d1, heap1)) ∧
    ∃ st, kwLoop sampleConfig sampleModel (some [1, 0]) [[1, 0]] 2 0
        { names := List.replicate 3 (List.replicate 16 0), ukw_idx := 0, k := 0 } = some st ∧
      st.names.length = 3 ∧ st.ukw_idx ≤ 1 := by
  have hrun : SetConfLevels sampleConfig sampleModel 1 (some [1, 0]) [[1, 0]] [] =
      some (0, sampleInfo, []) := by decide
  have h := setConfLevels_indices sampleConfig sampleModel 1 (some [1, 0]) [[1, 0]] []
    (by decide) (by
      intro bounds hb
      cases hb
      decide)
  obtain ⟨st, hloop, _, _, hlen, hle, _⟩ := h.1 sampleInfo [] hrun (by decide)
  exact ⟨by decide, by decide,
    h.2 (by simp) (by decide) (readable_of_safe _ _ _ _ sample_safe), st, hloop, hlen, hle⟩

/-- C18: after a call of `SetConfLevels` that returned 0, either the size was 0
and no slot was written at all, or the loops ran and the pair counter
`ukw_idx`, which counts the pair slots written over all keyphrases together,
ended at most at the largest entry of `num_users_per_kw`, because `k` is
compared with `num_users_per_kw[i]` and never reset; with a null
`num_users_per_kw` it ended at 0.  Every slot from index `K + ukw_idx` on is
still the zero-filled buffer `calloc` returned. -/
theorem setConfLevels_pair_count (c : Config) (d d1 : SoundModelInfo) (U : Nat)
    (upk : Option (List Nat)) (flags : List (List Nat)) (heap heap1 : List Bool)
    (hok : SetConfLevels c d U upk flags heap = some (0, d1, heap1)) :
    ((d.num_keyphrases_ + U) % UINT32_MOD = 0 ∧
      d1.cf_levels_kw_users_ = d.cf_levels_kw_users_) ∨
    ∃ st, kwLoop c d upk flags d.num_keyphrases_ 0
        { names := List.replicate ((d.num_keyphrases_ + U) % UINT32_MOD)
            (List.replicate c.MAX_KW_USERS_NAME_LEN 0), ukw_idx := 0, k := 0 } = some st ∧
      d1.cf_levels_kw_users_ = some st.names ∧
      (upk = none → st.ukw_idx = 0) ∧
      (∀ bounds, upk = some bounds → st.ukw_idx ≤ bounds.foldr max 0) ∧
      ∀ m, d.num_keyphrases_ + st.ukw_idx ≤ m → m < (d.num_keyphrases_ + U) % UINT32_MOD →
        st.names[m]? = some (List.replicate c.MAX_KW_USERS_NAME_LEN 0) := by
  rcases setConfLevels_inv c d d1 U upk flags heap heap1 0 hok with h | h | h
  · left
    obtain ⟨hz, _, hd1, _⟩ := h
    exact ⟨hz, by rw [hd1]⟩
  · have := h.2.1
    simp [ENOMEM] at this
  · right
    obtain ⟨_, _, names, heap0, blk, blk1, st, ha, _, _, hloop, hd1⟩ := h
    have hnames := AllocArrayPtrs_some _ _ _ _ _ ha
    subst hnames
    have hB : ∀ bounds, upk = some bounds →
        ∀ i b, i < d.num_keyphrases_ → bounds[i]? = some b →
          b ≤ (upk.getD []).foldr max 0 := by
      intro bounds hb i b _ hbi
      rw [hb]
      exact getElem?_le_foldr_max bounds i b hbi
    obtain ⟨_, hle, hun⟩ := kwLoop_counters c d upk flags _ _ st hB hloop
    refine ⟨st, hloop, by rw [hd1], ?_, ?_, ?_⟩
    · intro hnone
      rw [hnone] at hle
      simpa using hle
    · intro bounds hb
      rw [hb] at hle
      simpa using hle
    · intro m hm hlt
      rw [hun m hm]
      simp [List.getElem?_replicate, hlt]

/-- Witness of C18: two users, bounds `[2, 1]`, room for three pairs; two pair
slots are written, both for the first keyphrase. -/
theorem setConfLevels_pair_count_witness :
    SetConfLevels sampleConfig pairModel 3 (some [2, 1]) [[1, 1], [1, 0]] [] =
      some (0, pairInfo, []) ∧
    ∃ st, kwLoop sampleConfig pairModel (some [2, 1]) [[1, 1], [1, 0]] 2 0
        { names := List.replicate 5 (List.replicate 16 0), ukw_idx := 0, k := 0 } = some st ∧
      st.ukw_idx ≤ 2 := by
  have hrun : SetConfLevels sampleConfig pairModel 3 (some [2, 1]) [[1, 1], [1, 0]] [] =
      some (0, pairInfo, []) := by decide
  rcases setConfLevels_pair_count sampleConfig pairModel pairInfo 3
    (some [2, 1]) [[1, 1], [1, 0]] [] [] hrun with h | ⟨st, hloop, _, _, hmax, _⟩
  · exact absurd h.1 (by decide)
  · exact ⟨hrun, st, hloop, hmax [2, 1] rfl⟩

/-- C16, the code at a failing input: users "alice" and "bob", "alice" flagged
on both keyphrases and "bob" on "hello", bounds `[2, 1]`, room for three
pairs.  For "world" the claim gives the first `min(1, 1) = 1` flagged user,
"alice"; the code writes "alicehello", "bobhello" and nothing for "world",
because `k` is already 2 when "world" is scanned.  With the bound of "hello"
lowered to 0 and nothing else changed, "aliceworld" is written: the bound of
one keyphrase changes what is emitted for another. -/
theorem setConfLevels_bound_failing :
    SetConfLevels sampleConfig pairModel 3 (some [2, 1]) [[1, 1], [1, 0]] [] =
      some (0, pairInfo, []) ∧
    pairInfo.cf_levels_kw_users_ = some
      [[104, 101, 108, 108, 111, 0, 0, 0, 0, 0, 0, 0, 0, 0, 0, 0],
       [119, 111, 114, 108, 100, 0, 0, 0, 0, 0, 0, 0, 0, 0, 0, 0],
       [97, 108, 105, 99, 101, 104, 101, 108, 108, 111, 0, 0, 0, 0, 0, 0],
       [98, 111, 98, 104, 101, 108, 108, 111, 0, 0, 0, 0, 0, 0, 0, 0],
       [0, 0, 0, 0, 0, 0, 0, 0, 0, 0, 0, 0, 0, 0, 0, 0]] ∧
    (SetConfLevels sampleConfig pairModel 3 (some [0, 1]) [[1, 1], [1, 0]] []).map
        (fun r => r.2.1.cf_levels_kw_users_) = some (some
      [[104, 101, 108, 108, 111, 0, 0, 0, 0, 0, 0, 0, 0, 0, 0, 0],
       [119, 111, 114, 108, 100, 0, 0, 0, 0, 0, 0, 0, 0, 0, 0, 0],
       [97, 108, 105, 99, 101, 119, 111, 114, 108, 100, 0, 0, 0, 0, 0, 0],
       [0, 0, 0, 0, 0, 0, 0, 0, 0, 0, 0, 0, 0, 0, 0, 0],
       [0, 0, 0, 0, 0, 0, 0, 0, 0, 0, 0, 0, 0, 0, 0, 0]]) := by
  decide

/-! ## UpdateConfLevelArray: the frame -/

/-- What a returning call of `UpdateConfLevelArray` did: with `-EINVAL`
nothing; with 0 and no storage nothing; with 0 and storage `blk`, the first
`cfl_size` bytes of the block were replaced. -/
theorem updateConfLevelArray_inv (d d1 : SoundModelInfo) (conf_levels : Option (List Nat))
    (cfl_size : Nat) (status : Int)
    (h : UpdateConfLevelArray d conf_levels cfl_size = some (status, d1)) :
    (status = -EINVAL ∧ d1 = d) ∨
    (status = 0 ∧ cfl_size ≤ d.cf_levels_size_ ∧ d.cf_levels_ = none ∧ d1 = d) ∨
    (status = 0 ∧ cfl_size ≤ d.cf_levels_size_ ∧
      ∃ blk bytes, d.cf_levels_ = some blk ∧ bytes.length = cfl_size ∧
        cfl_size ≤ blk.length ∧
        d1 = { d with cf_levels_ := some (bytes ++ blk.drop cfl_size) }) := by
  unfold UpdateConfLevelArray at h
  split at h
  · simp at h
    exact Or.inl ⟨h.1.symm, h.2.symm⟩
  · rename_i hcond
    have hle : cfl_size ≤ d.cf_levels_size_ := by
      by_contra hgt
      exact hcond (Or.inl (by omega))
    right
    split at h
    · simp at h
      exact Or.inl ⟨h.1.symm, hle, by assumption, h.2.symm⟩
    · rename_i blk hblk
      split at h
      · cases h
      · rename_i bytes hbytes
        have hblen : bytes.length = cfl_size := by
          unfold memcpySrc at hbytes
          split at hbytes
          · rename_i hz
            cases hbytes
            simp [hz]
          · split at hbytes
            · cases hbytes
            · unfold readBytes at hbytes
              split at hbytes
              · rename_i hfit
                cases hbytes
                rw [List.length_take, List.length_drop]
                omega
              · cases hbytes
        split at h
        · cases h
        · rename_i blk1 hw
          unfold writeBytes at hw
          split at hw
          · rename_i hfit
            simp at hw h
            refine Or.inr ⟨h.1.symm, hle, blk, bytes, hblk, hblen, by omega, ?_⟩
            rw [← h.2, ← hw, hblen]
          · cases hw

/-- C19: a returning call of `UpdateConfLevelArray`, with status 0 or
`-EINVAL`, leaves every field other than `cf_levels_` as it was
(`det_cf_levels_`, `cf_levels_size_`, `cf_levels_kw_users_`, `keyphrases_`,
`users_`, the counts and the model data); the block keeps its length and all
its bytes from index `cfl_size` on, so the second half of the block, from
offset `cf_levels_size_` on, is untouched and `det_cf_levels_` placed there
reads the same bytes.  The call returns whenever the report holds `cfl_size`
bytes and the block holds `cf_levels_size_` bytes. -/
theorem updateConfLevelArray_frame (d : SoundModelInfo) (conf_levels : Option (List Nat))
    (cfl_size : Nat) :
    (∀ status d1, UpdateConfLevelArray d conf_levels cfl_size = some (status, d1) →
      (status = 0 ∨ status = -EINVAL) ∧
      d1 = { d with cf_levels_ := d1.cf_levels_ } ∧
      (status = -EINVAL → d1 = d) ∧
      (d.cf_levels_ = none → d1.cf_levels_ = none) ∧
      (∀ blk, d.cf_levels_ = some blk →
        ∃ blk1, d1.cf_levels_ = some blk1 ∧ blk1.length = blk.length ∧
          (∀ i, cfl_size ≤ i → blk1[i]? = blk[i]?) ∧
          (∀ i, d.cf_levels_size_ ≤ i → blk1[i]? = blk[i]?)) ∧
      (∀ off, d.det_cf_levels_ = some off → d.cf_levels_size_ ≤ off →
        d1.detCfLevels = d.detCfLevels)) ∧
    ((∀ buf, conf_levels = some buf → cfl_size ≤ buf.length) →
      (∀ blk, d.cf_levels_ = some blk → d.cf_levels_size_ ≤ blk.length) →
      ∃ status d1, UpdateConfLevelArray d conf_levels cfl_size = some (status, d1)) := by
  constructor
  · intro status d1 h
    rcases updateConfLevelArray_inv d d1 conf_levels cfl_size status h with
      ⟨hst, hd⟩ | ⟨hst, _, hnone, hd⟩ | ⟨hst, hle, blk, bytes, hblk, hblen, hfit, hd⟩
    · subst hd
      refine ⟨Or.inr hst, rfl, fun _ => rfl, fun hn => hn, ?_, fun _ _ _ => rfl⟩
      intro blk hblk
      exact ⟨blk, hblk, rfl, fun _ _ => rfl, fun _ _ => rfl⟩
    · subst hd
      refine ⟨Or.inl hst, rfl, fun _ => rfl, fun hn => hn, ?_, fun _ _ _ => rfl⟩
      intro blk hblk
      exact ⟨blk, hblk, rfl, fun _ _ => rfl, fun _ _ => rfl⟩
    · have hget : ∀ i, cfl_size ≤ i → (bytes ++ blk.drop cfl_size)[i]? = blk[i]? := by
        intro i hi
        rw [List.getElem?_append_right (by omega), List.getElem?_drop, hblen]
        congr 1
        omega
      have hlen : (bytes ++ blk.drop cfl_size).length = blk.length := by
        simp
        omega
      refine ⟨Or.inl hst, by rw [hd], ?_, ?_, ?_, ?_⟩
      · intro hE
        rw [hst] at hE
        simp [EINVAL] at hE
      · intro hn
        rw [hblk] at hn
        cases hn
      · intro blk0 hblk0
        rw [hblk] at hblk0
        cases hblk0
        exact ⟨_, by rw [hd], hlen, hget, fun i hi => hget i (by omega)⟩
      · intro off hoff hge
        rw [hd]
        simp only [SoundModelInfo.detCfLevels, hblk, hoff, readBytes, hlen]
        split
        · congr 2
          apply List.ext_getElem?
          intro k
          rw [List.getElem?_drop, List.getElem?_drop]
          exact hget (off + k) (by omega)
        · rfl
  · intro hbuf hblk
    unfold UpdateConfLevelArray
    split
    · exact ⟨_, _, rfl⟩
    · rename_i hcond
      have hle : cfl_size ≤ d.cf_levels_size_ := by
        by_contra hgt
        exact hcond (Or.inl (by omega))
      cases hcl : conf_levels with
      | none => exact absurd (Or.inr hcl) hcond
      | some buf =>
        cases hcf : d.cf_levels_ with
        | none => exact ⟨_, _, rfl⟩
        | some blk =>
          have h1 := hbuf buf hcl
          have h2 := hblk blk hcf
          simp only [memcpySrc_some_zero buf cfl_size h1]
          rw [writeBytes_zero _ _ (by simp; omega)]
          exact ⟨_, _, rfl⟩

/-! ## The two tables: theorems -/

theorem memcpySrc_length (src : Option (List Nat)) (off n : Nat) (bytes : List Nat)
    (h : memcpySrc src off n = some bytes) : bytes.length = n := by
  unfold memcpySrc at h
  split at h
  · rename_i hz
    cases h
    simp [hz]
  · split at h
    · cases h
    · unfold readBytes at h
      split at h
      · cases h
        rw [List.length_take, List.length_drop]
        omega
      · cases h

theorem writeBytes_fits (buf bytes out : List Nat) (off : Nat)
    (h : writeBytes buf off bytes = some out) : off + bytes.length ≤ buf.length := by
  unfold writeBytes at h
  split at h
  · assumption
  · cases h

theorem copySlots_length (src : Option (List (List Nat))) (len : Nat) :
    ∀ (rem i : Nat) (dst out : List (List Nat)),
      copySlots src len rem i dst = some out → out.length = dst.length := by
  intro rem
  induction rem with
  | zero =>
    intro i dst out h
    simp [copySlots] at h
    rw [h]
  | succ rem ih =>
    intro i dst out h
    cases src with
    | none => simp [copySlots] at h
    | some srcSlots =>
      rw [copySlots] at h
      split at h
      · split at h
        · cases h
        · split at h
          · cases h
          · rw [ih _ _ _ h, List.length_set]
      · cases h

/-- A table is paired as soon as both parts are there with the right sizes. -/
theorem tablesPaired_of_present (d : SoundModelInfo) (names : List (List Nat)) (blk : List Nat)
    (hnames : d.cf_levels_kw_users_ = some names) (hlen : names.length = d.cf_levels_size_)
    (hblk : d.cf_levels_ = some blk) (hfit : d.cf_levels_size_ ≤ blk.length) :
    TablesPaired d := by
  refine Or.inr ⟨names, blk.take d.cf_levels_size_, hnames, hlen, ?_, ?_⟩
  · simp [SoundModelInfo.cfLevels, hblk, readBytes, hfit]
  · rw [List.length_take]
    omega

/-- A paired table whose name array is there has a block of at least
`cf_levels_size_` bytes. -/
theorem tablesPaired_present (d : SoundModelInfo) (h : TablesPaired d) :
    (d.cf_levels_kw_users_ = none ∧ d.cf_levels_ = none) ∨
    ∃ names blk, d.cf_levels_kw_users_ = some names ∧ names.length = d.cf_levels_size_ ∧
      d.cf_levels_ = some blk ∧ d.cf_levels_size_ ≤ blk.length := by
  rcases h with h | ⟨names, lo, hnames, hlen, hlo, _⟩
  · exact Or.inl h
  · right
    unfold SoundModelInfo.cfLevels at hlo
    split at hlo
    · cases hlo
    · rename_i blk hblk
      unfold readBytes at hlo
      split at hlo
      · exact ⟨names, blk, hnames, hlen, hblk, by omega⟩
      · cases hlo

theorem cloneData_heap (smi : SoundModelInfo) (heap heap1 : List Bool) (r : Option (List Nat))
    (h : cloneData smi heap = some (r, heap1)) : heap1 = heap.tail := by
  unfold cloneData calloc at h
  split at h
  · rename_i heq
    simp at h heq
    rw [← h.2, heq.2]
  · rename_i heq
    simp at heq
    split at h
    · cases h
    · split at h
      · cases h
      · simp at h
        rw [← h.2, heq.2]

/-- When its allocation succeeds, the block step of `operator =` leaves a
block of at least `cf_levels_size_` bytes. -/
theorem cloneLevels_fits (smi : SoundModelInfo) (heap heap1 : List Bool)
    (blk : Option (List Nat)) (det : Option Nat) (halloc : ∀ b ∈ heap, b = true)
    (h : cloneLevels smi heap = some (blk, det, heap1)) :
    heap1 = heap.tail ∧ ∃ b, blk = some b ∧ smi.cf_levels_size_ ≤ b.length := by
  unfold cloneLevels at h
  simp only [calloc_allTrue heap _ halloc] at h
  split at h
  · cases h
  · rename_i bytes hbytes
    have hblen := memcpySrc_length _ _ _ _ hbytes
    split at h
    · cases h
    · rename_i blk1 hw1
      have hfit := writeBytes_fits _ _ _ _ hw1
      have hlen1 := writeBytes_length _ _ _ _ hw1
      split at h
      · split at h
        · simp at h
          exact ⟨h.2.2.symm, blk1, h.1.symm, by omega⟩
        · cases h
      · split at h
        · cases h
        · split at h
          · cases h
          · rename_i blk2 hw2
            have hlen2 := writeBytes_length _ _ _ _ hw2
            simp at h
            exact ⟨h.2.2.symm, blk2, h.1.symm, by omega⟩

/-- When its allocations succeed, an array step of `operator =` leaves an
array of `n` slots. -/
theorem cloneArray_length (old src : Option (List (List Nat))) (n len : Nat)
    (heap heap1 : List Bool) (r : Option (List (List Nat))) (halloc : ∀ b ∈ heap, b = true)
    (h : cloneArray old src n len heap = some (r, heap1)) :
    heap1 = heap.tail.drop n ∧ ∃ filled, r = some filled ∧ filled.length = n := by
  unfold cloneArray at h
  split at h
  · cases h
  · simp only [AllocArrayPtrs_allTrue heap _ _ halloc] at h
    split at h
    · cases h
    · rename_i filled hcopy
      have hlen := copySlots_length _ _ _ _ _ _ hcopy
      simp at h
      refine ⟨?_, filled, h.1.symm, by simpa using hlen⟩
      rw [← h.2, List.drop_tail]

/-- A completed assignment in which every allocation succeeds leaves the
target with both tables, of the size it took from the source. -/
theorem operator_assign_tables (c : Config) (t s t1 : SoundModelInfo) (heap heap1 : List Bool)
    (halloc : ∀ b ∈ heap, b = true)
    (h : operator_assign c false t s heap = some (t1, heap1)) :
    ∃ names blk, t1.cf_levels_kw_users_ = some names ∧ names.length = t1.cf_levels_size_ ∧
      t1.cf_levels_ = some blk ∧ t1.cf_levels_size_ ≤ blk.length := by
  unfold operator_assign at h
  simp only [Bool.false_eq_true, if_false] at h
  split at h
  · cases h
  · rename_i data h1 hd
    have e1 := cloneData_heap _ _ _ _ hd
    have a1 : ∀ b ∈ h1, b = true := by
      rw [e1]
      exact allTrue_tail heap halloc
    split at h
    · cases h
    · rename_i blk det h2 hl
      obtain ⟨e2, b, hb, hfit⟩ := cloneLevels_fits _ _ _ _ _ a1 hl
      have a2 : ∀ b ∈ h2, b = true := by
        rw [e2]
        exact allTrue_tail h1 a1
      split at h
      · cases h
      · rename_i kws h3 hk
        obtain ⟨e3, _⟩ := cloneArray_length _ _ _ _ _ _ _ a2 hk
        have a3 : ∀ b ∈ h3, b = true := by
          rw [e3]
          exact allTrue_drop _ _ (allTrue_tail h2 a2)
        split at h
        · cases h
        · rename_i users h4 hu
          obtain ⟨e4, _⟩ := cloneArray_length _ _ _ _ _ _ _ a3 hu
          have a4 : ∀ b ∈ h4, b = true := by
            rw [e4]
            exact allTrue_drop _ _ (allTrue_tail h3 a3)
          split at h
          · cases h
          · rename_i names h5 hn
            obtain ⟨_, filled, hfilled, hflen⟩ := cloneArray_length _ _ _ _ _ _ _ a4 hn
            simp at h
            rw [← h.1]
            exact ⟨filled, b, hfilled, hflen, hb, hfit⟩

/-- Whether the tables are paired depends on the three fields
`cf_levels_kw_users_`, `cf_levels_` and `cf_levels_size_` only. -/
theorem tablesPaired_congr (d d1 : SoundModelInfo)
    (h1 : d1.cf_levels_kw_users_ = d.cf_levels_kw_users_) (h2 : d1.cf_levels_ = d.cf_levels_)
    (h3 : d1.cf_levels_size_ = d.cf_levels_size_) (h : TablesPaired d) : TablesPaired d1 := by
  unfold TablesPaired SoundModelInfo.cfLevels at *
  rw [h1, h2, h3]
  exact h

/-- A call of `SetConfLevels` in which every allocation succeeds, started on
paired tables and computing size zero only when `cf_levels_size_` is zero,
leaves paired tables. -/
theorem setConfLevels_tables (c : Config) (d d1 : SoundModelInfo) (U : Nat)
    (upk : Option (List Nat)) (flags : List (List Nat)) (heap heap1 : List Bool)
    (status : Int) (halloc : ∀ b ∈ heap, b = true)
    (hzero : (d.num_keyphrases_ + U) % UINT32_MOD = 0 → d.cf_levels_size_ = 0)
    (h : SetConfLevels c d U upk flags heap = some (status, d1, heap1))
    (hd : TablesPaired d) : TablesPaired d1 := by
  rcases setConfLevels_inv c d d1 U upk flags heap heap1 status h with
    ⟨hz, _, hd1, _⟩ | ⟨_, _, hfail⟩ |
    ⟨_, _, names, heap0, blk, blk1, st, ha, hc, hset, hloop, hd1⟩
  · refine tablesPaired_congr d d1 (by rw [hd1]) (by rw [hd1]) ?_ hd
    rw [hd1, hzero hz]
  · exfalso
    have ha := AllocArrayPtrs_allTrue heap ((d.num_keyphrases_ + U) % UINT32_MOD)
      c.MAX_KW_USERS_NAME_LEN halloc
    rcases hfail with hnone | ⟨names, heap0, ha0, hnone⟩
    · rw [ha] at hnone
      cases hnone
    · rw [ha] at ha0
      simp only [Prod.mk.injEq] at ha0
      rw [← ha0.2, calloc_allTrue _ _ (allTrue_drop _ _ (allTrue_tail heap halloc))] at hnone
      cases hnone
  · have hnames := AllocArrayPtrs_some _ _ _ _ _ ha
    have hshape := kwLoop_shape c d upk flags names st hloop (by
      intro slot hmem
      rw [hnames] at hmem
      rw [List.eq_of_mem_replicate hmem]
      simp)
    have hmem := memset_getElem _ _ _ _ hset
    refine tablesPaired_of_present d1 st.names blk1 (by rw [hd1]) ?_ (by rw [hd1]) ?_
    · rw [hd1, hshape.1, hnames]
      simp
    · rw [hd1, hmem.1]
      exact hmem.2.1

/-- C14 as stated fails.  Started on a fresh descriptor with one pair, a call
of `SetConfLevels` whose name array is allocated and whose block is not
returns `-ENOMEM` and leaves `cf_levels_kw_users_` with one slot next to a null
`cf_levels_`: the tables of this reachable descriptor are not paired.  Even
with every allocation succeeding, a second call that computes the size zero
leaves the one-slot array and its block next to `cf_levels_size_ = 0`. -/
theorem tables_paired_counterexample :
    SetConfLevels sampleConfig SoundModelInfo.ctor 1 none [] [true, true, false] =
      some (-ENOMEM, halfInfo, []) ∧
    Reachable sampleConfig halfInfo ∧ ¬ TablesPaired halfInfo ∧
    SetConfLevels sampleConfig SoundModelInfo.ctor 1 none [] [] = some (0, onePairInfo, []) ∧
    SetConfLevels sampleConfig onePairInfo 0 none [] [] =
      some (0, { onePairInfo with cf_levels_size_ := 0 }, []) ∧
    ¬ TablesPaired { onePairInfo with cf_levels_size_ := 0 } := by
  have hrun : SetConfLevels sampleConfig SoundModelInfo.ctor 1 none [] [true, true, false] =
      some (-ENOMEM, halfInfo, []) := by decide
  refine ⟨hrun, Reachable.setConfLevels _ _ _ _ _ _ _ _ Reachable.fresh hrun, ?_, by decide,
    by decide, ?_⟩
  · intro h
    rcases h with ⟨h, _⟩ | ⟨names, lo, _, _, hlo, _⟩
    · simp [halfInfo] at h
    · simp [SoundModelInfo.cfLevels, halfInfo] at hlo
  · intro h
    rcases h with ⟨h, _⟩ | ⟨names, lo, hnames, hlen, _, _⟩
    · simp [onePairInfo] at h
    · simp [onePairInfo] at hnames hlen
      rw [← hnames] at hlen
      simp at hlen

/-- C14 (amended): in every state a freshly constructed descriptor reaches by
returning calls of `SetKeyPhrases`, `SetUsers` and `UpdateConfLevelArray`
(whatever they return), and by returning calls of `SetConfLevels` and
assignments in which every allocation succeeds, `SetConfLevels` computing the
size zero only while `cf_levels_size_` is zero, the tables are paired: either
`cf_levels_kw_users_` has `cf_levels_size_` slots and `cf_levels_` holds
`cf_levels_size_` bytes, or both are null. -/
theorem tables_paired (c : Config) (d : SoundModelInfo) (h : ReachableAllocated c d) :
    TablesPaired d := by
  induction h with
  | fresh => exact Or.inl ⟨rfl, rfl⟩
  | setKeyPhrases d d1 sml model n heap heap1 status _ hcall ih =>
    have hf := setKeyPhrases_frame c sml d d1 model n heap heap1 status hcall
    exact tablesPaired_congr d d1 (by rw [hf]) (by rw [hf]) (by rw [hf]) ih
  | setUsers d d1 sml model n heap heap1 status _ hcall ih =>
    have hf := setUsers_frame c sml d d1 model n heap heap1 status hcall
    exact tablesPaired_congr d d1 (by rw [hf]) (by rw [hf]) (by rw [hf]) ih
  | setConfLevels d d1 U upk flags heap heap1 status _ halloc hzero hcall ih =>
    exact setConfLevels_tables c d d1 U upk flags heap heap1 status halloc hzero hcall ih
  | update d d1 conf_levels cfl_size status _ hcall ih =>
    rcases updateConfLevelArray_inv d d1 conf_levels cfl_size status hcall with
      ⟨_, hd1⟩ | ⟨_, _, _, hd1⟩ | ⟨_, hle, blk, bytes, hblk, hblen, hfit, hd1⟩
    · rw [hd1]
      exact ih
    · rw [hd1]
      exact ih
    · rcases tablesPaired_present d ih with ⟨_, hnone⟩ | ⟨names, blk0, hnames, hlen, hblk0, hsz⟩
      · rw [hblk] at hnone
        cases hnone
      · rw [hblk] at hblk0
        cases hblk0
        refine tablesPaired_of_present d1 names (bytes ++ blk.drop cfl_size) (by rw [hd1, ← hnames])
          (by rw [hd1]; exact hlen) (by rw [hd1]) ?_
        rw [hd1, List.length_append, List.length_drop]
        simp only
        omega
  | assign t s t1 sameObject heap heap1 _ halloc hcall ih =>
    cases sameObject with
    | true =>
      simp [operator_assign] at hcall
      rw [← hcall.1]
      exact ih
    | false =>
      obtain ⟨names, blk, hnames, hlen, hblk, hfit⟩ :=
        operator_assign_tables c t s t1 heap heap1 halloc hcall
      exact tablesPaired_of_present t1 names blk hnames hlen hblk hfit

theorem tables_paired_witness :
    ReachableAllocated sampleConfig onePairInfo ∧ TablesPaired onePairInfo := by
  have hreach : ReachableAllocated sampleConfig onePairInfo :=
    ReachableAllocated.setConfLevels SoundModelInfo.ctor onePairInfo 1 none [] [] [] 0
      ReachableAllocated.fresh (by simp) (by decide) (by decide)
  exact ⟨hreach, tables_paired sampleConfig onePairInfo hreach⟩

/-! ## Assignment and update on the heap -/

theorem heapFree_other (mem mem1 : Memory) (b : Nat) (h : heapFree mem b = some mem1) :
    mem1.length = mem.length ∧ ∀ a, a ≠ b → mem1[a]? = mem[a]? := by
  unfold heapFree at h
  split at h
  · simp at h
    subst h
    refine ⟨by simp, ?_⟩
    intro a ha
    rw [List.getElem?_set_ne (by omega)]
  · cases h

theorem heapWrite_other (mem mem1 : Memory) (b off : Nat) (bytes : List Nat)
    (h : heapWrite mem b off bytes = some mem1) :
    mem1.length = mem.length ∧ ∀ a, a ≠ b → mem1[a]? = mem[a]? := by
  unfold heapWrite at h
  split at h
  · split at h
    · cases h
    · simp at h
      subst h
      refine ⟨by simp, ?_⟩
      intro a ha
      rw [List.getElem?_set_ne (by omega)]
  · cases h

theorem heapCalloc_other (mem mem1 : Memory) (ok : Bool) (n : Nat) (r : Option Nat)
    (h : heapCalloc mem ok n = (r, mem1)) :
    mem.length ≤ mem1.length ∧ (∀ a, a < mem.length → mem1[a]? = mem[a]?) ∧
    ∀ b, r = some b → b = mem.length := by
  unfold heapCalloc at h
  split at h
  · simp at h
    obtain ⟨h1, h2⟩ := h
    subst h1 h2
    refine ⟨by simp, ?_, ?_⟩
    · intro a ha
      rw [List.getElem?_append_left ha]
    · intro b hb
      simp at hb
      exact hb.symm
  · simp at h
    obtain ⟨h1, h2⟩ := h
    subst h1 h2
    exact ⟨Nat.le_refl _, fun _ _ => rfl, fun b hb => by cases hb⟩

theorem heapRead_live (mem : Memory) (a off n : Nat) (blk out : List Nat)
    (hblk : mem[a]? = some (some blk)) (h : memcpySrc (some blk) off n = some out) :
    heapRead mem (some (a, off)) n = some out := by
  unfold heapRead
  unfold memcpySrc at h
  by_cases hn : n = 0
  · simp only [hn, if_true] at h ⊢
    exact h
  · simp only [hn, if_false] at h ⊢
    simp only [hblk]
    exact h

theorem heapWrite_live (mem : Memory) (a off : Nat) (bytes blk out : List Nat)
    (hblk : mem[a]? = some (some blk)) (h : writeBytes blk off bytes = some out) :
    heapWrite mem a off bytes = some (mem.set a (some out)) := by
  unfold heapWrite
  simp only [hblk, h]

/-- Storing the lower half of a `2 * n`-byte block in a fresh block. -/
theorem writeBytes_lower_half (blk : List Nat) (n : Nat) (hlen : blk.length = 2 * n) :
    writeBytes (List.replicate (2 * n) 0) 0 (blk.take n) =
      some (blk.take n ++ List.replicate n 0) := by
  have hlolen : (blk.take n).length = n := by
    rw [List.length_take]
    omega
  rw [writeBytes_zero _ _ (by rw [hlolen, List.length_replicate]; omega), hlolen,
    List.drop_replicate]
  congr 3
  omega

/-- The upper half of a `2 * n`-byte block as the source of a copy. -/
theorem memcpySrc_upper_half (blk : List Nat) (n : Nat) (hlen : blk.length = 2 * n) :
    memcpySrc (some blk) n n = some (blk.drop n) := by
  unfold memcpySrc
  by_cases hz : n = 0
  · have hnil : blk = [] := List.eq_nil_of_length_eq_zero (by omega)
    simp [hz, hnil]
  · simp only [hz, if_false, readBytes]
    rw [if_pos (by omega)]
    congr 1
    exact List.take_of_length_le (by rw [List.length_drop]; omega)

/-- Storing the upper half behind the lower half gives the block back. -/
theorem writeBytes_upper_half (blk : List Nat) (n : Nat) (hlen : blk.length = 2 * n) :
    writeBytes (blk.take n ++ List.replicate n 0) n (blk.drop n) = some blk := by
  have hlolen : (blk.take n).length = n := by
    rw [List.length_take]
    omega
  have hhilen : (blk.drop n).length = n := by
    rw [List.length_drop]
    omega
  have e1 : List.take n (blk.take n ++ List.replicate n 0) = blk.take n := by
    rw [List.take_append_of_le_length (by omega)]
    exact List.take_of_length_le (by omega)
  have e2 : List.drop (n + (blk.drop n).length) (blk.take n ++ List.replicate n 0) = [] := by
    apply List.drop_of_length_le
    rw [hhilen, List.length_append, hlolen, List.length_replicate]
  unfold writeBytes
  rw [if_pos (by rw [hhilen, List.length_append, hlolen, List.length_replicate]), e1, e2,
    List.append_nil, List.take_append_drop]

theorem writeBytes_mem (buf bytes out : List Nat) (off : Nat)
    (h : writeBytes buf off bytes = some out) : ∀ x ∈ out, x ∈ buf ∨ x ∈ bytes := by
  unfold writeBytes at h
  split at h
  · cases h
    intro x hx
    simp only [List.mem_append] at hx
    rcases hx with (hx | hx) | hx
    · exact Or.inl (List.mem_of_mem_take hx)
    · exact Or.inr hx
    · exact Or.inl (List.mem_of_mem_drop hx)
  · cases h

theorem heapWrite_at (mem mem1 : Memory) (w off : Nat) (bytes : List Nat)
    (h : heapWrite mem w off bytes = some mem1) :
    ∃ blk out, mem[w]? = some (some blk) ∧ writeBytes blk off bytes = some out ∧
      mem1 = mem.set w (some out) ∧ mem1[w]? = some (some out) := by
  unfold heapWrite at h
  split at h
  · rename_i blk hblk
    split at h
    · cases h
    · rename_i out hout
      simp at h
      subst h
      refine ⟨blk, out, hblk, hout, rfl, ?_⟩
      have hlt : w < mem.length := by
        by_contra hge
        rw [List.getElem?_eq_none (by omega)] at hblk
        cases hblk
      rw [List.getElem?_set_self hlt]
  · cases h

theorem heapFree_at (mem mem1 : Memory) (p : Nat) (h : heapFree mem p = some mem1) :
    mem1 = mem.set p none ∧ ∀ (b : Nat) (cells : List Nat), mem1[b]? = some (some cells) →
      mem[b]? = some (some cells) := by
  unfold heapFree at h
  split at h
  · simp at h
    subst h
    refine ⟨rfl, ?_⟩
    intro b cells hb
    by_cases hbp : b = p
    · subst hbp
      by_cases hlt : b < mem.length
      · rw [List.getElem?_set_self hlt] at hb
        cases hb
      · rw [List.getElem?_eq_none (by simpa using hlt)] at hb
        cases hb
    · rw [List.getElem?_set_ne (by omega)] at hb
      exact hb
  · cases h

theorem frameInv_free (a L : Nat) (blk : List Nat) (own : Nat → Prop) (mem mem1 : Memory)
    (p : Nat) (hinv : FrameInv a blk L own mem) (hp : p ≠ a)
    (h : heapFree mem p = some mem1) : FrameInv a blk L own mem1 := by
  obtain ⟨hlen, hother⟩ := heapFree_other mem mem1 p h
  obtain ⟨_, hlive⟩ := heapFree_at mem mem1 p h
  refine ⟨by rw [hlen]; exact hinv.1, by rw [hother a (Ne.symm hp)]; exact hinv.2.1, ?_⟩
  intro b hb cells hcells
  exact hinv.2.2 b hb cells (hlive b cells hcells)

/-- A store of bytes none of which is the cell value leading to `a`. -/
theorem frameInv_write_clean (a L : Nat) (blk : List Nat) (own : Nat → Prop)
    (mem mem1 : Memory) (w off : Nat) (bytes : List Nat)
    (hinv : FrameInv a blk L own mem) (hw : w ≠ a) (hclean : a + 1 ∉ bytes)
    (h : heapWrite mem w off bytes = some mem1) : FrameInv a blk L own mem1 := by
  obtain ⟨hlen, hother⟩ := heapWrite_other mem mem1 w off bytes h
  obtain ⟨old, out, hold, hout, _, hnew⟩ := heapWrite_at mem mem1 w off bytes h
  refine ⟨by rw [hlen]; exact hinv.1, by rw [hother a (Ne.symm hw)]; exact hinv.2.1, ?_⟩
  intro b hb cells hcells
  by_cases hbw : b = w
  · subst hbw
    rw [hnew] at hcells
    simp only [Option.some.injEq] at hcells
    subst hcells
    intro hmem
    rcases writeBytes_mem _ _ _ _ hout _ hmem with h1 | h1
    · exact hinv.2.2 b hb old hold h1
    · exact hclean h1
  · rw [hother b hbw] at hcells
    exact hinv.2.2 b hb cells hcells

/-- A store into a block that is not an array of the target. -/
theorem frameInv_write_new (a L : Nat) (blk : List Nat) (own : Nat → Prop)
    (mem mem1 : Memory) (w off : Nat) (bytes : List Nat)
    (hinv : FrameInv a blk L own mem) (hw : w ≠ a) (hnew : ¬ own w)
    (h : heapWrite mem w off bytes = some mem1) : FrameInv a blk L own mem1 := by
  obtain ⟨hlen, hother⟩ := heapWrite_other mem mem1 w off bytes h
  refine ⟨by rw [hlen]; exact hinv.1, by rw [hother a (Ne.symm hw)]; exact hinv.2.1, ?_⟩
  intro b hb cells hcells
  have hbw : b ≠ w := by
    intro e
    exact hnew (e ▸ hb)
  rw [hother b hbw] at hcells
  exact hinv.2.2 b hb cells hcells

theorem frameInv_calloc (a L : Nat) (blk : List Nat) (own : Nat → Prop)
    (mem mem1 : Memory) (ok : Bool) (n : Nat) (r : Option Nat)
    (hinv : FrameInv a blk L own mem) (hown : ∀ b, own b → b < L)
    (h : heapCalloc mem ok n = (r, mem1)) :
    FrameInv a blk L own mem1 ∧ mem.length ≤ mem1.length ∧
    (∀ x, x < mem.length → mem1[x]? = mem[x]?) ∧
    ∀ p, r = some p → p = mem.length ∧ p < mem1.length ∧
      mem1[p]? = some (some (List.replicate n 0)) := by
  obtain ⟨hlen, hkeep, hp⟩ := heapCalloc_other mem mem1 ok n r h
  have ha : a < mem.length := by
    by_contra hge
    have := hinv.2.1
    rw [List.getElem?_eq_none (by omega)] at this
    cases this
  refine ⟨⟨by have := hinv.1; omega, by rw [hkeep a ha]; exact hinv.2.1, ?_⟩, hlen, hkeep, ?_⟩
  · intro b hb cells hcells
    rw [hkeep b (by have := hown b hb; have := hinv.1; omega)] at hcells
    exact hinv.2.2 b hb cells hcells
  · intro p hr
    unfold heapCalloc at h
    split at h
    · simp at h
      obtain ⟨h1, h2⟩ := h
      subst h2
      rw [hr] at h1
      simp at h1
      subst h1
      simp
    · simp at h
      rw [hr] at h
      simp at h

theorem cellPtr_some (v p : Nat) (h : cellPtr v = some p) : v = p + 1 := by
  unfold cellPtr at h
  split at h
  · cases h
  · simp at h
    omega

/-- The loop of `FreeArrayPtrs` on an array other than `a` whose cells do not
lead to `a` leaves the block at `a` alone. -/
theorem heapFreeSlots_frame (a L : Nat) (blk : List Nat) (own : Nat → Prop) (arr : Nat)
    (harr : arr ≠ a) :
    ∀ (rem i : Nat) (mem mem1 : Memory), heapFreeSlots arr rem i mem = some mem1 →
      FrameInv a blk L own mem →
      (∀ cells, mem[arr]? = some (some cells) → a + 1 ∉ cells) →
      FrameInv a blk L own mem1 := by
  intro rem
  induction rem with
  | zero =>
    intro i mem mem1 h hinv _
    simp only [heapFreeSlots, Option.some.injEq] at h
    subst h
    exact hinv
  | succ rem ih =>
    intro i mem mem1 h hinv hcells
    rw [heapFreeSlots] at h
    split at h
    · rename_i cells hc
      split at h
      · cases h
      · rename_i v hv
        split at h
        · exact ih (i + 1) mem mem1 h hinv hcells
        · rename_i p hp
          have hvp := cellPtr_some v p hp
          have hpa : p ≠ a := by
            intro e
            apply hcells cells hc
            rw [← e, ← hvp]
            exact List.getElem?_mem hv
          split at h
          · cases h
          · rename_i mem2 hfree
            have hinv2 := frameInv_free a L blk own mem mem2 p hinv hpa hfree
            split at h
            · cases h
            · rename_i mem3 hwrite
              have hinv3 := frameInv_write_clean a L blk own mem2 mem3 arr i [0] hinv2 harr
                (by simp) hwrite
              refine ih (i + 1) mem3 mem1 h hinv3 ?_
              intro cells3 hc3
              obtain ⟨old, out, hold, hout, _, hnew⟩ := heapWrite_at mem2 mem3 arr i [0] hwrite
              rw [hnew] at hc3
              simp only [Option.some.injEq] at hc3
              subst hc3
              intro hmem
              rcases writeBytes_mem _ _ _ _ hout _ hmem with h1 | h1
              · exact hcells old ((heapFree_at mem mem2 p hfree).2 arr old hold) h1
              · simp at h1
    · cases h

theorem heapFreeArrayPtrs_frame (a L : Nat) (blk : List Nat) (own : Nat → Prop)
    (mem mem1 : Memory) (arr : Option Nat) (n : Nat)
    (h : heapFreeArrayPtrs mem arr n = some mem1) (hinv : FrameInv a blk L own mem)
    (harr : ∀ b, arr = some b → b ≠ a ∧ ∀ cells, mem[b]? = some (some cells) → a + 1 ∉ cells) :
    FrameInv a blk L own mem1 := by
  unfold heapFreeArrayPtrs at h
  split at h
  · simp at h
    subst h
    exact hinv
  · rename_i b
    obtain ⟨hba, hcells⟩ := harr b rfl
    split at h
    · cases h
    · rename_i mem2 hslots
      have hinv2 := heapFreeSlots_frame a L blk own b hba n 0 mem mem2 hslots hinv hcells
      exact frameInv_free a L blk own mem2 mem1 b hinv2 hba h

/-- The slot loop of `AllocArrayPtrs` on a new array leaves the block at `a`
alone, and the cells of the array lead to blocks allocated after it. -/
theorem heapAllocSlots_frame (a L : Nat) (blk : List Nat) (own : Nat → Prop)
    (hown : ∀ b, own b → b < L) (ha : a < L) (A len : Nat) (hA : L ≤ A) :
    ∀ (rem i : Nat) (mem mem1 : Memory) (script script1 : List Bool) (ok : Bool),
      heapAllocSlots A len rem i mem script = some (ok, mem1, script1) →
      FrameInv a blk L own mem → A < mem.length →
      (∀ cells, mem[A]? = some (some cells) → ∀ v ∈ cells, v = 0 ∨ A + 1 < v) →
      FrameInv a blk L own mem1 ∧
      (ok = true → ∀ cells, mem1[A]? = some (some cells) → ∀ v ∈ cells, v = 0 ∨ A + 1 < v) := by
  intro rem
  induction rem with
  | zero =>
    intro i mem mem1 script script1 ok h hinv _ hcells
    simp only [heapAllocSlots, Option.some.injEq, Prod.mk.injEq] at h
    obtain ⟨_, h2, _⟩ := h
    subst h2
    exact ⟨hinv, fun _ => hcells⟩
  | succ rem ih =>
    intro i mem mem1 script script1 ok h hinv hAlt hcells
    rw [heapAllocSlots] at h
    split at h
    · rename_i mem2 hc
      obtain ⟨hinv2, _, hkeep, _⟩ := frameInv_calloc a L blk own mem mem2 _ _ _ hinv hown hc
      split at h
      · cases h
      · rename_i mem3 hfree
        simp only [Option.some.injEq, Prod.mk.injEq] at h
        obtain ⟨h1, h2, _⟩ := h
        subst h2
        refine ⟨heapFreeArrayPtrs_frame a L blk own mem2 mem3 (some A) i hfree hinv2 ?_, ?_⟩
        · intro b hb
          simp only [Option.some.injEq] at hb
          subst hb
          refine ⟨by omega, ?_⟩
          intro cells hc2 hmem
          rw [hkeep _ hAlt] at hc2
          rcases hcells cells hc2 _ hmem with h0 | hgt
          · omega
          · omega
        · intro hok
          rw [← h1] at hok
          cases hok
    · rename_i p mem2 hc
      obtain ⟨hinv2, hlen2, hkeep, hp⟩ := frameInv_calloc a L blk own mem mem2 _ _ _ hinv hown hc
      obtain ⟨hpe, _, _⟩ := hp p rfl
      split at h
      · cases h
      · rename_i mem3 hwrite
        have hnew : ¬ own A := fun ho => by
          have := hown A ho
          omega
        have hinv3 := frameInv_write_new a L blk own mem2 mem3 A i [p + 1] hinv2 (by omega)
          hnew hwrite
        obtain ⟨hlen3, _⟩ := heapWrite_other mem2 mem3 A i [p + 1] hwrite
        refine ih (i + 1) mem3 mem1 script.tail script1 ok h hinv3 (by omega) ?_
        intro cells3 hc3 v hv
        obtain ⟨old, out, hold, hout, _, hnew3⟩ := heapWrite_at mem2 mem3 A i [p + 1] hwrite
        rw [hnew3] at hc3
        simp only [Option.some.injEq] at hc3
        subst hc3
        rcases writeBytes_mem _ _ _ _ hout _ hv with h1 | h1
        · rw [hkeep _ hAlt] at hold
          exact hcells old hold v h1
        · simp at h1
          right
          omega

/-- `AllocArrayPtrs` leaves the block at `a` alone; the array it returns is a
new one whose cells lead to blocks allocated after it. -/
theorem heapAllocArrayPtrs_frame (a L : Nat) (blk : List Nat) (own : Nat → Prop)
    (hown : ∀ b, own b → b < L) (ha : a < L) (mem mem1 : Memory) (script script1 : List Bool)
    (n len : Nat) (r : Option Nat)
    (h : heapAllocArrayPtrs mem script n len = some (r, mem1, script1))
    (hinv : FrameInv a blk L own mem) :
    FrameInv a blk L own mem1 ∧
    ∀ A, r = some A → L ≤ A ∧
      ∀ cells, mem1[A]? = some (some cells) → ∀ v ∈ cells, v = 0 ∨ A + 1 < v := by
  unfold heapAllocArrayPtrs at h
  split at h
  · rename_i mem2 hc
    obtain ⟨hinv2, _, _, _⟩ := frameInv_calloc a L blk own mem mem2 _ _ _ hinv hown hc
    simp only [Option.some.injEq, Prod.mk.injEq] at h
    obtain ⟨h1, h2, _⟩ := h
    subst h1 h2
    exact ⟨hinv2, fun A hA => by cases hA⟩
  · rename_i A mem2 hc
    obtain ⟨hinv2, _, _, hp⟩ := frameInv_calloc a L blk own mem mem2 _ _ _ hinv hown hc
    obtain ⟨hpe, hplt, hzero⟩ := hp A rfl
    have hLA : L ≤ A := by
      have := hinv.1
      omega
    have hcells0 : ∀ cells, mem2[A]? = some (some cells) → ∀ v ∈ cells, v = 0 ∨ A + 1 < v := by
      intro cells hc2 v hv
      rw [hzero] at hc2
      simp only [Option.some.injEq] at hc2
      subst hc2
      left
      exact List.eq_of_mem_replicate hv
    split at h
    · cases h
    · rename_i mem3 script3 hslots
      obtain ⟨hinv3, hc3⟩ := heapAllocSlots_frame a L blk own hown ha A len hLA n 0 mem2 mem3 _ _
        true hslots hinv2 hplt hcells0
      simp only [Option.some.injEq, Prod.mk.injEq] at h
      obtain ⟨h1, h2, _⟩ := h
      subst h1 h2
      refine ⟨hinv3, ?_⟩
      intro A1 hA1
      simp only [Option.some.injEq] at hA1
      subst hA1
      exact ⟨hLA, hc3 rfl⟩
    · rename_i mem3 script3 hslots
      obtain ⟨hinv3, _⟩ := heapAllocSlots_frame a L blk own hown ha A len hLA n 0 mem2 mem3 _ _
        false hslots hinv2 hplt hcells0
      simp only [Option.some.injEq, Prod.mk.injEq] at h
      obtain ⟨h1, h2, _⟩ := h
      subst h1 h2
      exact ⟨hinv3, fun A hA => by cases hA⟩

/-- The copy loop of `operator =` into a new array leaves the block at `a`
alone. -/
theorem heapCopySlots_frame (a L : Nat) (blk : List Nat) (own : Nat → Prop)
    (hown : ∀ b, own b → b < L) (ha : a < L) (src : Option Nat) (A len : Nat) (hA : L ≤ A) :
    ∀ (rem i : Nat) (mem mem1 : Memory), heapCopySlots src A len rem i mem = some mem1 →
      FrameInv a blk L own mem →
      (∀ cells, mem[A]? = some (some cells) → ∀ v ∈ cells, v = 0 ∨ A + 1 < v) →
      FrameInv a blk L own mem1 := by
  intro rem
  induction rem with
  | zero =>
    intro i mem mem1 h hinv _
    simp only [heapCopySlots, Option.some.injEq] at h
    subst h
    exact hinv
  | succ rem ih =>
    intro i mem mem1 h hinv hcells
    cases src with
    | none => simp [heapCopySlots] at h
    | some sa =>
      rw [heapCopySlots] at h
      split at h
      · rename_i scells dcells hs hd
        split at h
        · rename_i sv dv hsv hdv
          split at h
          · rename_i sp dp hsp hdp
            have hdvp := cellPtr_some dv dp hdp
            have hgt : A < dp := by
              rcases hcells dcells hd dv (List.getElem?_mem hdv) with h0 | hgt
              · omega
              · omega
            split at h
            · split at h
              · cases h
              · split at h
                · cases h
                · rename_i mem2 hwrite
                  have hnew : ¬ own dp := fun ho => by
                    have := hown dp ho
                    omega
                  have hinv2 := frameInv_write_new a L blk own mem mem2 dp 0 _ hinv (by omega)
                    hnew hwrite
                  refine ih (i + 1) mem2 mem1 h hinv2 ?_
                  intro cells hc
                  rw [(heapWrite_other mem mem2 dp 0 _ hwrite).2 A (by omega)] at hc
                  exact hcells cells hc
            · cases h
          · cases h
        · cases h
      · cases h

/-- An array step of `operator =` leaves the block at `a` alone when the old
array is one of the target's. -/
theorem heapCloneArray_frame (a L : Nat) (blk : List Nat) (own : Nat → Prop)
    (hown : ∀ b, own b → b < L) (ha : a < L) (mem mem1 : Memory) (old src r : Option Nat)
    (n len : Nat) (script script1 : List Bool)
    (h : heapCloneArray mem old src n len script = some (r, mem1, script1))
    (hinv : FrameInv a blk L own mem) (hold : ∀ b, old = some b → own b ∧ b ≠ a) :
    FrameInv a blk L own mem1 := by
  unfold heapCloneArray at h
  split at h
  · cases h
  · rename_i mem2 hfree
    have hinv2 := heapFreeArrayPtrs_frame a L blk own mem mem2 old n hfree hinv (by
      intro b hb
      exact ⟨(hold b hb).2, hinv.2.2 b (hold b hb).1⟩)
    split at h
    · cases h
    · rename_i mem3 script3 halloc
      obtain ⟨hinv3, _⟩ := heapAllocArrayPtrs_frame a L blk own hown ha mem2 mem3 _ _ n len none
        halloc hinv2
      simp only [Option.some.injEq, Prod.mk.injEq] at h
      rw [← h.2.1]
      exact hinv3
    · rename_i A mem3 script3 halloc
      obtain ⟨hinv3, hA⟩ := heapAllocArrayPtrs_frame a L blk own hown ha mem2 mem3 _ _ n len
        (some A) halloc hinv2
      obtain ⟨hLA, hcells⟩ := hA A rfl
      split at h
      · cases h
      · rename_i mem4 hcopy
        simp only [Option.some.injEq, Prod.mk.injEq] at h
        rw [← h.2.1]
        exact heapCopySlots_frame a L blk own hown ha src A len hLA n 0 mem3 mem4 hcopy hinv3
          hcells

/-- Freeing the block the target holds, if any, leaves the block at `a`
alone. -/
theorem frameInv_free_old (a L : Nat) (blk : List Nat) (own : Nat → Prop) (mem mem1 : Memory)
    (old : Option Nat) (hinv : FrameInv a blk L own mem)
    (h : (match old with
      | none => some mem
      | some p => heapFree mem p) = some mem1) (hold : old ≠ some a) :
    FrameInv a blk L own mem1 := by
  cases old with
  | none =>
    simp only [Option.some.injEq] at h
    subst h
    exact hinv
  | some p =>
    simp only at h
    exact frameInv_free a L blk own mem mem1 p hinv (fun e => hold (by rw [e])) h

theorem heapCloneData_frame (a L : Nat) (blk : List Nat) (own : Nat → Prop)
    (hown : ∀ b, own b → b < L) (mem mem1 : Memory) (old r : Option Nat)
    (smi : HeapInfo) (script script1 : List Bool)
    (h : heapCloneData mem old smi script = some (r, mem1, script1))
    (hinv : FrameInv a blk L own mem) (ha : a < L) (hold : old ≠ some a) :
    FrameInv a blk L own mem1 := by
  unfold heapCloneData at h
  split at h
  · cases h
  · rename_i mem2 hfree
    have hinv2 := frameInv_free_old a L blk own mem mem2 old hinv hfree hold
    split at h
    · rename_i mem3 hc
      obtain ⟨hinv3, _⟩ := frameInv_calloc a L blk own mem2 mem3 _ _ _ hinv2 hown hc
      simp only [Option.some.injEq, Prod.mk.injEq] at h
      rw [← h.2.1]
      exact hinv3
    · rename_i p mem3 hc
      obtain ⟨hinv3, _, _, hp⟩ := frameInv_calloc a L blk own mem2 mem3 _ _ _ hinv2 hown hc
      obtain ⟨hpe, _, _⟩ := hp p rfl
      have hLp : L ≤ p := by
        have := hinv2.1
        omega
      split at h
      · cases h
      · split at h
        · cases h
        · rename_i mem4 hwrite
          simp only [Option.some.injEq, Prod.mk.injEq] at h
          rw [← h.2.1]
          exact frameInv_write_new a L blk own mem3 mem4 p 0 _ hinv3 (by omega)
            (fun ho => by have := hown p ho; omega) hwrite

/-- The block step of `operator =` leaves the block at `a` alone, and the
pointers it returns lead to a block allocated by it. -/
theorem heapCloneLevels_frame (a L : Nat) (blk : List Nat) (own : Nat → Prop)
    (hown : ∀ b, own b → b < L) (mem mem1 : Memory) (old r : Option Nat)
    (det : Option (Nat × Nat)) (smi : HeapInfo) (script script1 : List Bool)
    (h : heapCloneLevels mem old smi script = some (r, det, mem1, script1))
    (hinv : FrameInv a blk L own mem) (ha : a < L) (hold : old ≠ some a) :
    FrameInv a blk L own mem1 ∧ (∀ p, r = some p → L ≤ p) ∧
    ∀ q, det = some q → L ≤ q.1 := by
  unfold heapCloneLevels at h
  simp only at h
  split at h
  · cases h
  · rename_i mem2 hfree
    have hinv2 := frameInv_free_old a L blk own mem mem2 old hinv hfree hold
    split at h
    · rename_i mem3 hc
      obtain ⟨hinv3, _⟩ := frameInv_calloc a L blk own mem2 mem3 _ _ _ hinv2 hown hc
      split at h
      · simp only [Option.some.injEq, Prod.mk.injEq] at h
        obtain ⟨h1, h2, h3, _⟩ := h
        subst h1 h2 h3
        refine ⟨hinv3, ?_, ?_⟩
        · intro p hp
          cases hp
        · intro q hq
          cases hq
      · cases h
    · rename_i p mem3 hc
      obtain ⟨hinv3, _, _, hp⟩ := frameInv_calloc a L blk own mem2 mem3 _ _ _ hinv2 hown hc
      obtain ⟨hpe, _, _⟩ := hp p rfl
      have hLp : L ≤ p := by
        have := hinv2.1
        omega
      have hnew : ¬ own p := fun ho => by
        have := hown p ho
        omega
      split at h
      · cases h
      · split at h
        · cases h
        · rename_i mem4 hw1
          have hinv4 := frameInv_write_new a L blk own mem3 mem4 p 0 _ hinv3 (by omega) hnew hw1
          split at h
          · cases h
          · split at h
            · cases h
            · rename_i mem5 hw2
              have hinv5 := frameInv_write_new a L blk own mem4 mem5 p _ _ hinv4 (by omega) hnew
                hw2
              simp only [Option.some.injEq, Prod.mk.injEq] at h
              obtain ⟨h1, h2, h3, _⟩ := h
              subst h1 h2 h3
              refine ⟨hinv5, ?_, ?_⟩
              · intro p1 hp1
                simp only [Option.some.injEq] at hp1
                omega
              · intro q hq
                simp only [Option.some.injEq] at hq
                rw [← hq]
                exact hLp

/-- What a completed assignment to a target that holds no pointer to the
block at `a` leaves: the block at `a` as it was, the heap no shorter, and the
level pointers of the target on a block allocated by the assignment. -/
theorem operator_assign_heap_frame (c : Config) (mem mem1 : Memory) (t s t1 : HeapInfo)
    (script script1 : List Bool) (a : Nat) (blk : List Nat)
    (h : operator_assign_heap c false mem t s script = some (t1, mem1, script1))
    (hblk : mem[a]? = some (some blk)) (hno : HoldsNoPointerTo mem t a) :
    mem1[a]? = some (some blk) ∧ mem.length ≤ mem1.length ∧
    (∀ p, t1.cf_levels_ = some p → mem.length ≤ p) ∧
    ∀ q, t1.det_cf_levels_ = some q → mem.length ≤ q.1 := by
  obtain ⟨hdata, hlev, harrs⟩ := hno
  have ha : a < mem.length := by
    by_contra hge
    rw [List.getElem?_eq_none (by omega)] at hblk
    cases hblk
  have hown : ∀ b, (t.keyphrases_ = some b ∨ t.users_ = some b ∨
      t.cf_levels_kw_users_ = some b) → b < mem.length := fun b hb => (harrs b hb).1
  have hinv0 : FrameInv a blk mem.length
      (fun b => t.keyphrases_ = some b ∨ t.users_ = some b ∨ t.cf_levels_kw_users_ = some b)
      mem := ⟨Nat.le_refl _, hblk, fun b hb => (harrs b hb).2.2⟩
  unfold operator_assign_heap at h
  simp only [Bool.false_eq_true, if_false] at h
  split at h
  · cases h
  · rename_i data m1 s1 h1
    have hinv1 := heapCloneData_frame a _ blk _ hown mem m1 _ _ s script s1 h1 hinv0 ha hdata
    split at h
    · cases h
    · rename_i lv det m2 s2 h2
      obtain ⟨hinv2, hlv, hdet⟩ :=
        heapCloneLevels_frame a _ blk _ hown m1 m2 _ _ _ s s1 s2 h2 hinv1 ha hlev
      split at h
      · cases h
      · rename_i kws m3 s3 h3
        have hinv3 := heapCloneArray_frame a _ blk _ hown ha m2 m3 _ _ _ _ _ s2 s3 h3 hinv2 (by
          intro b hb
          exact ⟨Or.inl hb, (harrs b (Or.inl hb)).2.1⟩)
        split at h
        · cases h
        · rename_i users m4 s4 h4
          have hinv4 := heapCloneArray_frame a _ blk _ hown ha m3 m4 _ _ _ _ _ s3 s4 h4 hinv3 (by
            intro b hb
            exact ⟨Or.inr (Or.inl hb), (harrs b (Or.inr (Or.inl hb))).2.1⟩)
          split at h
          · cases h
          · rename_i names m5 s5 h5
            have hinv5 := heapCloneArray_frame a _ blk _ hown ha m4 m5 _ _ _ _ _ s4 s5 h5 hinv4
              (by
                intro b hb
                exact ⟨Or.inr (Or.inr hb), (harrs b (Or.inr (Or.inr hb))).2.1⟩)
            simp only [Option.some.injEq, Prod.mk.injEq] at h
            obtain ⟨ht1, hm, _⟩ := h
            subst hm
            rw [← ht1]
            exact ⟨hinv5.2.1, hinv5.1, hlv, hdet⟩

/-- A returning update on the heap changes no block other than the one
`cf_levels_` leads to. -/
theorem heapUpdateConfLevelArray_frame (mem mem1 : Memory) (t : HeapInfo)
    (conf_levels : Option (List Nat)) (cfl_size : Nat) (status : Int)
    (h : heapUpdateConfLevelArray mem t conf_levels cfl_size = some (status, mem1)) :
    ∀ a, t.cf_levels_ ≠ some a → mem1[a]? = mem[a]? := by
  intro a ha
  unfold heapUpdateConfLevelArray at h
  split at h
  · simp at h
    rw [h.2]
  · split at h
    · simp at h
      rw [h.2]
    · rename_i b hb
      split at h
      · cases h
      · split at h
        · cases h
        · rename_i mem2 hw
          simp at h
          rw [← h.2]
          exact (heapWrite_other _ _ _ _ _ hw).2 a (fun e => ha (by rw [hb, e]))

theorem headD_allTrue (script : List Bool) (h : ∀ b ∈ script, b = true) :
    script.headD true = true := by
  cases script with
  | nil => rfl
  | cons b rest => simpa using h b (by simp)

theorem heapCalloc_true (mem : Memory) (n : Nat) :
    heapCalloc mem true n = (some mem.length, mem ++ [some (List.replicate n 0)]) := by
  simp [heapCalloc]

theorem getElem?_append_new (mem : Memory) (x : Option (List Nat)) :
    (mem ++ [x])[mem.length]? = some x := by
  simp

/-- With a successful allocation, the `sm_data_` step of an assignment to a
target without model data appends a copy of the source's data to the heap. -/
theorem heapCloneData_runs (mem : Memory) (s : HeapInfo) (script : List Bool) (a : Nat)
    (data : List Nat) (hscript : ∀ b ∈ script, b = true) (hs : s.sm_data_ = some a)
    (hdata : mem[a]? = some (some data)) (hlen : data.length = s.sm_size_) :
    heapCloneData mem none s script =
      some (some mem.length, mem ++ [some data], script.tail) := by
  have haL : a < mem.length := by
    by_contra hge
    rw [List.getElem?_eq_none (by omega)] at hdata
    cases hdata
  have h2a : (mem ++ [some (List.replicate s.sm_size_ 0)])[a]? = some (some data) := by
    rw [List.getElem?_append_left haL, hdata]
  have hsrc : memcpySrc (some data) 0 s.sm_size_ = some data := by
    rw [memcpySrc_some_zero data s.sm_size_ (by omega)]
    congr 1
    exact List.take_of_length_le (by omega)
  have hr := heapRead_live _ a 0 s.sm_size_ data _ h2a hsrc
  have hw := heapWrite_live (mem ++ [some (List.replicate s.sm_size_ 0)]) mem.length 0 data _ _
    (getElem?_append_new mem _) (writeBytes_all _ data (by simp [hlen]))
  unfold heapCloneData
  simp only [headD_allTrue script hscript, heapCalloc_true, hs, Option.map_some', hr, hw]
  congr 3
  simp

/-- With a successful allocation, the block step of an assignment to a target
without a block appends a copy of the source's block to the heap. -/
theorem heapCloneLevels_runs (mem : Memory) (s : HeapInfo) (script : List Bool) (a : Nat)
    (blk : List Nat) (hscript : ∀ b ∈ script, b = true)
    (hs : s.cf_levels_ = some a) (hdet : s.det_cf_levels_ = some (a, s.cf_levels_size_))
    (hblk : mem[a]? = some (some blk)) (hlen : blk.length = 2 * s.cf_levels_size_)
    (hfit : 2 * s.cf_levels_size_ < UINT32_MOD) :
    heapCloneLevels mem none s script =
      some (some mem.length, some (mem.length, s.cf_levels_size_), mem ++ [some blk],
        script.tail) := by
  have haL : a < mem.length := by
    by_contra hge
    rw [List.getElem?_eq_none (by omega)] at hblk
    cases hblk
  have hmod : (2 * s.cf_levels_size_) % UINT32_MOD = 2 * s.cf_levels_size_ :=
    Nat.mod_eq_of_lt hfit
  have h2a : (mem ++ [some (List.replicate (2 * s.cf_levels_size_) 0)])[a]? =
      some (some blk) := by
    rw [List.getElem?_append_left haL, hblk]
  have hr1 := heapRead_live _ a 0 s.cf_levels_size_ blk _ h2a
    (memcpySrc_some_zero blk _ (by omega))
  have hw1 := heapWrite_live _ mem.length 0 _ _ _ (getElem?_append_new mem _)
    (writeBytes_lower_half blk s.cf_levels_size_ hlen)
  have h3a : ((mem ++ [some (List.replicate (2 * s.cf_levels_size_) 0)]).set mem.length
      (some (blk.take s.cf_levels_size_ ++ List.replicate s.cf_levels_size_ 0)))[a]? =
      some (some blk) := by
    rw [List.getElem?_set_ne (by omega), h2a]
  have h3L : ((mem ++ [some (List.replicate (2 * s.cf_levels_size_) 0)]).set mem.length
      (some (blk.take s.cf_levels_size_ ++ List.replicate s.cf_levels_size_ 0)))[mem.length]? =
      some (some (blk.take s.cf_levels_size_ ++ List.replicate s.cf_levels_size_ 0)) := by
    simp
  have hr2 := heapRead_live _ a s.cf_levels_size_ s.cf_levels_size_ blk _ h3a
    (memcpySrc_upper_half blk _ hlen)
  have hw2 := heapWrite_live _ mem.length s.cf_levels_size_ _ _ _ h3L
    (writeBytes_upper_half blk s.cf_levels_size_ hlen)
  unfold heapCloneLevels
  simp only [hmod, headD_allTrue script hscript, heapCalloc_true, hs, hdet, Option.map_some',
    hr1, hw1, hr2, hw2]
  congr 4
  simp

theorem allocCells_succ (A i : Nat) :
    (List.range (i + 1)).map (fun m => A + 1 + m + 1) =
      (List.range i).map (fun m => A + 1 + m + 1) ++ [A + 1 + i + 1] := by
  rw [List.range_succ, List.map_append]
  rfl

theorem writeBytes_cell (C : List Nat) (k v : Nat) (hk : 0 < k) :
    writeBytes (C ++ List.replicate k 0) C.length [v] =
      some (C ++ [v] ++ List.replicate (k - 1) 0) := by
  unfold writeBytes
  rw [if_pos (by rw [List.length_append, List.length_replicate, List.length_singleton]; omega)]
  congr 1
  rw [List.take_left', List.length_singleton, List.drop_append, List.drop_replicate]
  rfl

theorem set_cells (mem rest : Memory) (x y : Option (List Nat)) :
    (mem ++ [x] ++ rest).set mem.length y = mem ++ [y] ++ rest := by
  rw [List.append_assoc, List.append_assoc, List.set_append_right _ _ (Nat.le_refl _)]
  simp

theorem getElem?_cells (mem rest : Memory) (x : Option (List Nat)) :
    (mem ++ [x] ++ rest)[mem.length]? = some x := by
  rw [List.append_assoc, List.getElem?_append_right (Nat.le_refl _)]
  simp

/-- With every allocation succeeding, the slot loop of `AllocArrayPtrs` on a
new array of `n` cells at the end of the heap appends one zero-filled block
per slot and stores its address in the slot: cell `m` leads to the block at
`A + 1 + m`. -/
theorem heapAllocSlots_runs (mem : Memory) (n len : Nat) :
    ∀ (rem i : Nat) (script : List Bool), (∀ b ∈ script, b = true) → i + rem = n →
      heapAllocSlots mem.length len rem i
        (mem ++ [some ((List.range i).map (fun m => mem.length + 1 + m + 1) ++
            List.replicate (n - i) 0)] ++
          List.replicate i (some (List.replicate len 0))) script =
      some (true,
        mem ++ [some ((List.range n).map (fun m => mem.length + 1 + m + 1))] ++
          List.replicate n (some (List.replicate len 0)), script.drop rem) := by
  intro rem
  induction rem with
  | zero =>
    intro i script _ hi
    have : i = n := by omega
    subst this
    simp [heapAllocSlots]
  | succ rem ih =>
    intro i script hscript hi
    have hlenM : (mem ++ [some ((List.range i).map (fun m => mem.length + 1 + m + 1) ++
        List.replicate (n - i) 0)] ++ List.replicate i (some (List.replicate len 0))).length =
        mem.length + 1 + i := by
      simp
      omega
    have hcellsLen : ((List.range i).map (fun m => mem.length + 1 + m + 1)).length = i := by
      simp
    have hA : (mem ++ [some ((List.range i).map (fun m => mem.length + 1 + m + 1) ++
        List.replicate (n - i) 0)] ++ (List.replicate i (some (List.replicate len 0)) ++
        [some (List.replicate len 0)]))[mem.length]? =
        some (some ((List.range i).map (fun m => mem.length + 1 + m + 1) ++
          List.replicate (n - i) 0)) := getElem?_cells _ _ _
    have hwb : writeBytes ((List.range i).map (fun m => mem.length + 1 + m + 1) ++
        List.replicate (n - i) 0) i [mem.length + 1 + i + 1] =
        some ((List.range (i + 1)).map (fun m => mem.length + 1 + m + 1) ++
          List.replicate (n - (i + 1)) 0) := by
      have := writeBytes_cell ((List.range i).map (fun m => mem.length + 1 + m + 1)) (n - i)
        (mem.length + 1 + i + 1) (by omega)
      rw [hcellsLen] at this
      rw [this, allocCells_succ]
      congr 2
    have hw := heapWrite_live _ mem.length i [mem.length + 1 + i + 1] _ _ hA hwb
    rw [set_cells] at hw
    rw [heapAllocSlots]
    simp only [headD_allTrue script hscript, heapCalloc_true, hlenM]
    simp only [List.append_assoc] at hw ⊢
    simp only [hw]
    have hnext := ih (i + 1) script.tail (allTrue_tail script hscript) (by omega)
    rw [List.drop_tail] at hnext
    simp only [List.append_assoc] at hnext
    rw [← hnext, List.replicate_succ']

/-- With every allocation succeeding, `AllocArrayPtrs` appends the pointer
array and one zero-filled block per slot to the heap. -/
theorem heapAllocArrayPtrs_runs (mem : Memory) (script : List Bool) (n len : Nat)
    (hscript : ∀ b ∈ script, b = true) :
    heapAllocArrayPtrs mem script n len =
      some (some mem.length,
        mem ++ [some ((List.range n).map (fun m => mem.length + 1 + m + 1))] ++
          List.replicate n (some (List.replicate len 0)), script.tail.drop n) := by
  have hloop := heapAllocSlots_runs mem n len n 0 script.tail (allTrue_tail script hscript)
    (by omega)
  simp only [List.range_zero, List.map_nil, List.nil_append, Nat.sub_zero, List.replicate_zero,
    List.append_nil] at hloop
  unfold heapAllocArrayPtrs
  simp only [headD_allTrue script hscript, heapCalloc_true, hloop]

theorem cellPtr_succ (p : Nat) : cellPtr (p + 1) = some p := by
  simp [cellPtr]

/-- The copy loop of `operator =` from a populated array of the source, which
lives in the part of the heap that existed before the assignment, into a new
array whose cell `k` leads to the block at `A + 1 + k`: it runs to its end and
changes nothing up to the address `A`. -/
theorem heapCopySlots_runs (mem0 : Memory) (src : Option Nat) (A n len : Nat)
    (hsrc : ArrayOn mem0 src n len) (hA : mem0.length ≤ A) :
    ∀ (rem i : Nat) (mem : Memory), i + rem = n →
      (∀ x, x < mem0.length → mem[x]? = mem0[x]?) →
      (∃ cells, mem[A]? = some (some cells) ∧ ∀ k, k < n → cells[k]? = some (A + 1 + k + 1)) →
      (∀ k, k < n → ∃ b, mem[A + 1 + k]? = some (some b) ∧ b.length = len) →
      ∃ mem1, heapCopySlots src A len rem i mem = some mem1 ∧ mem1.length = mem.length ∧
        ∀ x, x ≤ A → mem1[x]? = mem[x]? := by
  obtain ⟨S, scells, hS, hscells, _, hslots⟩ := hsrc
  subst hS
  have hlive : ∀ (x : Nat) (b : List Nat), mem0[x]? = some (some b) → x < mem0.length := by
    intro x b hx
    by_contra hge
    rw [List.getElem?_eq_none (by omega)] at hx
    cases hx
  intro rem
  induction rem with
  | zero =>
    intro i mem _ _ _ _
    exact ⟨mem, by simp [heapCopySlots], rfl, fun _ _ => rfl⟩
  | succ rem ih =>
    intro i mem hi hkeep hdst hblocks
    obtain ⟨v, p, sblk, hv, hp, hpblk, hplen⟩ := hslots i (by omega)
    obtain ⟨cells, hcells, hcell⟩ := hdst
    obtain ⟨b, hb, hblen⟩ := hblocks i (by omega)
    have hS1 : mem[S]? = some (some scells) := by
      rw [hkeep S (hlive S scells hscells), hscells]
    have hp1 : mem[p]? = some (some sblk) := by
      rw [hkeep p (hlive p sblk hpblk), hpblk]
    have hwrite := heapWrite_live mem (A + 1 + i) 0 sblk b sblk hb
      (writeBytes_all b sblk (by omega))
    have hkeep2 : ∀ x, x ≤ A → (mem.set (A + 1 + i) (some sblk))[x]? = mem[x]? := by
      intro x hx
      rw [List.getElem?_set_ne (by omega)]
    obtain ⟨mem1, hrun, hlen1, hsame⟩ := ih (i + 1) (mem.set (A + 1 + i) (some sblk)) (by omega)
      (by
        intro x hx
        rw [hkeep2 x (by omega), hkeep x hx])
      ⟨cells, by rw [hkeep2 A (Nat.le_refl _), hcells], hcell⟩
      (by
        intro k hk
        by_cases hki : k = i
        · subst hki
          have hlt : A + 1 + k < mem.length := by
            by_contra hge
            rw [List.getElem?_eq_none (by omega)] at hb
            cases hb
          exact ⟨sblk, by rw [List.getElem?_set_self hlt], hplen⟩
        · rw [List.getElem?_set_ne (by omega)]
          exact hblocks k hk)
    refine ⟨mem1, ?_, by rw [hlen1]; simp, ?_⟩
    · rw [heapCopySlots]
      simp only [hS1, hcells, hv, hcell i (by omega), hp, cellPtr_succ, hp1,
        readBytes_all sblk len hplen, hwrite]
      exact hrun
    · intro x hx
      rw [hsame x hx, hkeep2 x hx]

/-- With every allocation succeeding, an array step of `operator =` for a
target without an array runs to its end when the array of the source is
populated; the new array is at the end of the old heap, which is unchanged. -/
theorem heapCloneArray_runs (mem : Memory) (src : Option Nat) (n len : Nat)
    (script : List Bool) (hscript : ∀ b ∈ script, b = true) (hsrc : ArrayOn mem src n len) :
    ∃ mem1, heapCloneArray mem none src n len script =
        some (some mem.length, mem1, script.tail.drop n) ∧
      mem.length ≤ mem1.length ∧ ∀ x, x < mem.length → mem1[x]? = mem[x]? := by
  have hkeep0 : ∀ x, x < mem.length →
      (mem ++ [some ((List.range n).map (fun m => mem.length + 1 + m + 1))] ++
        List.replicate n (some (List.replicate len 0)))[x]? = mem[x]? := by
    intro x hx
    rw [List.append_assoc, List.getElem?_append_left hx]
  obtain ⟨mem1, hrun, hlen1, hsame⟩ := heapCopySlots_runs mem src mem.length n len hsrc
    (Nat.le_refl _) n 0
    (mem ++ [some ((List.range n).map (fun m => mem.length + 1 + m + 1))] ++
      List.replicate n (some (List.replicate len 0))) (by omega) hkeep0
    ⟨_, getElem?_cells _ _ _, by
      intro k hk
      rw [List.getElem?_map, List.getElem?_range hk]
      rfl⟩
    (by
      intro k hk
      refine ⟨List.replicate len 0, ?_, by simp⟩
      rw [List.getElem?_append_right (by simp)]
      simp [List.getElem?_replicate]
      omega)
  refine ⟨mem1, ?_, ?_, ?_⟩
  · unfold heapCloneArray heapFreeArrayPtrs
    simp only [heapAllocArrayPtrs_runs mem script n len hscript, hrun]
  · rw [hlen1]
    simp
  · intro x hx
    rw [hsame x (by omega), hkeep0 x hx]

theorem arrayOn_keeps (mem mem1 : Memory) (arr : Option Nat) (n len : Nat)
    (hkeep : ∀ x, x < mem.length → mem1[x]? = mem[x]?) (h : ArrayOn mem arr n len) :
    ArrayOn mem1 arr n len := by
  have hlive : ∀ (x : Nat) (b : List Nat), mem[x]? = some (some b) → x < mem.length := by
    intro x b hx
    by_contra hge
    rw [List.getElem?_eq_none (by omega)] at hx
    cases hx
  obtain ⟨A, cells, hA, hcells, hlen, hslots⟩ := h
  refine ⟨A, cells, hA, by rw [hkeep A (hlive A cells hcells), hcells], hlen, ?_⟩
  intro i hi
  obtain ⟨v, p, blk, hv, hp, hblk, hbl⟩ := hslots i hi
  exact ⟨v, p, blk, hv, hp, by rw [hkeep p (hlive p blk hblk), hblk], hbl⟩

/-- With every allocation succeeding, the assignment of a fully populated
descriptor to a freshly constructed target runs to its end: the old heap is
unchanged, and the level pointers of the target lead to a new block, the
second one allocated, that holds the bytes of the source's block. -/
theorem operator_assign_heap_runs (c : Config) (mem : Memory) (s : HeapInfo)
    (script : List Bool) (a : Nat) (blk : List Nat) (hpop : HeapPopulated c mem s)
    (hs : s.cf_levels_ = some a) (hblk : mem[a]? = some (some blk))
    (hscript : ∀ b ∈ script, b = true) :
    ∃ t1 mem1 script1,
      operator_assign_heap c false mem HeapInfo.ctor s script = some (t1, mem1, script1) ∧
      t1.cf_levels_ = some (mem.length + 1) ∧
      t1.det_cf_levels_ = some (mem.length + 1, s.cf_levels_size_) ∧
      t1.cf_levels_size_ = s.cf_levels_size_ ∧
      mem1[mem.length + 1]? = some (some blk) ∧
      ∀ x, x < mem.length → mem1[x]? = mem[x]? := by
  obtain ⟨⟨ad, data, hsd, hdata, hdlen⟩, ⟨a1, blk1, hs1, hblk1, hblen, hfit, hdet⟩, hkws, husers,
    hnames⟩ := hpop
  rw [hs] at hs1
  cases hs1
  rw [hblk] at hblk1
  cases hblk1
  have haL : a < mem.length := by
    by_contra hge
    rw [List.getElem?_eq_none (by omega)] at hblk
    cases hblk
  -- the model data
  have h1 := heapCloneData_runs mem s script ad data hscript hsd hdata hdlen
  have hk1 : ∀ x, x < mem.length → (mem ++ [some data])[x]? = mem[x]? := fun x hx =>
    List.getElem?_append_left hx
  have hsc1 := allTrue_tail script hscript
  -- the block
  have h2 := heapCloneLevels_runs (mem ++ [some data]) s script.tail a blk hsc1 hs hdet
    (by rw [hk1 a haL, hblk]) hblen hfit
  have hlen1 : (mem ++ [some data]).length = mem.length + 1 := by simp
  rw [hlen1] at h2
  have hk2 : ∀ x, x < mem.length → (mem ++ [some data] ++ [some blk])[x]? = mem[x]? := by
    intro x hx
    rw [List.append_assoc, List.getElem?_append_left hx]
  have hnew : (mem ++ [some data] ++ [some blk])[mem.length + 1]? = some (some blk) := by
    rw [← hlen1]
    exact getElem?_append_new _ _
  have hlen2 : (mem ++ [some data] ++ [some blk]).length = mem.length + 2 := by simp
  have hsc2 := allTrue_tail _ hsc1
  -- the three arrays
  obtain ⟨m3, h3, hl3, hk3⟩ := heapCloneArray_runs (mem ++ [some data] ++ [some blk])
    s.keyphrases_ s.num_keyphrases_ c.MAX_STRING_LEN script.tail.tail hsc2
    (arrayOn_keeps mem _ _ _ _ hk2 hkws)
  have hsc3 := allTrue_drop _ s.num_keyphrases_ (allTrue_tail _ hsc2)
  have hk3m : ∀ x, x < mem.length → m3[x]? = mem[x]? := by
    intro x hx
    rw [hk3 x (by omega), hk2 x hx]
  obtain ⟨m4, h4, hl4, hk4⟩ := heapCloneArray_runs m3 s.users_ s.num_users_ c.MAX_STRING_LEN _
    hsc3 (arrayOn_keeps mem _ _ _ _ hk3m husers)
  have hsc4 := allTrue_drop _ s.num_users_ (allTrue_tail _ hsc3)
  have hk4m : ∀ x, x < mem.length → m4[x]? = mem[x]? := by
    intro x hx
    rw [hk4 x (by omega), hk3m x hx]
  obtain ⟨m5, h5, hl5, hk5⟩ := heapCloneArray_runs m4 s.cf_levels_kw_users_ s.cf_levels_size_
    c.MAX_KW_USERS_NAME_LEN _ hsc4 (arrayOn_keeps mem _ _ _ _ hk4m hnames)
  refine ⟨{ sm_data_ := some mem.length,
             sm_size_ := s.sm_size_,
             num_keyphrases_ := s.num_keyphrases_,
             num_users_ := s.num_users_,
             keyphrases_ := some (mem ++ [some data] ++ [some blk]).length,
             users_ := some m3.length,
             cf_levels_kw_users_ := some m4.length,
             cf_levels_ := some (mem.length + 1),
             det_cf_levels_ := some (mem.length + 1, s.cf_levels_size_),
             cf_levels_size_ := s.cf_levels_size_ }, m5,
    List.drop s.cf_levels_size_
      (List.drop s.num_users_ (List.drop s.num_keyphrases_ script.tail.tail.tail).tail).tail,
    ?_, ?_, ?_, ?_, ?_, ?_⟩
  · unfold operator_assign_heap
    simp only [Bool.false_eq_true, if_false, HeapInfo.ctor, h1, h2, h3, h4, h5]
  · rfl
  · rfl
  · rfl
  · rw [hk5 _ (by omega), hk4 _ (by omega), hk3 _ (by omega), hnew]
  · intro x hx
    rw [hk5 x (by omega), hk4m x hx]

theorem sample_populated : HeapPopulated sampleConfig sampleMemory sampleSource := by
  refine ⟨⟨0, [1, 2], rfl, rfl, rfl⟩, ⟨1, [100, 90, 7, 8], rfl, rfl, rfl, by decide, rfl⟩,
    ⟨2, [4], rfl, rfl, rfl, ?_⟩, ⟨4, [6], rfl, rfl, rfl, ?_⟩, ⟨6, [8, 9], rfl, rfl, rfl, ?_⟩⟩
  · intro i hi
    have hi1 : i < 1 := hi
    interval_cases i
    exact ⟨4, 3, _, rfl, rfl, rfl, rfl⟩
  · intro i hi
    have hi1 : i < 1 := hi
    interval_cases i
    exact ⟨6, 5, _, rfl, rfl, rfl, rfl⟩
  · intro i hi
    have hi2 : i < 2 := hi
    interval_cases i
    · exact ⟨8, 7, _, rfl, rfl, rfl, rfl⟩
    · exact ⟨9, 8, _, rfl, rfl, rfl, rfl⟩

/-- C15: on a heap where the fully populated descriptor `s` holds its level
block `blk` at address `a`, and the target `t` holds no pointer to that block:
after every completed assignment `t = s` (all of `operator =`, whatever the
allocations do) followed by any returning call of `UpdateConfLevelArray` on
`t`, the block at `a` is still `blk`, so `cf_levels_` and `det_cf_levels_` of
`s` read the values they had before the assignment, and no level pointer of
`t` leads to the block of `s`: no storage is shared.  For a freshly
constructed `t` and every allocation succeeding the assignment does run to its
end, `t` then reads the same levels as `s` from a block of its own, and every
update with a report of at least `cfl_size` bytes returns. -/
theorem assign_update_no_sharing (c : Config) (mem : Memory) (t s : HeapInfo) (a : Nat)
    (blk : List Nat) (hpop : HeapPopulated c mem s) (hs : s.cf_levels_ = some a)
    (hblk : mem[a]? = some (some blk)) (hno : HoldsNoPointerTo mem t a) :
    (∀ script t1 mem1 script1 conf_levels cfl_size status mem2,
      operator_assign_heap c false mem t s script = some (t1, mem1, script1) →
      heapUpdateConfLevelArray mem1 t1 conf_levels cfl_size = some (status, mem2) →
      mem1[a]? = some (some blk) ∧ mem2[a]? = some (some blk) ∧
      levelsOf mem2 s = levelsOf mem s ∧
      levelsOf mem s =
        (some (blk.take s.cf_levels_size_), some (blk.drop s.cf_levels_size_)) ∧
      t1.cf_levels_ ≠ some a ∧ ∀ q, t1.det_cf_levels_ = some q → q.1 ≠ a) ∧
    (t = HeapInfo.ctor → ∀ script, (∀ b ∈ script, b = true) →
      ∃ t1 mem1 script1,
        operator_assign_heap c false mem t s script = some (t1, mem1, script1) ∧
        levelsOf mem1 t1 = levelsOf mem s ∧
        ∀ report cfl_size, cfl_size ≤ report.length →
          ∃ status mem2,
            heapUpdateConfLevelArray mem1 t1 (some report) cfl_size = some (status, mem2)) := by
  have hpop0 := hpop
  obtain ⟨_, ⟨a1, blk1, hs1, hblk1, hblen, hfit, hdet⟩, _⟩ := hpop
  rw [hs] at hs1
  cases hs1
  rw [hblk] at hblk1
  cases hblk1
  have haL : a < mem.length := by
    by_contra hge
    rw [List.getElem?_eq_none (by omega)] at hblk
    cases hblk
  have hlo := heapRead_live mem a 0 s.cf_levels_size_ blk _ hblk
    (memcpySrc_some_zero blk _ (by omega))
  have hhi := heapRead_live mem a s.cf_levels_size_ s.cf_levels_size_ blk _ hblk
    (memcpySrc_upper_half blk _ hblen)
  have hlevels : levelsOf mem s =
      (some (blk.take s.cf_levels_size_), some (blk.drop s.cf_levels_size_)) := by
    unfold levelsOf
    simp only [hs, hdet, Option.map_some', hlo, hhi]
  constructor
  · intro script t1 mem1 script1 conf_levels cfl_size status mem2 hassign hupd
    obtain ⟨h1, _, hnew, hnewdet⟩ :=
      operator_assign_heap_frame c mem mem1 t s t1 script script1 a blk hassign hblk hno
    have hne : t1.cf_levels_ ≠ some a := by
      intro e
      have := hnew a e
      omega
    have h2 : mem2[a]? = some (some blk) := by
      rw [heapUpdateConfLevelArray_frame mem1 mem2 t1 conf_levels cfl_size status hupd a hne, h1]
    refine ⟨h1, h2, ?_, hlevels, hne, ?_⟩
    · unfold levelsOf heapRead
      simp only [hs, hdet, Option.map_some', h2, hblk]
    · intro q hq e
      have := hnewdet q hq
      omega
  · intro ht script hscript
    subst ht
    obtain ⟨t1, mem1, script1, hrun, hcf, hdt, hsz, hnew, _⟩ :=
      operator_assign_heap_runs c mem s script a blk hpop0 hs hblk hscript
    refine ⟨t1, mem1, script1, hrun, ?_, ?_⟩
    · rw [hlevels]
      have hlo1 := heapRead_live mem1 (mem.length + 1) 0 s.cf_levels_size_ blk _ hnew
        (memcpySrc_some_zero blk _ (by omega))
      have hhi1 := heapRead_live mem1 (mem.length + 1) s.cf_levels_size_ s.cf_levels_size_ blk _
        hnew (memcpySrc_upper_half blk _ hblen)
      unfold levelsOf
      simp only [hcf, hdt, hsz, Option.map_some', hlo1, hhi1]
    · intro report cfl_size hrep
      unfold heapUpdateConfLevelArray
      split
      · exact ⟨_, _, rfl⟩
      · rename_i hcond
        have hle : cfl_size ≤ s.cf_levels_size_ := by
          by_contra hgt
          exact hcond (Or.inl (by rw [hsz]; omega))
        have hw := heapWrite_live mem1 (mem.length + 1) 0 (report.take cfl_size) blk _ hnew
          (writeBytes_zero blk (report.take cfl_size) (by
            rw [List.length_take]
            omega))
        simp only [hcf, memcpySrc_some_zero report cfl_size hrep, hw]
        exact ⟨_, _, rfl⟩

/-- Witness of C15: the sample descriptor assigned to a fresh target.  The clone
gets the block at address 10 with the levels of the source; an update of the
clone changes that block only, and the levels of the source are still 100, 90
and 7, 8, as after every assignment and update.  A target that holds a
keyphrase array with no slot has no defined assignment: `FreeArrayPtrs` is
called on its array with the count of the source.  A second assignment, to
the populated clone, frees the blocks of the clone, gives it the new block at
address 19 and leaves the source as it is. -/
theorem assign_update_no_sharing_witness :
    operator_assign_heap sampleConfig false sampleMemory HeapInfo.ctor sampleSource [] =
      some (sampleClone, sampleCloneMemory, []) ∧
    levelsOf sampleCloneMemory sampleClone = (some [100, 90], some [7, 8]) ∧
    heapUpdateConfLevelArray sampleCloneMemory sampleClone (some [55, 44]) 2 =
      some (0, sampleCloneMemory.set 10 (some [55, 44, 7, 8])) ∧
    levelsOf (sampleCloneMemory.set 10 (some [55, 44, 7, 8])) sampleClone =
      (some [55, 44], some [7, 8]) ∧
    levelsOf (sampleCloneMemory.set 10 (some [55, 44, 7, 8])) sampleSource =
      (some [100, 90], some [7, 8]) ∧
    operator_assign_heap sampleConfig false (sampleMemory ++ [some []])
      { HeapInfo.ctor with keyphrases_ := some 9 } sampleSource [] = none ∧
    ((operator_assign_heap sampleConfig false sampleCloneMemory sampleClone sampleSource
        []).bind (fun r =>
      (heapUpdateConfLevelArray r.2.1 r.1 (some [55, 44]) 2).map (fun u =>
        (u.1, r.1.cf_levels_, levelsOf u.2 r.1, levelsOf u.2 sampleSource)))) =
      some (0, some 19, (some [55, 44], some [7, 8]), (some [100, 90], some [7, 8])) ∧
    ∀ script t1 mem1 script1 conf_levels cfl_size status mem2,
      operator_assign_heap sampleConfig false sampleMemory HeapInfo.ctor sampleSource script =
        some (t1, mem1, script1) →
      heapUpdateConfLevelArray mem1 t1 conf_levels cfl_size = some (status, mem2) →
      levelsOf mem2 sampleSource = (some [100, 90], some [7, 8]) := by
  have h := assign_update_no_sharing sampleConfig sampleMemory HeapInfo.ctor sampleSource 1
    [100, 90, 7, 8] sample_populated rfl rfl
    ⟨by simp [HeapInfo.ctor], by simp [HeapInfo.ctor], fun b hb => by simp [HeapInfo.ctor] at hb⟩
  have hgen : ∀ script t1 mem1 script1 conf_levels cfl_size status mem2,
      operator_assign_heap sampleConfig false sampleMemory HeapInfo.ctor sampleSource script =
        some (t1, mem1, script1) →
      heapUpdateConfLevelArray mem1 t1 conf_levels cfl_size = some (status, mem2) →
      levelsOf mem2 sampleSource = (some [100, 90], some [7, 8]) := by
    intro script t1 mem1 script1 conf_levels cfl_size status mem2 hassign hupd
    obtain ⟨_, _, h3, h4, _⟩ :=
      h.1 script t1 mem1 script1 conf_levels cfl_size status mem2 hassign hupd
    rw [h3, h4]
    rfl
  have hrun : operator_assign_heap sampleConfig false sampleMemory HeapInfo.ctor sampleSource
      [] = some (sampleClone, sampleCloneMemory, []) := by decide
  have hupd : heapUpdateConfLevelArray sampleCloneMemory sampleClone (some [55, 44]) 2 =
      some (0, sampleCloneMemory.set 10 (some [55, 44, 7, 8])) := by decide
  exact ⟨hrun, by decide, hupd, by decide, hgen _ _ _ _ _ _ _ _ hrun hupd, by decide,
    by rfl, hgen⟩

end SoundTriggerUtils
